import Mathlib

/-!
Reduction kernels of `mlx/backend/common/reduce.h`.

A shallow embedding of the CPU reduction engine: the two accumulation kernels
(`contiguous_reduce`, `strided_reduce`) and the dispatcher `reduction_op`.

Conventions of the embedding.

* The input buffer is a total map `Int → α` addressed by element offset from
  `x.data<T>()`; a `const T*` is an `Int` offset into it.  The output buffer is
  a total map `Nat → α` addressed from `out.data<U>()`; a `U*` is a `Nat` index.
  Input and output are distinct buffers, as in the source.
* The element type `T` and the accumulator type `U` are the same type `α`.
* Every `while` loop, and every `for` loop over `out.size()`, takes a fuel
  argument and answers `none` when the fuel runs out; the enclosing function
  supplies fuel that suffices for every terminating run.  `none` therefore
  stands for an execution without a defined result: a loop that does not
  terminate, `back()` of an empty vector, or the overflow of a signed counter.
* The `int size` of the kernels and the `int` extents of a plan are integers
  (`Int`).  Every narrowing conversion of the dispatcher is explicit:
  `size_t → int` of `x.size()` and of the counter stepped by the reduction
  stride (`to_int`), `int64_t → size_t` of the reduction stride and
  `int → size_t` of a counter compared with `out.size()` (`to_size_t`),
  and 64 bits to `int` of the offsets stored in `int offset` and handed to the
  `int` parameter of the `nd_loop` callback (`to_int32`).
* `simd/simd.h` and `utils.h` are not part of `reduce.h`; what `reduce.h` uses
  of them is modelled from the specification and marked so.
-/

namespace mlx

/-! ## SIMD primitives (`simd/simd.h`) -/

/-- Modelled from the spec: `simd::Simd<U, N>` of `simd/simd.h`, a vector of `N`
lanes; lane `j` is the value at `j`, for `j < N`. -/
abbrev Simd (α : Type) := Nat → α

/-- Modelled from the spec: the broadcasting constructor `simd::Simd<U, N>(init)`
("seeded with `init`"). -/
def simd_broadcast {α : Type} (v : α) : Simd α := fun _ => v

/-- Modelled from the spec: `simd::load<T, N>(x)` on an input pointer, lane `j`
holding `x[j]`. -/
def simd_load {α : Type} (x : Int → α) (p : Int) : Simd α := fun j => x (p + (j : Int))

/-- Modelled from the spec: `simd::load<U, N>(accumulator)` on an accumulator
pointer. -/
def simd_load_acc {α : Type} (acc : Nat → α) (p : Nat) : Simd α := fun j => acc (p + j)

/-- Modelled from the spec: `simd::store<U, N>(accumulator, v)`, writing lane `j`
to slot `p + j` for `j < N`. -/
def simd_store {α : Type} (N : Nat) (acc : Nat → α) (p : Nat) (v : Simd α) : Nat → α :=
  fun k => if p ≤ k ∧ k < p + N then v (k - p) else acc k

/-- Modelled from the spec: the binary overload `op(a, b)` on vectors ("combining
block-wise with `op`"), acting lane by lane. -/
def simd_op {α : Type} (op : α → α → α) (a b : Simd α) : Simd α := fun j => op (a j) (b j)

/-- Modelled from the spec: the unary overload `op(v)` on a vector
("horizontally combine the `N` lanes into one scalar via `op`"): lanes
`0, 1, ..., N-1` combined from the left. -/
def simd_hreduce {α : Type} (N : Nat) (op : α → α → α) (v : Simd α) : α :=
  (List.range (N - 1)).foldl (fun a j => op a (v (j + 1))) (v 0)

/-! ## `contiguous_reduce` -/

/-- The loop `while (size >= N) { accumulator_v = op(accumulator_v, load(x));
x += N; size -= N; }` of `contiguous_reduce`; answers the final `x`, `size`
and `accumulator_v`. -/
def contiguous_vec_loop {α : Type} (N : Nat) (op : α → α → α) (x : Int → α) :
    Nat → Int → Int → Simd α → Option (Int × Int × Simd α)
  | 0, _, _, _ => none
  | fuel + 1, xp, size, accv =>
    if size ≥ (N : Int) then
      contiguous_vec_loop N op x fuel (xp + N) (size - N) (simd_op op accv (simd_load x xp))
    else some (xp, size, accv)

/-- The loop `while (size-- > 0) { *accumulator = op(*accumulator, *x); x++; }`
of `contiguous_reduce`; answers the final `*accumulator`. -/
def contiguous_tail_loop {α : Type} (op : α → α → α) (x : Int → α) :
    Nat → Int → Int → α → Option α
  | 0, _, _, _ => none
  | fuel + 1, xp, size, acc =>
    if size > 0 then contiguous_tail_loop op x fuel (xp + 1) (size - 1) (op acc (x xp))
    else some acc

/-- The kernel `contiguous_reduce(x, accumulator, size, op, init)`, with vector
width `N`.  `xp` is the pointer `x`, `acc` the value `*accumulator` on entry;
the answer is `*accumulator` on return. -/
def contiguous_reduce {α : Type} (N : Nat) (op : α → α → α) (x : Int → α) (xp : Int)
    (acc : α) (size : Int) (init : α) : Option α :=
  match contiguous_vec_loop N op x (size.toNat + 1) xp size (simd_broadcast init) with
  | none => none
  | some (xp1, size1, accv) =>
    contiguous_tail_loop op x (size1.toNat + 1) xp1 size1 (op acc (simd_hreduce N op accv))

/-! ## `strided_reduce` -/

/-- The loop `while (s >= N) { store(acc, op(load(acc), load(x))); acc += N;
x += N; s -= N; }` of `strided_reduce`; answers the final `x`,
`moving_accumulator`, `s` and accumulator buffer. -/
def strided_vec_loop {α : Type} (N : Nat) (op : α → α → α) (x : Int → α) :
    Nat → Int → Nat → Nat → (Nat → α) → Option (Int × Nat × Nat × (Nat → α))
  | 0, _, _, _, _ => none
  | fuel + 1, xp, ma, s, buf =>
    if s ≥ N then
      strided_vec_loop N op x fuel (xp + N) (ma + N) (s - N)
        (simd_store N buf ma (simd_op op (simd_load_acc buf ma) (simd_load x xp)))
    else some (xp, ma, s, buf)

/-- The loop `while (s-- > 0) { *acc = op(*acc, *x); acc++; x++; }` of
`strided_reduce`; answers the final `x` and accumulator buffer. -/
def strided_tail_loop {α : Type} (op : α → α → α) (x : Int → α) :
    Nat → Int → Nat → Nat → (Nat → α) → Option (Int × (Nat → α))
  | 0, _, _, _, _ => none
  | fuel + 1, xp, ma, s, buf =>
    if s > 0 then
      strided_tail_loop op x fuel (xp + 1) (ma + 1) (s - 1)
        (Function.update buf ma (op (buf ma) (x xp)))
    else some (xp, buf)

/-- The loop `for (int i = 0; i < size; i++) { ... }` of `strided_reduce`, by
the number of iterations left; `ap` is the pointer `accumulator`.  Answers the
final `x` and accumulator buffer. -/
def strided_rows {α : Type} (N : Nat) (op : α → α → α) (x : Int → α) (stride : Nat)
    (ap : Nat) : Nat → Int → (Nat → α) → Option (Int × (Nat → α))
  | 0, xp, buf => some (xp, buf)
  | n + 1, xp, buf =>
    match strided_vec_loop N op x (stride + 1) xp ap stride buf with
    | none => none
    | some (xp1, ma, s, buf1) =>
      match strided_tail_loop op x (s + 1) xp1 ma s buf1 with
      | none => none
      | some (xp2, buf2) => strided_rows N op x stride ap n xp2 buf2

/-- The kernel `strided_reduce(x, accumulator, size, stride, op)`, with vector
width `N`.  `buf` is the buffer `accumulator` points into, at index `ap`; the
answer is that buffer on return. -/
def strided_reduce {α : Type} (N : Nat) (op : α → α → α) (x : Int → α) (xp : Int)
    (buf : Nat → α) (ap : Nat) (size : Int) (stride : Nat) : Option (Nat → α) :=
  (strided_rows N op x stride ap size.toNat xp buf).map Prod.snd

/-! ## Integer conversions -/

/-- The conversion of a `size_t` to `int` (two's complement, 32 bits), as at the
call `contiguous_reduce(x.data<T>(), out_ptr, x.size(), op, init)`. -/
def to_int (n : Nat) : Int := ((n : Int) + 2 ^ 31) % 2 ^ 32 - 2 ^ 31

/-- The conversion of an `int64_t` stride to `size_t` (64 bits), as at
`size_t reduction_stride = plan.strides.back()`. -/
def to_size_t (z : Int) : Nat := (z % 2 ^ 64).toNat

/-- The conversion of a 64-bit offset to `int` (two's complement, 32 bits), as at
`int offset = elem_to_loc(i, shape, strides)` and at the `int` parameter of the
callback `std::function<void(int)>` of `nd_loop`. -/
def to_int32 (z : Int) : Int := (z + 2 ^ 31) % 2 ^ 32 - 2 ^ 31

/-! ## Collaborators declared but not defined in `reduce.h` -/

/-- The loop `for (int i = i0; i < i0 + n; i++) body(i)` over an `int` extent,
by the number `n` of iterations left, threading the state through the body. -/
def for_loop {σ : Type} (body : Nat → σ → Option σ) : Nat → Nat → σ → Option σ
  | 0, _, s => some s
  | n + 1, i, s =>
    match body i s with
    | none => none
    | some s1 => for_loop body n (i + 1) s1

/-- Modelled from the spec: `elem_to_loc` of `utils.h` (section 4.1, Location
Mapper), on the dimensions listed innermost first: "row-major unraveling
against `shape`, then `offset = Σ coordinate[d] * strides[d]`". -/
def elem_to_loc_inner : Int → List (Int × Int) → Int
  | _, [] => 0
  | elem, (n, s) :: dims => (elem % n) * s + elem_to_loc_inner (elem / n) dims

/-- Modelled from the spec: `elem_to_loc(elem, shape, strides)` of `utils.h`
(section 4.1), the memory offset of the logical element `elem`. -/
def elem_to_loc (elem : Int) (shape strides : List Int) : Int :=
  elem_to_loc_inner elem (shape.zip strides).reverse

/-- Modelled from the spec: the recursion of `nd_loop` (section 4.2, Loop
Driver), not defined in `reduce.h`: one nested `for` loop per dimension, outer
to inner, the callback receiving the cumulative offset; a single call with the
offset reached so far when no dimension is left.  The callback is a
`std::function<void(int)>` (line 55): the offset reaches it as an `int`. -/
def nd_loop_inner {σ : Type} (callback : Int → σ → Option σ) :
    List Int → List Int → Int → σ → Option σ
  | [], _, offset, s => callback (to_int32 offset) s
  | n :: shape, strides, offset, s =>
    for_loop
      (fun i st => nd_loop_inner callback shape strides.tail
        (offset + (i : Int) * strides.headD 0) st)
      n.toNat 0 s

/-- Modelled from the spec: `nd_loop(callback, shape, strides)` (section 4.2),
declared in `reduce.h` and defined elsewhere.  The callback threads the state
it captures by reference. -/
def nd_loop {σ : Type} (callback : Int → σ → Option σ) (shape strides : List Int)
    (s : σ) : Option σ :=
  nd_loop_inner callback shape strides 0 s

/-- Modelled from the spec: `std::fill_n(out_ptr, n, init)`. -/
def fill_n {α : Type} (buf : Nat → α) (p n : Nat) (v : α) : Nat → α :=
  fun k => if p ≤ k ∧ k < p + n then v else buf k

/-! ## The dispatcher `reduction_op` -/

/-- The six access patterns of `enum ReductionOpType`. -/
inductive ReductionOpType
  | ContiguousAllReduce
  | ContiguousReduce
  | ContiguousStridedReduce
  | GeneralContiguousReduce
  | GeneralStridedReduce
  | GeneralReduce
  deriving DecidableEq

/-- The plan of `struct ReductionPlan`: `Shape` holds `int` extents, `Strides`
holds `int64_t` strides. -/
structure ReductionPlan where
  type : ReductionOpType
  shape : List Int
  strides : List Int

/-- The loop `for (int i = 0; i < out.size(); i++) body(i)` of the dispatcher.
The counter is an `int` compared with a `size_t`; it starts at 0 and only grows,
so it is a natural number below `2^31`, and incrementing it at `INT_MAX` is a
signed overflow, without a defined result. -/
def out_loop {σ : Type} (body : Nat → σ → Option σ) (bound : Nat) :
    Nat → Nat → σ → Option σ
  | 0, _, _ => none
  | fuel + 1, i, s =>
    if i < bound then
      match body i s with
      | none => none
      | some s1 => if i + 1 < 2 ^ 31 then out_loop body bound fuel (i + 1) s1 else none
    else some s

/-- The loop `for (int i = 0; i < out.size(); i += reduction_stride) body(i)` of
the strided branches.  The test converts the `int` counter to `size_t`; the step
adds the `size_t` stride in 64 bits and narrows the sum back to `int`. -/
def stepped_loop {σ : Type} (body : Int → σ → Option σ) (bound step : Nat) :
    Nat → Int → σ → Option σ
  | 0, _, _ => none
  | fuel + 1, i, s =>
    if to_size_t i < bound then
      match body i s with
      | none => none
      | some s1 => stepped_loop body bound step fuel (to_int (to_size_t i + step)) s1
    else some s

/-- The call `contiguous_reduce(x_ptr, out_ptr, reduction_size, op, init)` on
the output buffer: it reads `*out_ptr` and writes the result back to it.  The
callers store `init` at `out_ptr` first (`*out_ptr = init;`). -/
def reduce_into {α : Type} (N : Nat) (op : α → α → α) (init : α) (x : Int → α)
    (x_ptr : Int) (reduction_size : Int) (out_ptr : Nat) (out : Nat → α) :
    Option (Nat → α) :=
  (contiguous_reduce N op x x_ptr (out out_ptr) reduction_size init).map
    (Function.update out out_ptr)

/-- The branch `plan.type == ContiguousAllReduce` (lines 116-121). -/
def reduction_op_all {α : Type} (N : Nat) (op : α → α → α) (init : α) (x : Int → α)
    (x_size : Nat) (out : Nat → α) : Option (Nat → α) :=
  reduce_into N op init x 0 (to_int x_size) 0 (Function.update out 0 init)

/-- The branch `plan.type == ContiguousReduce && plan.shape.size() == 1`
(lines 123-132).  The loop state is `(x_ptr, out_ptr, out)`. -/
def reduction_op_contiguous {α : Type} (N : Nat) (op : α → α → α) (init : α)
    (x : Int → α) (out_size : Nat) (plan : ReductionPlan) (out : Nat → α) :
    Option (Nat → α) :=
  let reduction_size := plan.shape.headD 0
  (out_loop
    (fun _ (st : Int × Nat × (Nat → α)) =>
      match reduce_into N op init x st.1 reduction_size st.2.1
          (Function.update st.2.2 st.2.1 init) with
      | none => none
      | some o => some (st.1 + reduction_size, st.2.1 + 1, o))
    out_size (out_size + 1) 0 (0, 0, out)).map (fun st => st.2.2)

/-- The branch `plan.type == GeneralContiguousReduce || plan.type ==
ContiguousReduce` (lines 134-167).  `shape`, `strides` are the answer of
`shapes_without_reduction_axes(x, axes)`.  The loop state is `(out_ptr, out)`. -/
def reduction_op_general_contiguous {α : Type} (N : Nat) (op : α → α → α) (init : α)
    (x : Int → α) (out_size : Nat) (plan : ReductionPlan) (shape strides : List Int)
    (out : Nat → α) : Option (Nat → α) :=
  match plan.shape.getLast?, plan.strides.getLast? with
  | some reduction_size, some _ =>
    let plan_shape := plan.shape.dropLast
    let plan_strides := plan.strides.dropLast
    if plan_shape.length = 0 then
      (out_loop
        (fun i (st : Nat × (Nat → α)) =>
          let offset := to_int32 (elem_to_loc i shape strides)
          match reduce_into N op init x (0 + offset) reduction_size st.1
              (Function.update st.2 st.1 init) with
          | none => none
          | some o => some (st.1 + 1, o))
        out_size (out_size + 1) 0 (0, out)).map (fun st => st.2)
    else
      (out_loop
        (fun i (st : Nat × (Nat → α)) =>
          let offset := to_int32 (elem_to_loc i shape strides)
          match nd_loop
              (fun extra_offset o =>
                (contiguous_reduce N op x (0 + offset + extra_offset) (o st.1)
                  reduction_size init).map (Function.update o st.1))
              plan_shape plan_strides (Function.update st.2 st.1 init) with
          | none => none
          | some o => some (st.1 + 1, o))
        out_size (out_size + 1) 0 (0, out)).map (fun st => st.2)
  | _, _ => none

/-- The body of the loop of lines 176-181: `std::fill_n`, `strided_reduce`, and
the steps of `x_ptr` and `out_ptr`.  The loop state is `(x_ptr, out_ptr, out)`. -/
def strided_group {α : Type} (N : Nat) (op : α → α → α) (init : α) (x : Int → α)
    (reduction_size : Int) (reduction_stride : Nat) :
    Int → Int × Nat × (Nat → α) → Option (Int × Nat × (Nat → α)) :=
  fun _ st =>
    match strided_reduce N op x st.1 (fill_n st.2.2 st.2.1 reduction_stride init)
        st.2.1 reduction_size reduction_stride with
    | none => none
    | some o =>
      some (st.1 + (reduction_stride : Int) * reduction_size, st.2.1 + reduction_stride, o)

/-- The loop over output groups of lines 176-181, with the fuel it may use. -/
def strided_group_loop {α : Type} (N : Nat) (op : α → α → α) (init : α) (x : Int → α)
    (out_size : Nat) (reduction_size : Int) (reduction_stride : Nat) (fuel : Nat)
    (out : Nat → α) : Option (Int × Nat × (Nat → α)) :=
  stepped_loop (strided_group N op init x reduction_size reduction_stride) out_size
    reduction_stride fuel 0 (0, 0, out)

/-- The branch `plan.type == ContiguousStridedReduce && plan.shape.size() == 1`
(lines 169-183). -/
def reduction_op_strided {α : Type} (N : Nat) (op : α → α → α) (init : α)
    (x : Int → α) (out_size : Nat) (plan : ReductionPlan) (out : Nat → α) :
    Option (Nat → α) :=
  match plan.shape.getLast?, plan.strides.getLast? with
  | some reduction_size, some stride =>
    (strided_group_loop N op init x out_size reduction_size (to_size_t stride)
      (out_size + 1) out).map (fun st => st.2.2)
  | _, _ => none

/-- The body of the loop of lines 195-201 (no reduced axis left to walk).  The
loop state is `(out_ptr, out)`. -/
def general_strided_flat_group {α : Type} (N : Nat) (op : α → α → α) (init : α)
    (x : Int → α) (shape strides : List Int) (reduction_size : Int)
    (reduction_stride : Nat) : Int → Nat × (Nat → α) → Option (Nat × (Nat → α)) :=
  fun i st =>
    let offset := to_int32 (elem_to_loc i shape strides)
    match strided_reduce N op x (0 + offset) (fill_n st.2 st.1 reduction_stride init) st.1
        reduction_size reduction_stride with
    | none => none
    | some o => some (st.1 + reduction_stride, o)

/-- The body of the loop of lines 203-218 (`nd_loop` over the reduced axes left).
The loop state is `(out_ptr, out)`. -/
def general_strided_nd_group {α : Type} (N : Nat) (op : α → α → α) (init : α)
    (x : Int → α) (shape strides plan_shape plan_strides : List Int) (reduction_size : Int)
    (reduction_stride : Nat) : Int → Nat × (Nat → α) → Option (Nat × (Nat → α)) :=
  fun i st =>
    let offset := to_int32 (elem_to_loc i shape strides)
    match nd_loop
        (fun extra_offset o =>
          strided_reduce N op x (0 + offset + extra_offset) o st.1 reduction_size
            reduction_stride)
        plan_shape plan_strides (fill_n st.2 st.1 reduction_stride init) with
    | none => none
    | some o => some (st.1 + reduction_stride, o)

/-- The loop over output groups of lines 194-219, with the fuel it may use. -/
def general_strided_group_loop {α : Type} (N : Nat) (op : α → α → α) (init : α)
    (x : Int → α) (out_size : Nat) (shape strides plan_shape plan_strides : List Int)
    (reduction_size : Int) (reduction_stride : Nat) (fuel : Nat) (out : Nat → α) :
    Option (Nat × (Nat → α)) :=
  if plan_shape.length = 0 then
    stepped_loop
      (general_strided_flat_group N op init x shape strides reduction_size reduction_stride)
      out_size reduction_stride fuel 0 (0, out)
  else
    stepped_loop
      (general_strided_nd_group N op init x shape strides plan_shape plan_strides
        reduction_size reduction_stride)
      out_size reduction_stride fuel 0 (0, out)

/-- The branch `plan.type == GeneralStridedReduce || plan.type ==
ContiguousStridedReduce` (lines 185-221). -/
def reduction_op_general_strided {α : Type} (N : Nat) (op : α → α → α) (init : α)
    (x : Int → α) (out_size : Nat) (plan : ReductionPlan) (shape strides : List Int)
    (out : Nat → α) : Option (Nat → α) :=
  match plan.shape.getLast?, plan.strides.getLast? with
  | some reduction_size, some stride =>
    (general_strided_group_loop N op init x out_size shape strides plan.shape.dropLast
      plan.strides.dropLast reduction_size (to_size_t stride) (out_size + 1) out).map
      (fun st => st.2)
  | _, _ => none

/-- The branch `plan.type == GeneralReduce` (lines 223-238).  The loop state is
`(out_ptr, out)`; the state of the callback is `val`. -/
def reduction_op_general {α : Type} (op : α → α → α) (init : α)
    (x : Int → α) (out_size : Nat) (plan : ReductionPlan) (shape strides : List Int)
    (out : Nat → α) : Option (Nat → α) :=
  (out_loop
    (fun i (st : Nat × (Nat → α)) =>
      let offset := to_int32 (elem_to_loc i shape strides)
      match nd_loop (fun extra_offset val => some (op val (x (0 + offset + extra_offset))))
          plan.shape plan.strides init with
      | none => none
      | some val => some (st.1 + 1, Function.update st.2 st.1 val))
    out_size (out_size + 1) 0 (0, out)).map (fun st => st.2)

/-- The function `reduction_op(x, out, axes, init, op)`, with vector width `N`.
`x` is the input buffer and `x_size` is `x.size()`; `out` is the freshly
allocated output buffer and `out_size` is `out.size()`; `plan` is the answer of
`get_reduction_plan(x, axes)` and `shape`, `strides` the answer of
`shapes_without_reduction_axes(x, axes)`, neither defined in `reduce.h`.  The
answer is the output buffer on return. -/
def reduction_op {α : Type} (N : Nat) (op : α → α → α) (init : α) (x : Int → α)
    (x_size : Nat) (out_size : Nat) (plan : ReductionPlan) (shape strides : List Int)
    (out : Nat → α) : Option (Nat → α) :=
  if plan.type = .ContiguousAllReduce then
    reduction_op_all N op init x x_size out
  else if plan.type = .ContiguousReduce ∧ plan.shape.length = 1 then
    reduction_op_contiguous N op init x out_size plan out
  else if plan.type = .GeneralContiguousReduce ∨ plan.type = .ContiguousReduce then
    reduction_op_general_contiguous N op init x out_size plan shape strides out
  else if plan.type = .ContiguousStridedReduce ∧ plan.shape.length = 1 then
    reduction_op_strided N op init x out_size plan out
  else if plan.type = .GeneralStridedReduce ∨ plan.type = .ContiguousStridedReduce then
    reduction_op_general_strided N op init x out_size plan shape strides out
  else if plan.type = .GeneralReduce then
    reduction_op_general op init x out_size plan shape strides out
  else some out

/-- The first `n` slots of a buffer, as a list. -/
def slots {α : Type} (n : Nat) (buf : Nat → α) : List α := (List.range n).map buf

/-- The `n` input elements from offset `p` on, as a list. -/
def segment {α : Type} (x : Int → α) (p : Int) (n : Nat) : List α :=
  (List.range n).map (fun (t : Nat) => x (p + (t : Int)))

/-- A row-major input buffer holding the given list, default elsewhere. -/
def of_list {α : Type} (d : α) (l : List α) : Int → α := fun i => l.getD i.toNat d

/-- One pass of `op(*acc, *x)` over the `n` accumulator slots from `ma` on,
slot `ma + t` combined with `x[xp + t]`. -/
def row_update {α : Type} (op : α → α → α) (x : Int → α) (xp : Int) (ma n : Nat)
    (buf : Nat → α) : Nat → α :=
  fun t => if ma ≤ t ∧ t < ma + n then op (buf t) (x (xp + ((t - ma : Nat) : Int))) else buf t

/-- The elements `x[xp + j], x[xp + j + stride], ...` of `n` consecutive
groups, in increasing group order. -/
def column {α : Type} (x : Int → α) (xp : Int) (stride : Nat) (j : Nat) (n : Nat) : List α :=
  (List.range n).map (fun (i : Nat) => x (xp + (j : Int) + (i : Int) * (stride : Int)))

/-- The operator `max` on integers extended with a least element `none`
(the seed `-∞` of a max-reduction). -/
def max_bot : Option Int → Option Int → Option Int
  | none, b => b
  | a, none => a
  | some a, some b => some (if a ≤ b then b else a)

/-- The coordinate combinations of a shape in row-major order (last coordinate
fastest). -/
def nd_coords : List Int → List (List Nat)
  | [] => [[]]
  | n :: shape => (List.range n.toNat).flatMap (fun i => (nd_coords shape).map (fun c => i :: c))

/-- The offset `Σ coordinate[d] * strides[d]` of a coordinate combination. -/
def coord_offset : List Nat → List Int → Int
  | [], _ => 0
  | c :: cs, strides => (c : Int) * strides.headD 0 + coord_offset cs strides.tail

/-- The offsets of all coordinate combinations of a shape, in row-major
coordinate order. -/
def nd_offsets (shape strides : List Int) : List Int :=
  (nd_coords shape).map (fun c => coord_offset c strides)

/-- The range of an `int`: the values a 32-bit signed offset can hold. -/
def fits_int (z : Int) : Prop := -(2 : Int) ^ 31 ≤ z ∧ z < 2 ^ 31

/-! ## Theorems -/
/-! ## Folding lemmas -/

section fold_lemmas

variable {α : Type} (op : α → α → α)

theorem segment_succ (x : Int → α) (p : Int) (n : Nat) :
    segment x p (n + 1) = segment x p n ++ [x (p + (n : Int))] := by
  simp [segment, List.range_succ]

theorem segment_cons (x : Int → α) (p : Int) (n : Nat) :
    segment x p (n + 1) = x p :: segment x (p + 1) n := by
  simp only [segment, List.range_succ_eq_map, List.map_cons, List.map_map]
  congr 1
  · simp
  · apply List.map_congr_left
    intro t _
    simp only [Function.comp, Nat.succ_eq_add_one, Nat.cast_add, Nat.cast_one]
    have h : p + ((t : Int) + 1) = p + 1 + (t : Int) := by ring
    rw [h]

theorem segment_add (x : Int → α) (p : Int) (m n : Nat) :
    segment x p (m + n) = segment x p m ++ segment x (p + (m : Int)) n := by
  induction n with
  | zero => simp [segment]
  | succ n ih =>
    rw [← Nat.add_assoc, segment_succ, ih, segment_succ, List.append_assoc]
    have h : p + ((m + n : Nat) : Int) = p + (m : Int) + (n : Int) := by push_cast; ring
    rw [h]

theorem hreduce_succ (n : Nat) (v : Simd α) :
    simd_hreduce (n + 2) op v = op (simd_hreduce (n + 1) op v) (v (n + 1)) := by
  simp [simd_hreduce, List.range_succ]

theorem hreduce_one (v : Simd α) : simd_hreduce 1 op v = v 0 := by
  simp [simd_hreduce]

theorem hreduce_op (hassoc : ∀ a b c, op (op a b) c = op a (op b c))
    (hcomm : ∀ a b, op a b = op b a) (N : Nat) (a b : Simd α) :
    simd_hreduce (N + 1) op (simd_op op a b)
      = op (simd_hreduce (N + 1) op a) (simd_hreduce (N + 1) op b) := by
  induction N with
  | zero => simp [hreduce_one, simd_op]
  | succ n ih =>
    rw [hreduce_succ, hreduce_succ, hreduce_succ, ih]
    simp only [simd_op]
    rw [hassoc, hassoc]
    congr 1
    rw [← hassoc, ← hassoc]
    congr 1
    exact hcomm _ _

theorem hreduce_broadcast (init : α) (hidem : op init init = init) (N : Nat) :
    simd_hreduce N op (simd_broadcast init) = init := by
  cases N with
  | zero => simp [simd_hreduce, simd_broadcast]
  | succ n =>
    induction n with
    | zero => simp [hreduce_one, simd_broadcast]
    | succ n ih => rw [hreduce_succ, ih]; simpa [simd_broadcast] using hidem

theorem hreduce_load (hassoc : ∀ a b c, op (op a b) c = op a (op b c)) (x : Int → α)
    (p : Int) (a : α) (N : Nat) :
    op a (simd_hreduce (N + 1) op (simd_load x p)) = (segment x p (N + 1)).foldl op a := by
  induction N with
  | zero => simp [hreduce_one, simd_load, segment, List.range_succ]
  | succ n ih =>
    rw [hreduce_succ, ← hassoc, ih, segment_succ (n := n + 1), List.foldl_append]
    simp [simd_load]

end fold_lemmas

/-! ## The contiguous kernel -/

section contiguous_kernel

variable {α : Type} (op : α → α → α) (x : Int → α)

theorem contiguous_tail_loop_run : ∀ (r fuel : Nat) (xp : Int) (acc : α), r < fuel →
    contiguous_tail_loop op x fuel xp (r : Int) acc = some ((segment x xp r).foldl op acc) := by
  intro r
  induction r with
  | zero =>
    intro fuel xp acc hf
    obtain ⟨f, rfl⟩ : ∃ f, fuel = f + 1 := ⟨fuel - 1, by omega⟩
    simp [contiguous_tail_loop, segment]
  | succ r ih =>
    intro fuel xp acc hf
    obtain ⟨f, rfl⟩ : ∃ f, fuel = f + 1 := ⟨fuel - 1, by omega⟩
    have hpos : ((r + 1 : Nat) : Int) > 0 := by omega
    have hsub : ((r + 1 : Nat) : Int) - 1 = (r : Int) := by omega
    rw [contiguous_tail_loop, if_pos hpos, hsub, ih f (xp + 1) _ (by omega), segment_cons]
    rfl

theorem contiguous_vec_loop_run (N : Nat) (hN : 1 ≤ N) :
    ∀ (k r fuel : Nat) (xp : Int) (accv : Simd α), r < N → k < fuel →
    ∃ accv1, contiguous_vec_loop N op x fuel xp ((k * N + r : Nat) : Int) accv
        = some (xp + ((k * N : Nat) : Int), (r : Int), accv1)
      ∧ (∀ j, accv1 j = ((List.range k).map
            (fun (i : Nat) => x (xp + ((i * N + j : Nat) : Int)))).foldl op (accv j))
      ∧ ((∀ a b c, op (op a b) c = op a (op b c)) → (∀ a b, op a b = op b a) →
          ∀ a, op a (simd_hreduce N op accv1)
            = (segment x xp (k * N)).foldl op (op a (simd_hreduce N op accv))) := by
  obtain ⟨M, rfl⟩ : ∃ M, N = M + 1 := ⟨N - 1, by omega⟩
  intro k
  induction k with
  | zero =>
    intro r fuel xp accv hr hf
    obtain ⟨f, rfl⟩ : ∃ f, fuel = f + 1 := ⟨fuel - 1, by omega⟩
    refine ⟨accv, ?_, ?_, ?_⟩
    · have hlt : ¬ (((0 * (M + 1) + r : Nat) : Int) ≥ ((M + 1 : Nat) : Int)) := by
        push_cast; omega
      rw [contiguous_vec_loop, if_neg hlt]
      simp
    · intro j; simp
    · intro _ _ a; simp [segment]
  | succ k ih =>
    intro r fuel xp accv hr hf
    obtain ⟨f, rfl⟩ : ∃ f, fuel = f + 1 := ⟨fuel - 1, by omega⟩
    have hge : (((k + 1) * (M + 1) + r : Nat) : Int) ≥ ((M + 1 : Nat) : Int) := by
      have : (k + 1) * (M + 1) = k * (M + 1) + (M + 1) := by ring
      omega
    have hsub : (((k + 1) * (M + 1) + r : Nat) : Int) - ((M + 1 : Nat) : Int)
        = ((k * (M + 1) + r : Nat) : Int) := by
      have : (k + 1) * (M + 1) = k * (M + 1) + (M + 1) := by ring
      omega
    obtain ⟨accv1, hrun, hlane, hred⟩ :=
      ih r f (xp + ((M + 1 : Nat) : Int)) (simd_op op accv (simd_load x xp)) hr (by omega)
    refine ⟨accv1, ?_, ?_, ?_⟩
    · rw [contiguous_vec_loop, if_pos hge, hsub, hrun]
      have : (k + 1) * (M + 1) = k * (M + 1) + (M + 1) := by ring
      simp only [Option.some.injEq, Prod.mk.injEq, and_true]
      omega
    · intro j
      rw [hlane j, List.range_succ_eq_map, List.map_cons, List.foldl_cons, List.map_map]
      have h0 : xp + ((0 * (M + 1) + j : Nat) : Int) = xp + (j : Int) := by simp
      rw [h0]
      have hf : (fun (i : Nat) => x (xp + ((M + 1 : Nat) : Int) + ((i * (M + 1) + j : Nat) : Int)))
          = (fun (i : Nat) => x (xp + ((i * (M + 1) + j : Nat) : Int))) ∘ Nat.succ := by
        funext i
        simp only [Function.comp, Nat.succ_eq_add_one]
        congr 1
        push_cast
        ring
      rw [hf]
      rfl
    · intro hassoc hcomm a
      rw [hred hassoc hcomm a, hreduce_op op hassoc hcomm, ← hassoc, hreduce_load op hassoc]
      have : (k + 1) * (M + 1) = (M + 1) + k * (M + 1) := by ring
      rw [this, segment_add x xp (M + 1) (k * (M + 1)), List.foldl_append]

theorem contiguous_reduce_run (N : Nat) (hN : 1 ≤ N) (init a0 : α) (xp : Int) (n : Nat) :
    ∃ accv, contiguous_vec_loop N op x (n + 1) xp (n : Int) (simd_broadcast init)
        = some (xp + ((n / N * N : Nat) : Int), ((n % N : Nat) : Int), accv)
      ∧ (∀ j, accv j = ((List.range (n / N)).map
            (fun (i : Nat) => x (xp + ((i * N + j : Nat) : Int)))).foldl op init)
      ∧ ((∀ a b c, op (op a b) c = op a (op b c)) → (∀ a b, op a b = op b a) →
          ∀ a, op a (simd_hreduce N op accv)
            = (segment x xp (n / N * N)).foldl op
                (op a (simd_hreduce N op (simd_broadcast init))))
      ∧ contiguous_reduce N op x xp a0 (n : Int) init
        = some ((segment x (xp + ((n / N * N : Nat) : Int)) (n % N)).foldl op
            (op a0 (simd_hreduce N op accv))) := by
  obtain ⟨accv, hrun, hlane, hred⟩ := contiguous_vec_loop_run op x N hN (n / N) (n % N)
    (n + 1) xp (simd_broadcast init) (Nat.mod_lt _ (by omega))
    (Nat.lt_succ_of_le (Nat.div_le_self _ _))
  rw [Nat.div_add_mod'] at hrun
  refine ⟨accv, hrun, hlane, hred, ?_⟩
  have hfuel : (n : Int).toNat + 1 = n + 1 := by simp
  rw [contiguous_reduce, hfuel, hrun]
  have hfuel2 : (((n % N : Nat) : Int)).toNat + 1 = n % N + 1 := by rw [Int.toNat_ofNat]
  simp only [hfuel2]
  exact contiguous_tail_loop_run op x (n % N) (n % N + 1) _ _ (by omega)

theorem contiguous_reduce_nonpos (N : Nat) (hN : 1 ≤ N) (init a0 : α) (xp : Int) (size : Int)
    (hsize : size ≤ 0) :
    contiguous_reduce N op x xp a0 size init
      = some (op a0 (simd_hreduce N op (simd_broadcast init))) := by
  have h0 : size.toNat = 0 := by omega
  have hlt : ¬ (size ≥ (N : Int)) := by omega
  have hle : ¬ (size > 0) := by omega
  simp [contiguous_reduce, h0, contiguous_vec_loop, hlt, contiguous_tail_loop, hle]

theorem contiguous_reduce_monoid (N : Nat) (hN : 1 ≤ N) (init : α)
    (hassoc : ∀ a b c, op (op a b) c = op a (op b c)) (hcomm : ∀ a b, op a b = op b a)
    (hid : ∀ a, op a init = a) (a0 : α) (xp : Int) (n : Nat) :
    contiguous_reduce N op x xp a0 (n : Int) init = some ((segment x xp n).foldl op a0) := by
  obtain ⟨accv, _, _, hred, hres⟩ := contiguous_reduce_run op x N hN init a0 xp n
  rw [hres, hred hassoc hcomm a0, hreduce_broadcast op init (hid init) N, hid a0,
    ← List.foldl_append, ← segment_add, Nat.div_add_mod']

end contiguous_kernel

/-- C1: for every vector width `N ≥ 1`, every `size ≥ 0`, every associative and
commutative `op` with two-sided identity `init` and every starting value `a0`,
`contiguous_reduce` returns with the accumulator holding the fold
`a0 op x[0] op ... op x[size-1]`.  The vector loop consumes `(size / N) * N`
elements, lane `j` folding `x[j], x[j + N], ...` from `init`, and hands
`size % N` elements to the scalar tail, which folds them in order. -/
theorem contiguous_reduce_fold {α : Type} (N : Nat) (hN : 1 ≤ N) (op : α → α → α) (init : α)
    (hassoc : ∀ a b c, op (op a b) c = op a (op b c)) (hcomm : ∀ a b, op a b = op b a)
    (hidr : ∀ a, op a init = a) (hidl : ∀ a, op init a = a)
    (x : Int → α) (xp : Int) (a0 : α) (size : Int) (hsize : 0 ≤ size) :
    contiguous_reduce N op x xp a0 size init = some ((segment x xp size.toNat).foldl op a0)
    ∧ ∃ accv,
        contiguous_vec_loop N op x (size.toNat + 1) xp size (simd_broadcast init)
          = some (xp + size / N * N, size % N, accv)
        ∧ (∀ j, j < N → accv j = ((List.range (size / N).toNat).map
              (fun (i : Nat) => x (xp + (i : Int) * N + j))).foldl op init)
        ∧ contiguous_tail_loop op x ((size % N).toNat + 1) (xp + size / N * N) (size % N)
            (op a0 (simd_hreduce N op accv))
          = some ((segment x (xp + size / N * N) (size % N).toNat).foldl op
              ((segment x xp (size / N * N).toNat).foldl op a0)) := by
  obtain ⟨n, rfl⟩ : ∃ n : Nat, size = (n : Int) := ⟨size.toNat, by omega⟩
  have _ := hidl
  refine ⟨by simpa using contiguous_reduce_monoid op x N hN init hassoc hcomm hidr a0 xp n, ?_⟩
  obtain ⟨accv, hrun, hlane, hred, _⟩ := contiguous_reduce_run op x N hN init a0 xp n
  have hdiv : (n : Int) / (N : Int) = ((n / N : Nat) : Int) := by norm_cast
  have hmod : (n : Int) % (N : Int) = ((n % N : Nat) : Int) := by norm_cast
  have hmul : ((n / N : Nat) : Int) * (N : Int) = ((n / N * N : Nat) : Int) := by push_cast; ring
  refine ⟨accv, ?_, ?_, ?_⟩
  · rw [hdiv, hmod, hmul]; simpa using hrun
  · intro j _
    rw [hlane j, hdiv]
    simp only [Int.toNat_ofNat]
    congr 2
    funext i
    congr 1
    push_cast
    ring
  · rw [hdiv, hmod, hmul]
    simp only [Int.toNat_ofNat]
    rw [contiguous_tail_loop_run op x (n % N) (n % N + 1) _ _ (by omega),
      hred hassoc hcomm a0, hreduce_broadcast op init (hidr init) N, hidr a0]

/-- A run of C1: width 4, integer addition, ten elements `0..9` added to 100. -/
theorem contiguous_reduce_fold_witness :
    contiguous_reduce 4 (fun a b : Int => a + b) (fun i => i) 0 100 10 0
        = some ((segment (fun i => i) 0 (10 : Int).toNat).foldl (fun a b : Int => a + b) 100)
    ∧ (segment (fun i : Int => i) 0 (10 : Int).toNat).foldl (fun a b : Int => a + b) 100 = 145 :=
  ⟨(contiguous_reduce_fold 4 (by decide) (fun a b : Int => a + b) 0
      (fun a b c => Int.add_assoc a b c) (fun a b => Int.add_comm a b)
      (fun a => Int.add_zero a) (fun a => Int.zero_add a) (fun i => i) 0 100 10
      (by decide)).1, by decide⟩

/-! ## The strided kernel -/

section strided_kernel

variable {α : Type} (op : α → α → α) (x : Int → α)

theorem row_update_zero (xp : Int) (ma : Nat) (buf : Nat → α) :
    row_update op x xp ma 0 buf = buf := by
  funext t
  simp only [row_update]
  rw [if_neg (by omega)]

theorem row_update_add (xp : Int) (ma m n : Nat) (buf : Nat → α) :
    row_update op x (xp + (m : Int)) (ma + m) n (row_update op x xp ma m buf)
      = row_update op x xp ma (m + n) buf := by
  funext t
  simp only [row_update]
  by_cases h1 : ma + m ≤ t ∧ t < ma + m + n
  · rw [if_pos h1, if_neg (by omega), if_pos (by omega)]
    have : xp + (m : Int) + ((t - (ma + m) : Nat) : Int) = xp + ((t - ma : Nat) : Int) := by omega
    rw [this]
  · rw [if_neg h1]
    by_cases h2 : ma ≤ t ∧ t < ma + m
    · rw [if_pos h2, if_pos (by omega)]
    · rw [if_neg h2, if_neg (by omega)]

theorem simd_store_row (N : Nat) (xp : Int) (ma : Nat) (buf : Nat → α) :
    simd_store N buf ma (simd_op op (simd_load_acc buf ma) (simd_load x xp))
      = row_update op x xp ma N buf := by
  funext t
  simp only [simd_store, row_update, simd_op, simd_load_acc, simd_load]
  by_cases h : ma ≤ t ∧ t < ma + N
  · rw [if_pos h, if_pos h]
    have : ma + (t - ma) = t := by omega
    rw [this]
  · rw [if_neg h, if_neg h]

theorem strided_vec_loop_run (N : Nat) :
    ∀ (k r fuel : Nat) (xp : Int) (ma : Nat) (buf : Nat → α), r < N → k < fuel →
    strided_vec_loop N op x fuel xp ma (k * N + r) buf
      = some (xp + ((k * N : Nat) : Int), ma + k * N, r, row_update op x xp ma (k * N) buf) := by
  intro k
  induction k with
  | zero =>
    intro r fuel xp ma buf hr hf
    obtain ⟨f, rfl⟩ : ∃ f, fuel = f + 1 := ⟨fuel - 1, by omega⟩
    rw [strided_vec_loop, if_neg (by omega)]
    simp [row_update_zero]
  | succ k ih =>
    intro r fuel xp ma buf hr hf
    obtain ⟨f, rfl⟩ : ∃ f, fuel = f + 1 := ⟨fuel - 1, by omega⟩
    have hk : (k + 1) * N = N + k * N := by ring
    rw [strided_vec_loop, if_pos (by omega), simd_store_row]
    have hs : (k + 1) * N + r - N = k * N + r := by omega
    rw [hs, ih r f _ _ _ hr (by omega), row_update_add, hk]
    simp only [Option.some.injEq, Prod.mk.injEq, and_true]
    refine ⟨?_, ?_⟩
    · push_cast; ring
    · ring

theorem strided_tail_loop_run : ∀ (r fuel : Nat) (xp : Int) (ma : Nat) (buf : Nat → α),
    r < fuel →
    strided_tail_loop op x fuel xp ma r buf
      = some (xp + (r : Int), row_update op x xp ma r buf) := by
  intro r
  induction r with
  | zero =>
    intro fuel xp ma buf hf
    obtain ⟨f, rfl⟩ : ∃ f, fuel = f + 1 := ⟨fuel - 1, by omega⟩
    simp [strided_tail_loop, row_update_zero]
  | succ r ih =>
    intro fuel xp ma buf hf
    obtain ⟨f, rfl⟩ : ∃ f, fuel = f + 1 := ⟨fuel - 1, by omega⟩
    rw [strided_tail_loop, if_pos (by omega)]
    have hs : r + 1 - 1 = r := by omega
    have hone : Function.update buf ma (op (buf ma) (x xp)) = row_update op x xp ma 1 buf := by
      funext t
      simp only [row_update, Function.update_apply]
      by_cases h : t = ma
      · subst h; simp
      · rw [if_neg h, if_neg (by omega)]
    rw [hs, ih f _ _ _ (by omega), hone]
    have h1 := row_update_add op x xp ma 1 r buf
    simp only [Nat.cast_one] at h1
    rw [h1]
    simp only [Option.some.injEq, Prod.mk.injEq]
    refine ⟨by push_cast; ring, by rw [Nat.add_comm]⟩

theorem strided_rows_run (N : Nat) (hN : 1 ≤ N) (stride ap : Nat) :
    ∀ (n : Nat) (xp : Int) (buf : Nat → α),
    strided_rows N op x stride ap n xp buf
      = some (xp + (n : Int) * (stride : Int),
          fun t => if ap ≤ t ∧ t < ap + stride
            then (column x xp stride (t - ap) n).foldl op (buf t) else buf t) := by
  intro n
  induction n with
  | zero =>
    intro xp buf
    simp [strided_rows, column]
  | succ n ih =>
    intro xp buf
    have hvec := strided_vec_loop_run op x N (stride / N) (stride % N) (stride + 1) xp ap buf
      (Nat.mod_lt _ (by omega)) (Nat.lt_succ_of_le (Nat.div_le_self _ _))
    rw [Nat.div_add_mod'] at hvec
    rw [strided_rows, hvec]
    simp only
    rw [strided_tail_loop_run op x (stride % N) (stride % N + 1) _ _ _ (by omega)]
    simp only
    have hp : xp + ((stride / N * N : Nat) : Int) + ((stride % N : Nat) : Int)
        = xp + (stride : Int) := by
      have h := Nat.div_add_mod' stride N
      rw [Int.add_assoc, ← Nat.cast_add, h]
    rw [row_update_add, Nat.div_add_mod', hp, ih]
    simp only [Option.some.injEq, Prod.mk.injEq]
    refine ⟨by push_cast; ring, ?_⟩
    funext t
    by_cases h : ap ≤ t ∧ t < ap + stride
    · rw [if_pos h, if_pos h]
      simp only [row_update, if_pos h, column]
      rw [List.range_succ_eq_map, List.map_cons, List.foldl_cons, List.map_map]
      simp only [Nat.cast_zero, zero_mul, add_zero]
      congr 1
      apply List.map_congr_left
      intro i _
      simp only [Function.comp, Nat.succ_eq_add_one]
      congr 1
      push_cast
      ring
    · rw [if_neg h, if_neg h]
      simp only [row_update, if_neg h]

theorem strided_reduce_run (N : Nat) (hN : 1 ≤ N) (xp : Int) (buf : Nat → α) (ap : Nat)
    (size : Int) (stride : Nat) :
    strided_reduce N op x xp buf ap size stride
      = some (fun t => if ap ≤ t ∧ t < ap + stride
          then (column x xp stride (t - ap) size.toNat).foldl op (buf t) else buf t) := by
  rw [strided_reduce, strided_rows_run op x N hN]
  rfl

end strided_kernel

/-- C2: for every vector width `N ≥ 1`, every `size ≥ 0`, every `stride ≥ 0` and
every `op`, `strided_reduce` returns, and afterwards each slot `j < stride` holds
the left fold, over the groups `i = 0, ..., size-1` in increasing order, of
`x[j + i*stride]`, started from the value the slot held before the call. -/
theorem strided_reduce_columns {α : Type} (N : Nat) (hN : 1 ≤ N) (op : α → α → α)
    (x : Int → α) (xp : Int) (buf : Nat → α) (ap : Nat) (size : Int) (hsize : 0 ≤ size)
    (stride : Nat) :
    ∃ buf1, strided_reduce N op x xp buf ap size stride = some buf1
      ∧ ∀ j, j < stride → buf1 (ap + j)
          = ((List.range size.toNat).map
              (fun (i : Nat) => x (xp + (j : Int) + (i : Int) * (stride : Int)))).foldl op
              (buf (ap + j)) := by
  have _ := hsize
  refine ⟨_, strided_reduce_run op x N hN xp buf ap size stride, ?_⟩
  intro j hj
  have hin : ap ≤ ap + j ∧ ap + j < ap + stride := by omega
  show (if ap ≤ ap + j ∧ ap + j < ap + stride then _ else _) = _
  rw [if_pos hin, Nat.add_sub_cancel_left]
  rfl

/-- A run of C2: width 2, three groups of five elements of `0..14`, integer
addition, accumulators starting from 100 at slots `1..5`. -/
theorem strided_reduce_columns_witness :
    (∃ buf1, strided_reduce 2 (fun a b : Int => a + b) (fun i => i) 0 (fun _ => 100) 1 3 5
        = some buf1
      ∧ ∀ j, j < 5 → buf1 (1 + j)
          = ((List.range (3 : Int).toNat).map
              (fun (i : Nat) => (0 : Int) + (j : Int) + (i : Int) * ((5 : Nat) : Int))).foldl
              (fun a b : Int => a + b) 100)
    ∧ (strided_reduce 2 (fun a b : Int => a + b) (fun i => i) 0 (fun _ => 100) 1 3 5).map
        (slots 7) = some [100, 115, 118, 121, 124, 127, 100] :=
  ⟨strided_reduce_columns 2 (by decide) (fun a b : Int => a + b) (fun i => i) 0
    (fun _ => 100) 1 3 (by decide) 5, by decide⟩

/-! ## The dispatcher: all-reduce and innermost-axis reduction -/

section dispatcher_contiguous

variable {α : Type} (op : α → α → α) (x : Int → α)

theorem to_int_small (n : Nat) (hn : n < 2 ^ 31) : to_int n = (n : Int) := by
  unfold to_int
  omega

theorem reduce_into_monoid (N : Nat) (hN : 1 ≤ N) (init : α)
    (hassoc : ∀ a b c, op (op a b) c = op a (op b c)) (hcomm : ∀ a b, op a b = op b a)
    (hid : ∀ a, op a init = a) (xp : Int) (n : Nat) (out_ptr : Nat) (out : Nat → α) :
    reduce_into N op init x xp (n : Int) out_ptr (Function.update out out_ptr init)
      = some (Function.update out out_ptr ((segment x xp n).foldl op init)) := by
  rw [reduce_into, contiguous_reduce_monoid op x N hN init hassoc hcomm hid]
  simp

end dispatcher_contiguous

/-- C3: under a `ContiguousAllReduce` plan, for every input of `n < 2^31`
elements and every associative, commutative `op` with identity `init`,
`reduction_op` returns having written exactly one output slot, slot 0, with
`x[0] op ... op x[n-1]` folded from `init` (so `init` when `n = 0`); every
other slot of the output buffer is left as it was. -/
theorem reduction_op_all_reduce {α : Type} (N : Nat) (hN : 1 ≤ N) (op : α → α → α) (init : α)
    (hassoc : ∀ a b c, op (op a b) c = op a (op b c)) (hcomm : ∀ a b, op a b = op b a)
    (hidr : ∀ a, op a init = a) (hidl : ∀ a, op init a = a)
    (x : Int → α) (n : Nat) (hn : n < 2 ^ 31) (out_size : Nat) (plan : ReductionPlan)
    (hplan : plan.type = ReductionOpType.ContiguousAllReduce) (shape strides : List Int)
    (out : Nat → α) :
    reduction_op N op init x n out_size plan shape strides out
      = some (Function.update out 0 ((segment x 0 n).foldl op init)) := by
  have _ := hidl
  rw [reduction_op, if_pos hplan, reduction_op_all, to_int_small n hn,
    reduce_into_monoid op x N hN init hassoc hcomm hidr]

/-- The example of C3: the 24 elements `0..23` of a `[2,3,4]` tensor, with
integer addition from 0, give the single output 276. -/
theorem reduction_op_all_reduce_witness :
    reduction_op 4 (fun a b : Int => a + b) 0 (fun i => i) 24 1
        ⟨ReductionOpType.ContiguousAllReduce, [], []⟩ [] [] (fun _ => 0)
      = some (Function.update (fun _ => 0) 0
          ((segment (fun i => i) 0 24).foldl (fun a b : Int => a + b) 0))
    ∧ (segment (fun i : Int => i) 0 24).foldl (fun a b : Int => a + b) 0 = 276 :=
  ⟨reduction_op_all_reduce 4 (by decide) (fun a b : Int => a + b) 0
      (fun a b c => Int.add_assoc a b c) (fun a b => Int.add_comm a b)
      (fun a => Int.add_zero a) (fun a => Int.zero_add a) (fun i => i) 24 (by decide) 1
      ⟨ReductionOpType.ContiguousAllReduce, [], []⟩ rfl [] [] (fun _ => 0), by decide⟩

section loops

variable {α : Type}

theorem for_loop_write (body : Nat → Nat × (Nat → α) → Option (Nat × (Nat → α)))
    (v : Nat → α)
    (hbody : ∀ i p o, body i (p, o) = some (p + 1, Function.update o p (v i))) :
    ∀ (n i p : Nat) (o : Nat → α), for_loop body n i (p, o)
      = some (p + n, fun t => if p ≤ t ∧ t < p + n then v (i + (t - p)) else o t) := by
  intro n
  induction n with
  | zero =>
    intro i p o
    simp only [for_loop, Nat.add_zero, Option.some.injEq, Prod.mk.injEq, true_and]
    funext t
    rw [if_neg (by omega)]
  | succ n ih =>
    intro i p o
    rw [for_loop, hbody]
    simp only
    rw [ih]
    simp only [Option.some.injEq, Prod.mk.injEq]
    refine ⟨by omega, ?_⟩
    funext t
    by_cases h1 : p + 1 ≤ t ∧ t < p + 1 + n
    · rw [if_pos h1, if_pos (by omega)]
      congr 1
      omega
    · rw [if_neg h1]
      by_cases h2 : t = p
      · subst h2
        rw [if_pos (by omega)]
        simp
      · rw [if_neg (by omega), Function.update_noteq h2]

theorem for_loop_write_ptr (body : Nat → Int × Nat × (Nat → α) → Option (Int × Nat × (Nat → α)))
    (R : Int) (w : Int → α)
    (hbody : ∀ i xp p o, body i (xp, p, o)
      = some (xp + R, p + 1, Function.update o p (w xp))) :
    ∀ (n i : Nat) (xp : Int) (p : Nat) (o : Nat → α), for_loop body n i (xp, p, o)
      = some (xp + (n : Int) * R, p + n,
          fun t => if p ≤ t ∧ t < p + n then w (xp + ((t - p : Nat) : Int) * R) else o t) := by
  intro n
  induction n with
  | zero =>
    intro i xp p o
    simp only [for_loop, Nat.add_zero, Option.some.injEq, Prod.mk.injEq, true_and]
    refine ⟨by simp, ?_⟩
    funext t
    rw [if_neg (by omega)]
  | succ n ih =>
    intro i xp p o
    rw [for_loop, hbody]
    simp only
    rw [ih]
    simp only [Option.some.injEq, Prod.mk.injEq]
    refine ⟨by push_cast; ring, by omega, ?_⟩
    funext t
    by_cases h1 : p + 1 ≤ t ∧ t < p + 1 + n
    · rw [if_pos h1, if_pos (by omega)]
      congr 1
      have : ((t - p : Nat) : Int) = ((t - (p + 1) : Nat) : Int) + 1 := by omega
      rw [this]
      ring
    · rw [if_neg h1]
      by_cases h2 : t = p
      · subst h2
        rw [if_pos (by omega)]
        simp
      · rw [if_neg (by omega), Function.update_noteq h2]

end loops


theorem max_bot_assoc (a b c : Option Int) :
    max_bot (max_bot a b) c = max_bot a (max_bot b c) := by
  rcases a with _ | a <;> rcases b with _ | b <;> rcases c with _ | c <;>
    simp only [max_bot]
  congr 1
  split_ifs <;> omega

theorem max_bot_comm (a b : Option Int) : max_bot a b = max_bot b a := by
  rcases a with _ | a <;> rcases b with _ | b <;> simp only [max_bot]
  congr 1
  split_ifs <;> omega

theorem max_bot_none (a : Option Int) : max_bot a none = a := by
  rcases a with _ | a <;> rfl

theorem none_max_bot (a : Option Int) : max_bot none a = a := by
  rcases a with _ | a <;> rfl

/-! ## The seed of the contiguous kernel -/

section seed

variable {α : Type} (op : α → α → α) (x : Int → α)

theorem foldl_op_assoc (hassoc : ∀ a b c, op (op a b) c = op a (op b c)) (a b : α)
    (l : List α) : l.foldl op (op a b) = op a (l.foldl op b) := by
  induction l generalizing b with
  | nil => rfl
  | cons c l ih => simp only [List.foldl_cons, hassoc, ih]

theorem contiguous_reduce_seeded (N : Nat) (hN : 1 ≤ N) (init : α)
    (hassoc : ∀ a b c, op (op a b) c = op a (op b c)) (hcomm : ∀ a b, op a b = op b a)
    (a0 : α) (xp : Int) (size : Int) :
    contiguous_reduce N op x xp a0 size init
      = some ((segment x xp size.toNat).foldl op
          (op a0 (simd_hreduce N op (simd_broadcast init)))) := by
  rcases Int.lt_or_le size 0 with hneg | hpos
  · have h0 : size.toNat = 0 := by omega
    rw [contiguous_reduce_nonpos op x N hN init a0 xp size (by omega), h0]
    rfl
  · obtain ⟨n, rfl⟩ : ∃ n : Nat, size = (n : Int) := ⟨size.toNat, by omega⟩
    obtain ⟨accv, _, _, hred, hres⟩ := contiguous_reduce_run op x N hN init a0 xp n
    rw [hres, hred hassoc hcomm a0, ← List.foldl_append, ← segment_add, Nat.div_add_mod',
      Int.toNat_ofNat]

theorem contiguous_reduce_scalar (N : Nat) (hN : 1 ≤ N) (init : α) (a0 : α) (xp : Int)
    (size : Int) (hsize : size < (N : Int)) :
    contiguous_reduce N op x xp a0 size init
      = some ((segment x xp size.toNat).foldl op
          (op a0 (simd_hreduce N op (simd_broadcast init)))) := by
  rcases Int.lt_or_le size 0 with hneg | hpos
  · have h0 : size.toNat = 0 := by omega
    rw [contiguous_reduce_nonpos op x N hN init a0 xp size (by omega), h0]
    rfl
  · obtain ⟨n, rfl⟩ : ∃ n : Nat, size = (n : Int) := ⟨size.toNat, by omega⟩
    have hn : n < N := by omega
    obtain ⟨accv, _, hlane, _, hres⟩ := contiguous_reduce_run op x N hN init a0 xp n
    have hdiv : n / N = 0 := Nat.div_eq_of_lt hn
    have hmod : n % N = n := Nat.mod_eq_of_lt hn
    have hacc : accv = simd_broadcast init := by
      funext j
      rw [hlane j, hdiv]
      rfl
    rw [hres, hacc, hdiv, hmod, Int.toNat_ofNat]
    simp

theorem hreduce_broadcast_add (N : Nat) (init : Int) :
    simd_hreduce (N + 1) (fun a b : Int => a + b) (simd_broadcast init)
      = ((N + 1 : Nat) : Int) * init := by
  induction N with
  | zero => simp [hreduce_one, simd_broadcast]
  | succ n ih =>
    rw [hreduce_succ, ih]
    simp only [simd_broadcast]
    push_cast
    ring

theorem foldl_add_sum (l : List Int) (a : Int) :
    l.foldl (fun a b : Int => a + b) a = a + l.sum := by
  induction l generalizing a with
  | nil => simp
  | cons b l ih => rw [List.foldl_cons, ih, List.sum_cons]; ring

theorem segment_const_fold (c : α) (hc : op c c = c) (p : Int) (k : Nat) :
    (segment (fun _ => c) p k).foldl op c = c := by
  induction k with
  | zero => rfl
  | succ k ih => rw [segment_succ, List.foldl_append, ih]; simpa using hc

end seed

/-- C11, as stated, fails for inputs of `2^31` elements or more: `x.size()` is
narrowed to the `int size` of `contiguous_reduce`.  With `op = max`, `init = 0`
and `2^31` elements all equal to 1 the output is `0`, whereas
`op(init, x[0] op ... op x[n-1])` is `1`. -/
theorem reduction_op_idempotent_seed_counterexample :
    (reduction_op 4 (fun a b : Int => max a b) 0 (fun _ => 1) (2 ^ 31) 1
        ⟨ReductionOpType.ContiguousAllReduce, [], []⟩ [] [] (fun _ => 7)).map (slots 1)
      = some [0]
    ∧ max (0 : Int) ((segment (fun _ => (1 : Int)) 1 (2 ^ 31 - 1)).foldl
        (fun a b : Int => max a b) 1) = 1 := by
  refine ⟨by decide, ?_⟩
  rw [segment_const_fold (fun a b : Int => max a b) 1 (by decide)]
  decide

/-- C11, amended: for every vector width `N ≥ 1`, every associative and
commutative `op`, every `init` with `op(init, init) = init` and every input of
`n < 2^31` elements, `reduction_op` under a `ContiguousAllReduce` plan returns
having written slot 0 only, with `op(init, x[0] op ... op x[n-1])` when
`n ≥ 1` and with `init` when `n = 0`. -/
theorem reduction_op_idempotent_seed {α : Type} (N : Nat) (hN : 1 ≤ N) (op : α → α → α)
    (init : α) (hassoc : ∀ a b c, op (op a b) c = op a (op b c))
    (hcomm : ∀ a b, op a b = op b a) (hidem : op init init = init)
    (x : Int → α) (n : Nat) (hn : n < 2 ^ 31) (out_size : Nat) (plan : ReductionPlan)
    (hplan : plan.type = ReductionOpType.ContiguousAllReduce) (shape strides : List Int)
    (out : Nat → α) :
    reduction_op N op init x n out_size plan shape strides out
      = some (Function.update out 0
          (if n = 0 then init else op init ((segment x 1 (n - 1)).foldl op (x 0)))) := by
  rw [reduction_op, if_pos hplan, reduction_op_all, to_int_small n hn, reduce_into,
    Function.update_same, contiguous_reduce_seeded op x N hN init hassoc hcomm,
    hreduce_broadcast op init hidem N, hidem, Int.toNat_ofNat]
  simp only [Option.map_some', Function.update_idem]
  congr 2
  cases n with
  | zero => rfl
  | succ n =>
    rw [if_neg (by omega), segment_cons, List.foldl_cons, foldl_op_assoc op hassoc]
    simp

/-- A run of amended C11: `op = max` on the integers seeded with `init = 5`,
which satisfies `max(5, 5) = 5` and is no identity of `max`; the elements
`0, 1, 2` give `max(5, 2) = 5`, and the elements `0..9` give 9. -/
theorem reduction_op_idempotent_seed_witness :
    reduction_op 4 (fun a b : Int => max a b) 5 (fun i => i) 3 1
        ⟨ReductionOpType.ContiguousAllReduce, [], []⟩ [] [] (fun _ => 7)
      = some (Function.update (fun _ => 7) 0
          (if 3 = 0 then 5
            else (fun a b : Int => max a b) 5
              ((segment (fun i => i) 1 (3 - 1)).foldl (fun a b : Int => max a b)
                ((fun i : Int => i) 0))))
    ∧ (reduction_op 4 (fun a b : Int => max a b) 5 (fun i => i) 3 1
        ⟨ReductionOpType.ContiguousAllReduce, [], []⟩ [] [] (fun _ => 7)).map (slots 2)
      = some [5, 7]
    ∧ (reduction_op 4 (fun a b : Int => max a b) 5 (fun i => i) 10 1
        ⟨ReductionOpType.ContiguousAllReduce, [], []⟩ [] [] (fun _ => 7)).map (slots 2)
      = some [9, 7] :=
  ⟨reduction_op_idempotent_seed 4 (by decide) (fun a b : Int => max a b) 5
      (fun a b c => max_assoc a b c) (fun a b => max_comm a b) (by decide) (fun i => i) 3
      (by decide) 1 ⟨ReductionOpType.ContiguousAllReduce, [], []⟩ rfl [] [] (fun _ => 7),
    by decide, by decide⟩

/-- C12: for integer addition, every `init`, every vector width `N ≥ 1`, every
`size ≥ 0` and every starting value `a0`, `contiguous_reduce` returns with
`a0 + N*init + (x[0] + ... + x[size-1])` in the accumulator; the output of a
`ContiguousAllReduce` run that hands `size` to the kernel is therefore
`(N+1)*init + (x[0] + ... + x[size-1])`, which equals `init` plus the sum
exactly when `N*init = 0`. -/
theorem contiguous_reduce_seed_per_lane (N : Nat) (hN : 1 ≤ N) (init a0 : Int) (x : Int → Int)
    (xp : Int) (size : Int) (hsize : 0 ≤ size) :
    contiguous_reduce N (fun a b : Int => a + b) x xp a0 size init
      = some (a0 + (N : Int) * init + (segment x xp size.toNat).sum)
    ∧ (∀ (x_size out_size : Nat) (plan : ReductionPlan) (shape strides : List Int)
        (out : Nat → Int), plan.type = ReductionOpType.ContiguousAllReduce →
        to_int x_size = size →
        reduction_op N (fun a b : Int => a + b) init x x_size out_size plan shape strides out
          = some (Function.update out 0
              (((N : Int) + 1) * init + (segment x 0 size.toNat).sum)))
    ∧ (((N : Int) + 1) * init + (segment x 0 size.toNat).sum
        = init + (segment x 0 size.toNat).sum ↔ (N : Int) * init = 0) := by
  have _ := hsize
  obtain ⟨M, rfl⟩ : ∃ M, N = M + 1 := ⟨N - 1, by omega⟩
  have hker : ∀ (p : Int) (a : Int),
      contiguous_reduce (M + 1) (fun a b : Int => a + b) x p a size init
        = some (a + ((M + 1 : Nat) : Int) * init + (segment x p size.toNat).sum) := by
    intro p a
    rw [contiguous_reduce_seeded (fun a b : Int => a + b) x (M + 1) hN init
      (fun a b c => Int.add_assoc a b c) (fun a b => Int.add_comm a b),
      hreduce_broadcast_add, foldl_add_sum]
  refine ⟨hker xp a0, ?_, ?_⟩
  · intro x_size out_size plan shape strides out hplan hx
    rw [reduction_op, if_pos hplan, reduction_op_all, hx, reduce_into, Function.update_same,
      hker]
    simp only [Option.map_some', Function.update_idem]
    have hv : init + ((M + 1 : Nat) : Int) * init + (segment x 0 size.toNat).sum
        = (((M + 1 : Nat) : Int) + 1) * init + (segment x 0 size.toNat).sum := by ring
    rw [hv]
  · constructor
    · intro h
      linarith
    · intro h
      linarith

/-- A run of C12: width 4, `init = 1`, the ten elements `0..9` added to 100 give
`100 + 4*1 + 45`; the all-reduce output is `5*1 + 45 = 50`, not `1 + 45`. -/
theorem contiguous_reduce_seed_per_lane_witness :
    (contiguous_reduce 4 (fun a b : Int => a + b) (fun i => i) 0 100 10 1
        = some (100 + ((4 : Nat) : Int) * 1 + (segment (fun i => i) 0 (10 : Int).toNat).sum)
      ∧ (∀ (x_size out_size : Nat) (plan : ReductionPlan) (shape strides : List Int)
          (out : Nat → Int), plan.type = ReductionOpType.ContiguousAllReduce →
          to_int x_size = 10 →
          reduction_op 4 (fun a b : Int => a + b) 1 (fun i => i) x_size out_size plan shape
              strides out
            = some (Function.update out 0
                ((((4 : Nat) : Int) + 1) * 1 + (segment (fun i => i) 0 (10 : Int).toNat).sum)))
      ∧ ((((4 : Nat) : Int) + 1) * 1 + (segment (fun i : Int => i) 0 (10 : Int).toNat).sum
          = 1 + (segment (fun i : Int => i) 0 (10 : Int).toNat).sum
        ↔ ((4 : Nat) : Int) * 1 = 0))
    ∧ contiguous_reduce 4 (fun a b : Int => a + b) (fun i => i) 0 100 10 1 = some 149
    ∧ (reduction_op 4 (fun a b : Int => a + b) 1 (fun i => i) 10 1
        ⟨ReductionOpType.ContiguousAllReduce, [], []⟩ [] [] (fun _ => 7)).map (slots 2)
      = some [50, 7] :=
  ⟨contiguous_reduce_seed_per_lane 4 (by decide) 1 100 (fun i => i) 0 10 (by decide),
    by decide, by decide⟩

/-- C16: for every `op` for which `init` is a two-sided identity (neither
associativity nor commutativity assumed), every vector width `N ≥ 1`, every
`size < N` and every starting value `a0`, `contiguous_reduce` returns with
exactly the left fold `(((a0 op x[0]) op x[1]) ... op x[size-1])`. -/
theorem contiguous_reduce_sequential {α : Type} (N : Nat) (hN : 1 ≤ N) (op : α → α → α)
    (init : α) (hidr : ∀ a, op a init = a) (hidl : ∀ a, op init a = a)
    (x : Int → α) (xp : Int) (a0 : α) (size : Int) (hsize : size < (N : Int)) :
    contiguous_reduce N op x xp a0 size init
      = some ((segment x xp size.toNat).foldl op a0) := by
  have _ := hidl
  rw [contiguous_reduce_scalar op x N hN init a0 xp size hsize,
    hreduce_broadcast op init (hidr init) N, hidr]

/-- A run of C16 with `op a b = 2*a + b` away from the identity 0, which is
neither associative nor commutative: width 4, the three elements `1, 2, 3`
folded from 5 give `2*(2*(2*5 + 1) + 2) + 3 = 51`. -/
theorem contiguous_reduce_sequential_witness :
    contiguous_reduce 4 (fun a b : Int => if a = 0 then b else if b = 0 then a else 2 * a + b)
        (fun i => i + 1) 0 5 3 0
      = some ((segment (fun i : Int => i + 1) 0 (3 : Int).toNat).foldl
          (fun a b : Int => if a = 0 then b else if b = 0 then a else 2 * a + b) 5)
    ∧ contiguous_reduce 4
        (fun a b : Int => if a = 0 then b else if b = 0 then a else 2 * a + b)
        (fun i => i + 1) 0 5 3 0 = some 51 :=
  ⟨contiguous_reduce_sequential 4 (by decide)
      (fun a b : Int => if a = 0 then b else if b = 0 then a else 2 * a + b) 0
      (fun a => by by_cases h : a = 0 <;> simp [h])
      (fun a => by simp) (fun i => i + 1) 0 5 3 (by decide), by decide⟩

/-- C19: for every vector width `N ≥ 1`, `size`, `stride` and `op`,
`strided_reduce` returns having left unchanged every accumulator slot at or
beyond `stride` slots from the accumulator pointer (and every slot below the
pointer), and the whole buffer when `size = 0` or `stride = 0`. -/
theorem strided_reduce_frame {α : Type} (N : Nat) (hN : 1 ≤ N) (op : α → α → α) (x : Int → α)
    (xp : Int) (buf : Nat → α) (ap : Nat) (size : Int) (stride : Nat) :
    ∃ buf1, strided_reduce N op x xp buf ap size stride = some buf1
      ∧ (∀ t, ap + stride ≤ t → buf1 t = buf t)
      ∧ (∀ t, t < ap → buf1 t = buf t)
      ∧ (size = 0 ∨ stride = 0 → buf1 = buf) := by
  refine ⟨_, strided_reduce_run op x N hN xp buf ap size stride, ?_, ?_, ?_⟩
  · intro t ht
    show (if ap ≤ t ∧ t < ap + stride then _ else _) = _
    rw [if_neg (by omega)]
  · intro t ht
    show (if ap ≤ t ∧ t < ap + stride then _ else _) = _
    rw [if_neg (by omega)]
  · intro h
    funext t
    show (if ap ≤ t ∧ t < ap + stride then _ else _) = _
    rcases h with h | h
    · subst h
      simp [column]
    · subst h
      rw [if_neg (by omega)]

/-- A run of C19: width 2, three groups of three elements accumulated into the
slots `2, 3, 4` of a buffer holding 100 everywhere. -/
theorem strided_reduce_frame_witness :
    (∃ buf1, strided_reduce 2 (fun a b : Int => a + b) (fun i => i) 0 (fun _ => 100) 2 3 3
        = some buf1
      ∧ (∀ t, 2 + 3 ≤ t → buf1 t = 100)
      ∧ (∀ t, t < 2 → buf1 t = 100)
      ∧ ((3 : Int) = 0 ∨ 3 = 0 → buf1 = fun _ => 100))
    ∧ (strided_reduce 2 (fun a b : Int => a + b) (fun i => i) 0 (fun _ => 100) 2 3 3).map
        (slots 7) = some [100, 100, 109, 112, 115, 100, 100]
    ∧ (strided_reduce 2 (fun a b : Int => a + b) (fun i => i) 0 (fun _ => 100) 2 0 3).map
        (slots 7) = some [100, 100, 100, 100, 100, 100, 100] :=
  ⟨strided_reduce_frame 2 (by decide) (fun a b : Int => a + b) (fun i => i) 0
    (fun _ => 100) 2 3 3, by decide, by decide⟩

section reordering

theorem foldl_append_start {β : Type} (f : β → List Nat) :
    ∀ (l : List β) (a : List Nat), ∃ rest, l.foldl (fun a j => a ++ f j) a = a ++ rest := by
  intro l
  induction l with
  | nil => intro a; exact ⟨[], by simp⟩
  | cons b l ih =>
    intro a
    obtain ⟨rest, h⟩ := ih (a ++ f b)
    exact ⟨f b ++ rest, by rw [List.foldl_cons, h, List.append_assoc]⟩

end reordering

/-- C15: for every vector width `N ≥ 2`, list concatenation on lists of
naturals (associative, not commutative, with the empty list as two-sided
identity) and the `2*N` one-element lists `[0], [1], ..., [2N-1]` make
`contiguous_reduce`, started from the identity, return a value different from
the strict left-to-right fold: the result starts `0, N`, the fold `0, 1`. -/
theorem contiguous_reduce_reorders (N : Nat) (hN : 2 ≤ N) :
    (∀ a b c : List Nat, (a ++ b) ++ c = a ++ (b ++ c))
    ∧ (¬ ∀ a b : List Nat, a ++ b = b ++ a)
    ∧ (∀ a : List Nat, a ++ [] = a ∧ [] ++ a = a)
    ∧ ∃ v, contiguous_reduce N (fun a b : List Nat => a ++ b) (fun i => [i.toNat]) 0 []
          ((2 * N : Nat) : Int) [] = some v
        ∧ v.take 2 = [0, N]
        ∧ ((segment (fun i : Int => [i.toNat]) 0 (2 * N)).foldl
            (fun a b : List Nat => a ++ b) []).take 2 = [0, 1]
        ∧ v ≠ (segment (fun i : Int => [i.toNat]) 0 (2 * N)).foldl
            (fun a b : List Nat => a ++ b) [] := by
  refine ⟨fun a b c => List.append_assoc a b c, ?_, fun a => ⟨List.append_nil a, rfl⟩, ?_⟩
  · intro h
    have := h [0] [1]
    simp at this
  · obtain ⟨M, rfl⟩ : ∃ M, N = M + 2 := ⟨N - 2, by omega⟩
    obtain ⟨accv, _, hlane, _, hres⟩ := contiguous_reduce_run
      (fun a b : List Nat => a ++ b) (fun i => [i.toNat]) (M + 2) (by omega) [] [] 0
      (2 * (M + 2))
    have hdiv : 2 * (M + 2) / (M + 2) = 2 := by
      rw [Nat.mul_div_cancel _ (by omega)]
    have hmod : 2 * (M + 2) % (M + 2) = 0 := Nat.mul_mod_left _ _
    have h0 : accv 0 = [0, M + 2] := by
      rw [hlane 0, hdiv]
      simp [List.range_succ]
      omega
    obtain ⟨rest, hrest⟩ := foldl_append_start (fun j => accv (j + 1)) (List.range (M + 1))
      (accv 0)
    have hH : simd_hreduce (M + 2) (fun a b : List Nat => a ++ b) accv
        = [0, M + 2] ++ rest := by
      rw [← h0, ← hrest]
      rfl
    have hfold : ∃ rest1, (segment (fun i : Int => [i.toNat]) 0 (2 * (M + 2))).foldl
        (fun a b : List Nat => a ++ b) [] = [0, 1] ++ rest1 := by
      have h2 : 2 * (M + 2) = (2 * M + 2) + 1 + 1 := by ring
      rw [h2, segment_cons, segment_cons, List.foldl_cons, List.foldl_cons]
      obtain ⟨rest1, h1⟩ := foldl_append_start (fun (b : List Nat) => b)
        (segment (fun i : Int => [i.toNat]) (0 + 1 + 1) (2 * M + 2))
        (([] ++ [(0 : Int).toNat]) ++ [((0 : Int) + 1).toNat])
      exact ⟨rest1, by rw [h1]; rfl⟩
    obtain ⟨rest1, hrest1⟩ := hfold
    rw [hmod, hH] at hres
    refine ⟨[0, M + 2] ++ rest, ?_, ?_, ?_, ?_⟩
    · rw [hres]
      simp [segment]
    · simp
    · rw [hrest1]
      simp
    · rw [hrest1]
      intro h
      have h3 := congrArg (List.take 2) h
      simp at h3

/-- A run of C15 at width 2: the four lists `[0], [1], [2], [3]` come out as
`[0, 2, 1, 3]`. -/
theorem contiguous_reduce_reorders_witness :
    ((∀ a b c : List Nat, (a ++ b) ++ c = a ++ (b ++ c))
      ∧ (¬ ∀ a b : List Nat, a ++ b = b ++ a)
      ∧ (∀ a : List Nat, a ++ [] = a ∧ [] ++ a = a)
      ∧ ∃ v, contiguous_reduce 2 (fun a b : List Nat => a ++ b) (fun i => [i.toNat]) 0 []
            ((2 * 2 : Nat) : Int) [] = some v
          ∧ v.take 2 = [0, 2]
          ∧ ((segment (fun i : Int => [i.toNat]) 0 (2 * 2)).foldl
              (fun a b : List Nat => a ++ b) []).take 2 = [0, 1]
          ∧ v ≠ (segment (fun i : Int => [i.toNat]) 0 (2 * 2)).foldl
              (fun a b : List Nat => a ++ b) [])
    ∧ contiguous_reduce 2 (fun a b : List Nat => a ++ b) (fun i => [i.toNat]) 0 [] 4 []
      = some [0, 2, 1, 3]
    ∧ (segment (fun i : Int => [i.toNat]) 0 4).foldl (fun a b : List Nat => a ++ b) []
      = [0, 1, 2, 3] :=
  ⟨contiguous_reduce_reorders 2 (by decide), by decide, by decide⟩


/-! ## Narrowing conversions and the loops over the output -/

section narrowing

theorem to_int32_fits (z : Int) (h : fits_int z) : to_int32 z = z := by
  unfold fits_int at h
  unfold to_int32
  omega

theorem to_int32_zero : to_int32 0 = 0 := by decide

theorem to_int32_nat (n : Nat) (h : n < 2 ^ 31) : to_int32 (n : Int) = (n : Int) := by
  unfold to_int32
  omega

theorem fits_int_zero : fits_int 0 := by
  unfold fits_int
  omega

theorem to_int32_add_zero (z : Int) : z + to_int32 0 = z := by
  rw [to_int32_zero, add_zero]

theorem to_int_zero : to_int 0 = 0 := by decide

theorem counter_value (i : Nat) (hi : i < 2 ^ 31) :
    to_int i = (i : Int) ∧ to_size_t (to_int i) = i := by
  have h1 : to_int i = (i : Int) := by
    unfold to_int
    omega
  refine ⟨h1, ?_⟩
  rw [h1]
  unfold to_size_t
  omega

theorem counter_test (i bound : Nat) (hi : i < 2 ^ 32) (hb : bound < 2 ^ 31) :
    to_size_t (to_int i) < bound ↔ i < bound := by
  unfold to_size_t to_int
  omega

variable {σ : Type}

theorem out_loop_eq (body : Nat → σ → Option σ) (bound : Nat) (hb : bound < 2 ^ 31) :
    ∀ (n i : Nat) (s : σ), i + n = bound →
      out_loop body bound (n + 1) i s = for_loop body n i s := by
  intro n
  induction n with
  | zero =>
    intro i s h
    rw [out_loop, if_neg (by omega)]
    rfl
  | succ n ih =>
    intro i s h
    rw [out_loop, if_pos (by omega), for_loop]
    cases body i s with
    | none => rfl
    | some s1 =>
      simp only
      rw [if_pos (by omega)]
      exact ih (i + 1) s1 (by omega)

theorem out_loop_run (body : Nat → σ → Option σ) (bound : Nat) (hb : bound < 2 ^ 31) (s : σ) :
    out_loop body bound (bound + 1) 0 s = for_loop body bound 0 s :=
  out_loop_eq body bound hb bound 0 s (by omega)

theorem out_loop_overflow (body : Nat → σ → Option σ) (bound : Nat) (hb : 2 ^ 31 ≤ bound) :
    ∀ (fuel i : Nat) (s : σ), i < 2 ^ 31 → out_loop body bound fuel i s = none := by
  intro fuel
  induction fuel with
  | zero => intro i s _; rfl
  | succ f ih =>
    intro i s hi
    rw [out_loop, if_pos (by omega)]
    cases body i s with
    | none => rfl
    | some s1 =>
      simp only
      by_cases h : i + 1 < 2 ^ 31
      · rw [if_pos h]
        exact ih (i + 1) s1 h
      · rw [if_neg h]

theorem stepped_loop_stuck (body : Int → σ → Option σ) (bound step : Nat) (hb : 0 < bound)
    (hstep : to_int (to_size_t 0 + step) = 0) :
    ∀ (fuel : Nat) (s : σ), stepped_loop body bound step fuel 0 s = none := by
  intro fuel
  induction fuel with
  | zero => intro s; rfl
  | succ f ih =>
    intro s
    have h0 : to_size_t 0 < bound := by
      have : to_size_t 0 = 0 := by decide
      omega
    rw [stepped_loop, if_pos h0]
    cases body 0 s with
    | none => rfl
    | some s1 =>
      simp only
      rw [hstep]
      exact ih s1

end narrowing

/-! ## The dispatcher: outer-axis (strided) reduction -/

section strided_loops

variable {α : Type}

theorem block_index (S : Nat) (hS : 1 ≤ S) (u : Nat) :
    (u + S) / S = u / S + 1 ∧ (u + S) % S = u % S :=
  ⟨Nat.add_div_right u (by omega), Nat.add_mod_right u S⟩

theorem stepped_loop_write_ptr
    (body : Int → Int × Nat × (Nat → α) → Option (Int × Nat × (Nat → α)))
    (bound S : Nat) (hS : 1 ≤ S) (hS31 : 0 < bound → S < 2 ^ 31) (hb31 : bound < 2 ^ 31) (D : Int)
    (w : Int → Nat → α)
    (hbody : ∀ i xp p o, body i (xp, p, o)
      = some (xp + D, p + S, fun t => if p ≤ t ∧ t < p + S then w xp (t - p) else o t)) :
    ∀ (g fuel i : Nat) (xp : Int) (p : Nat) (o : Nat → α), g < fuel → i < 2 ^ 32 →
      bound ≤ i + g * S → (∀ g1, g1 < g → i + g1 * S < bound) →
      stepped_loop body bound S fuel (to_int i) (xp, p, o)
        = some (xp + (g : Int) * D, p + g * S,
            fun t => if p ≤ t ∧ t < p + g * S
              then w (xp + (((t - p) / S : Nat) : Int) * D) ((t - p) % S) else o t) := by
  intro g
  induction g with
  | zero =>
    intro fuel i xp p o hf hi32 hb _
    obtain ⟨f, rfl⟩ : ∃ f, fuel = f + 1 := ⟨fuel - 1, by omega⟩
    rw [stepped_loop, if_neg ((counter_test i bound hi32 hb31).not.mpr (by omega))]
    simp only [Nat.zero_mul, Nat.add_zero, Option.some.injEq, Prod.mk.injEq, true_and]
    refine ⟨by simp, ?_⟩
    funext t
    rw [if_neg (by omega)]
  | succ g ih =>
    intro fuel i xp p o hf hi32 hb hlt
    obtain ⟨f, rfl⟩ : ∃ f, fuel = f + 1 := ⟨fuel - 1, by omega⟩
    have hi : i < bound := by simpa using hlt 0 (by omega)
    have hS31a : S < 2 ^ 31 := hS31 (by omega)
    have hg : (g + 1) * S = g * S + S := by ring
    have hcv := counter_value i (by omega)
    rw [stepped_loop, if_pos ((counter_test i bound hi32 hb31).mpr hi), hbody]
    simp only
    rw [hcv.2, ih f (i + S) _ _ _ (by omega) (by omega) (by omega)
      (fun g1 h1 => by
        have h2 := hlt (g1 + 1) (by omega)
        have h3 : (g1 + 1) * S = g1 * S + S := by ring
        omega)]
    simp only [Option.some.injEq, Prod.mk.injEq]
    refine ⟨by push_cast; ring, by omega, ?_⟩
    funext t
    by_cases h1 : p + S ≤ t ∧ t < p + S + g * S
    · rw [if_pos h1, if_pos (by omega)]
      obtain ⟨hd, hm⟩ := block_index S hS (t - (p + S))
      have ht : t - p = t - (p + S) + S := by omega
      rw [ht, hd, hm]
      congr 1
      push_cast
      ring
    · rw [if_neg h1]
      by_cases h2 : p ≤ t ∧ t < p + S
      · rw [if_pos h2, if_pos (by omega)]
        have hd : (t - p) / S = 0 := Nat.div_eq_of_lt (by omega)
        have hm : (t - p) % S = t - p := Nat.mod_eq_of_lt (by omega)
        rw [hd, hm]
        simp
      · rw [if_neg h2, if_neg (by omega)]

theorem stepped_loop_write
    (body : Int → Nat × (Nat → α) → Option (Nat × (Nat → α)))
    (bound S : Nat) (hS : 1 ≤ S) (hS31 : 0 < bound → S < 2 ^ 31) (hb31 : bound < 2 ^ 31)
    (w : Nat → Nat → α)
    (hbody : ∀ (i : Nat) p o, body (i : Int) (p, o)
      = some (p + S, fun t => if p ≤ t ∧ t < p + S then w i (t - p) else o t)) :
    ∀ (g fuel i : Nat) (p : Nat) (o : Nat → α), g < fuel → i < 2 ^ 32 →
      bound ≤ i + g * S → (∀ g1, g1 < g → i + g1 * S < bound) →
      stepped_loop body bound S fuel (to_int i) (p, o)
        = some (p + g * S,
            fun t => if p ≤ t ∧ t < p + g * S
              then w (i + (t - p) / S * S) ((t - p) % S) else o t) := by
  intro g
  induction g with
  | zero =>
    intro fuel i p o hf hi32 hb _
    obtain ⟨f, rfl⟩ : ∃ f, fuel = f + 1 := ⟨fuel - 1, by omega⟩
    rw [stepped_loop, if_neg ((counter_test i bound hi32 hb31).not.mpr (by omega))]
    simp only [Nat.zero_mul, Nat.add_zero, Option.some.injEq, Prod.mk.injEq, true_and]
    funext t
    rw [if_neg (by omega)]
  | succ g ih =>
    intro fuel i p o hf hi32 hb hlt
    obtain ⟨f, rfl⟩ : ∃ f, fuel = f + 1 := ⟨fuel - 1, by omega⟩
    have hi : i < bound := by simpa using hlt 0 (by omega)
    have hS31a : S < 2 ^ 31 := hS31 (by omega)
    have hg : (g + 1) * S = g * S + S := by ring
    have hcv := counter_value i (by omega)
    rw [stepped_loop, if_pos ((counter_test i bound hi32 hb31).mpr hi), hcv.2, hcv.1, hbody]
    simp only
    rw [ih f (i + S) _ _ (by omega) (by omega) (by omega)
      (fun g1 h1 => by
        have h2 := hlt (g1 + 1) (by omega)
        have h3 : (g1 + 1) * S = g1 * S + S := by ring
        omega)]
    simp only [Option.some.injEq, Prod.mk.injEq]
    refine ⟨by omega, ?_⟩
    funext t
    by_cases h1 : p + S ≤ t ∧ t < p + S + g * S
    · rw [if_pos h1, if_pos (by omega)]
      obtain ⟨hd, hm⟩ := block_index S hS (t - (p + S))
      have ht : t - p = t - (p + S) + S := by omega
      rw [ht, hd, hm]
      congr 1
      ring
    · rw [if_neg h1]
      by_cases h2 : p ≤ t ∧ t < p + S
      · rw [if_pos h2, if_pos (by omega)]
        have hd : (t - p) / S = 0 := Nat.div_eq_of_lt (by omega)
        have hm : (t - p) % S = t - p := Nat.mod_eq_of_lt (by omega)
        rw [hd, hm]
        simp
      · rw [if_neg h2, if_neg (by omega)]

theorem to_size_t_small (S : Nat) (hS : S < 2 ^ 64) : to_size_t (S : Int) = S := by
  unfold to_size_t
  omega

theorem strided_reduce_fill (N : Nat) (hN : 1 ≤ N) (op : α → α → α) (x : Int → α) (init : α)
    (xp : Int) (o : Nat → α) (p : Nat) (size : Int) (S : Nat) :
    strided_reduce N op x xp (fill_n o p S init) p size S
      = some (fun t => if p ≤ t ∧ t < p + S
          then (column x xp S (t - p) size.toNat).foldl op init else o t) := by
  rw [strided_reduce_run op x N hN]
  congr 1
  funext t
  by_cases h : p ≤ t ∧ t < p + S
  · simp only [if_pos h, fill_n]
  · simp only [if_neg h, fill_n]

theorem stepped_loop_count {σ : Type} (body : Int → σ → Option σ) (bound S : Nat)
    (hS31 : 0 < bound → S < 2 ^ 31) (hb31 : bound < 2 ^ 31) (hbody : ∀ (i : Nat) s, (body (i : Int) s).isSome) :
    ∀ (g fuel i : Nat) (st : σ), i < 2 ^ 32 → bound ≤ i + g * S →
      (∀ g1, g1 < g → i + g1 * S < bound) →
      ((stepped_loop body bound S fuel (to_int i) st).isSome ↔ g < fuel) := by
  intro g
  induction g with
  | zero =>
    intro fuel i st hi32 hb _
    cases fuel with
    | zero => simp [stepped_loop]
    | succ f =>
      rw [stepped_loop, if_neg ((counter_test i bound hi32 hb31).not.mpr (by omega))]
      simp
  | succ g ih =>
    intro fuel i st hi32 hb hlt
    cases fuel with
    | zero => simp [stepped_loop]
    | succ f =>
      have hi : i < bound := by simpa using hlt 0 (by omega)
      have hS31a : S < 2 ^ 31 := hS31 (by omega)
      have hg : (g + 1) * S = g * S + S := by ring
      have hcv := counter_value i (by omega)
      obtain ⟨s1, hs1⟩ := Option.isSome_iff_exists.mp (hbody i st)
      rw [stepped_loop, if_pos ((counter_test i bound hi32 hb31).mpr hi), hcv.2, hcv.1, hs1]
      simp only
      rw [ih f (i + S) s1 (by omega) (by omega)
        (fun g1 h1 => by
          have h2 := hlt (g1 + 1) (by omega)
          have h3 : (g1 + 1) * S = g1 * S + S := by ring
          omega)]
      omega

end strided_loops

theorem block_slot (G S g j : Nat) (hg : g < G) (hj : j < S) :
    g * S + j < G * S ∧ (g * S + j) / S = g ∧ (g * S + j) % S = j := by
  have h1 : (g + 1) * S ≤ G * S := Nat.mul_le_mul_right S hg
  have h2 : (g + 1) * S = g * S + S := by ring
  refine ⟨by omega, ?_, ?_⟩
  · rw [Nat.add_comm, Nat.add_mul_div_right _ _ (by omega), Nat.div_eq_of_lt hj, Nat.zero_add]
  · rw [Nat.add_comm, Nat.add_mul_mod_self_right, Nat.mod_eq_of_lt hj]


/-! ## The loop driver -/

section loop_driver

variable {σ : Type}

theorem for_loop_total (body : Nat → σ → Option σ) (f : Nat → σ → σ)
    (hbody : ∀ i s, body i s = some (f i s)) :
    ∀ (n i : Nat) (s : σ), for_loop body n i s
      = some (((List.range n).map (fun k => i + k)).foldl (fun st k => f k st) s) := by
  intro n
  induction n with
  | zero => intro i s; rfl
  | succ n ih =>
    intro i s
    rw [for_loop, hbody]
    simp only
    rw [ih, List.range_succ_eq_map, List.map_cons, List.foldl_cons, List.map_map]
    simp only [Nat.add_zero]
    congr 2
    apply List.map_congr_left
    intro k _
    simp only [Function.comp, Nat.succ_eq_add_one]
    omega

theorem foldl_flatMap {β γ : Type} (g : σ → γ → σ) (h : β → List γ) (l : List β) (s : σ) :
    (l.flatMap h).foldl g s = l.foldl (fun st b => (h b).foldl g st) s := by
  induction l generalizing s with
  | nil => rfl
  | cons b l ih => simp only [List.flatMap_cons, List.foldl_append, List.foldl_cons, ih]

theorem nd_loop_inner_total (callback : Int → σ → Option σ) (f : Int → σ → σ)
    (hcb : ∀ e s, callback e s = some (f e s)) :
    ∀ (shape strides : List Int) (offset : Int) (s : σ),
      nd_loop_inner callback shape strides offset s
        = some ((nd_offsets shape strides).foldl
            (fun st e => f (to_int32 (offset + e)) st) s) := by
  intro shape
  induction shape with
  | nil =>
    intro strides offset s
    simp [nd_loop_inner, nd_offsets, nd_coords, coord_offset, hcb]
  | cons n shape ih =>
    intro strides offset s
    rw [nd_loop_inner]
    rw [for_loop_total _
      (fun (i : Nat) st => (nd_offsets shape strides.tail).foldl
        (fun st e => f (to_int32 (offset + (i : Int) * strides.headD 0 + e)) st) st)
      (fun i st => ih _ _ _)]
    simp only [Nat.zero_add, List.map_id', nd_offsets, nd_coords, List.map_flatMap,
      List.map_map, foldl_flatMap, List.foldl_map]
    have hfun : (fun (st : σ) (k : Nat) =>
          List.foldl (fun x y => f (to_int32 (offset + (k : Int) * strides.headD 0
            + coord_offset y strides.tail)) x) st (nd_coords shape))
        = (fun (st : σ) (b : Nat) =>
          List.foldl (fun x y => f (to_int32 (offset
            + ((fun c => coord_offset c strides) ∘ fun c => b :: c) y)) x) st
            (nd_coords shape)) := by
      funext st i
      congr 1
      funext st1 c
      simp only [Function.comp, coord_offset]
      congr 2
      ring
    rw [hfun]

theorem nd_loop_total (callback : Int → σ → Option σ) (f : Int → σ → σ)
    (hcb : ∀ e s, callback e s = some (f e s)) (shape strides : List Int) (s : σ) :
    nd_loop callback shape strides s
      = some ((nd_offsets shape strides).foldl (fun st e => f (to_int32 e) st) s) := by
  rw [nd_loop, nd_loop_inner_total callback f hcb]
  simp

end loop_driver


/-! ## Branches of the dispatcher in closed form -/

section branch_choice

variable {α : Type} (N : Nat) (op : α → α → α) (init : α) (x : Int → α) (x_size M : Nat)
  (plan : ReductionPlan) (shape strides : List Int) (out : Nat → α)

theorem branch_contiguous (htype : plan.type = ReductionOpType.ContiguousReduce)
    (hlen : plan.shape.length = 1) :
    reduction_op N op init x x_size M plan shape strides out
      = reduction_op_contiguous N op init x M plan out := by
  rw [reduction_op]
  simp only [htype, hlen, and_self, if_true, reduceCtorEq, if_false]

theorem branch_general_contiguous
    (htype : (plan.type = ReductionOpType.ContiguousReduce ∧ plan.shape.length ≠ 1)
      ∨ plan.type = ReductionOpType.GeneralContiguousReduce) :
    reduction_op N op init x x_size M plan shape strides out
      = reduction_op_general_contiguous N op init x M plan shape strides out := by
  rw [reduction_op]
  rcases htype with ⟨htype, h1⟩ | htype
  · simp only [htype, h1, and_false, or_true, if_true, reduceCtorEq, if_false]
  · simp only [htype, reduceCtorEq, if_false, false_and, true_or, if_true]

theorem branch_strided (htype : plan.type = ReductionOpType.ContiguousStridedReduce)
    (hlen : plan.shape.length = 1) :
    reduction_op N op init x x_size M plan shape strides out
      = reduction_op_strided N op init x M plan out := by
  rw [reduction_op]
  simp only [htype, hlen, and_self, if_true, reduceCtorEq, if_false, false_and, or_false]

theorem branch_general_strided
    (htype : (plan.type = ReductionOpType.ContiguousStridedReduce ∧ plan.shape.length ≠ 1)
      ∨ plan.type = ReductionOpType.GeneralStridedReduce) :
    reduction_op N op init x x_size M plan shape strides out
      = reduction_op_general_strided N op init x M plan shape strides out := by
  rw [reduction_op]
  rcases htype with ⟨htype, h1⟩ | htype
  · simp only [htype, h1, and_false, or_true, if_true, reduceCtorEq, if_false, false_and,
      or_false]
  · simp only [htype, reduceCtorEq, if_false, false_and, or_false, true_or, if_true]

theorem branch_general (htype : plan.type = ReductionOpType.GeneralReduce) :
    reduction_op N op init x x_size M plan shape strides out
      = reduction_op_general op init x M plan shape strides out := by
  rw [reduction_op]
  simp only [htype, reduceCtorEq, if_false, false_and, or_false, if_true]

end branch_choice

section branches

variable {α : Type} (op : α → α → α) (x : Int → α)

theorem group_count_le (M S g : Nat) (hS : 1 ≤ S) (hlt : ∀ g1, g1 < g → g1 * S < M) :
    g ≤ M := by
  rcases Nat.eq_zero_or_pos g with h | h
  · omega
  · have h1 := hlt (g - 1) (by omega)
    have h2 : g - 1 ≤ (g - 1) * S := Nat.le_mul_of_pos_right _ (by omega)
    omega


theorem nd_offsets_single (R : Nat) (s : Int) :
    nd_offsets [(R : Int)] [s] = (List.range R).map (fun (i : Nat) => (i : Int) * s) := by
  simp only [nd_offsets, nd_coords, Int.toNat_ofNat, List.map_cons, List.map_nil,
    List.map_flatMap, coord_offset, List.headD_cons, add_zero]
  induction (List.range R) with
  | nil => rfl
  | cons i l ih => simp only [List.flatMap_cons, List.map_cons, ih, List.singleton_append]

theorem elem_to_loc_single (t M : Nat) (s : Int) (ht : t < M) :
    elem_to_loc (t : Int) [(M : Int)] [s] = (t : Int) * s := by
  simp only [elem_to_loc, List.zip_cons_cons, List.zip_nil_right, List.reverse_cons,
    List.reverse_nil, List.nil_append, elem_to_loc_inner, add_zero]
  rw [Int.emod_eq_of_lt (by omega) (by omega)]


theorem nd_offsets_nil (strides : List Int) : nd_offsets [] strides = [0] := by
  simp [nd_offsets, nd_coords, coord_offset]

theorem dropLast_of_length_zero (l : List Int) (h : l.dropLast.length = 0) :
    l.dropLast = [] := List.length_eq_zero.mp h

theorem foldl_columns (p S : Nat) (col : Int → Nat → List α) :
    ∀ (l : List Int) (o : Nat → α),
      l.foldl (fun st e => fun t => if p ≤ t ∧ t < p + S
          then (col e (t - p)).foldl op (st t) else st t) o
        = fun t => if p ≤ t ∧ t < p + S
          then (l.flatMap (fun e => col e (t - p))).foldl op (o t)
          else o t := by
  intro l
  induction l with
  | nil =>
    intro o
    funext t
    simp
  | cons e l ih =>
    intro o
    rw [List.foldl_cons, ih]
    funext t
    by_cases h : p ≤ t ∧ t < p + S
    · simp only [if_pos h, List.flatMap_cons, List.foldl_append]
    · simp only [if_neg h]

theorem foldl_cells (p : Nat) (seg : Int → List α) :
    ∀ (l : List Int) (o : Nat → α),
      l.foldl (fun st e => Function.update st p ((seg e).foldl op (st p))) o
        = Function.update o p ((l.flatMap seg).foldl op (o p)) := by
  intro l
  induction l with
  | nil => intro o; simp
  | cons e l ih =>
    intro o
    rw [List.foldl_cons, ih]
    simp only [Function.update_same, Function.update_idem, List.flatMap_cons,
      List.foldl_append]


theorem group_count (M S : Nat) (hS : 1 ≤ S) :
    ∃ g, M ≤ g * S ∧ ∀ g1, g1 < g → g1 * S < M := by
  refine ⟨(M + S - 1) / S, ?_, ?_⟩
  · have h1 := Nat.div_add_mod (M + S - 1) S
    have h2 := Nat.mod_lt (M + S - 1) (show 0 < S by omega)
    have h3 : (M + S - 1) / S * S = S * ((M + S - 1) / S) := Nat.mul_comm _ _
    omega
  · intro g1 hg
    have h1 : (g1 + 1) * S ≤ (M + S - 1) / S * S := Nat.mul_le_mul_right S hg
    have h2 := Nat.div_mul_le_self (M + S - 1) S
    have h3 : (g1 + 1) * S = g1 * S + S := by ring
    omega


theorem last_of_mem (l : List Int) (h : (0 : Int) ∈ l) :
    ∃ R, l.getLast? = some R ∧ l = l.dropLast ++ [R] ∧ ((0 : Int) ∈ l.dropLast ∨ R = 0) := by
  have hne : l ≠ [] := List.ne_nil_of_mem h
  refine ⟨l.getLast hne, List.getLast?_eq_getLast _ hne,
    (List.dropLast_append_getLast hne).symm, ?_⟩
  have h2 := h
  rw [← List.dropLast_append_getLast hne, List.mem_append] at h2
  rcases h2 with h3 | h3
  · exact Or.inl h3
  · exact Or.inr (List.mem_singleton.mp h3).symm

theorem last_of_length (l : List Int) (h : 0 < l.length) : ∃ s, l.getLast? = some s := by
  have hne : l ≠ [] := List.ne_nil_of_length_pos h
  exact ⟨l.getLast hne, List.getLast?_eq_getLast _ hne⟩


theorem reduction_op_contiguous_run (N : Nat) (hN : 1 ≤ N) (init : α)
    (hassoc : ∀ a b c, op (op a b) c = op a (op b c)) (hcomm : ∀ a b, op a b = op b a)
    (hid : ∀ a, op a init = a) (M R : Nat) (hM : M < 2 ^ 31) (plan : ReductionPlan)
    (hshape : plan.shape = [(R : Int)]) (out : Nat → α) :
    reduction_op_contiguous N op init x M plan out
      = some (fun t => if t < M then (segment x ((t : Int) * (R : Int)) R).foldl op init
          else out t) := by
  rw [reduction_op_contiguous, hshape]
  simp only [List.headD_cons]
  rw [out_loop_run _ M hM,
    for_loop_write_ptr _ (R : Int) (fun xp => (segment x xp R).foldl op init)
      (fun i xp p o => by
        simp only [reduce_into_monoid op x N hN init hassoc hcomm hid])]
  simp only [Option.map_some', Nat.zero_le, Nat.zero_add, true_and, Nat.sub_zero, zero_add]

theorem reduction_op_general_run (init : α) (M : Nat) (hM : M < 2 ^ 31) (plan : ReductionPlan)
    (shape strides : List Int) (out : Nat → α) :
    reduction_op_general op init x M plan shape strides out
      = some (fun t => if t < M
          then ((nd_offsets plan.shape plan.strides).map
            (fun e => x (to_int32 (elem_to_loc (t : Int) shape strides) + to_int32 e))).foldl
            op init
          else out t) := by
  rw [reduction_op_general, out_loop_run _ M hM]
  rw [for_loop_write _
    (fun (i : Nat) => ((nd_offsets plan.shape plan.strides).map
      (fun e => x (to_int32 (elem_to_loc (i : Int) shape strides) + to_int32 e))).foldl op
      init)
    (fun i p o => by
      have h := nd_loop_total
        (fun e val => some (op val (x (to_int32 (elem_to_loc (i : Int) shape strides) + e))))
        (fun e val => op val (x (to_int32 (elem_to_loc (i : Int) shape strides) + e)))
        (fun e s => rfl) plan.shape plan.strides init
      simp only [zero_add, h, List.foldl_map])]
  simp only [Option.map_some', Nat.zero_le, Nat.zero_add, true_and, Nat.sub_zero]

theorem reduction_op_general_contiguous_run (N : Nat) (hN : 1 ≤ N) (init : α)
    (hassoc : ∀ a b c, op (op a b) c = op a (op b c)) (hcomm : ∀ a b, op a b = op b a)
    (hid : ∀ a, op a init = a) (M : Nat) (hM : M < 2 ^ 31) (plan : ReductionPlan) (R s : Int)
    (hR : plan.shape.getLast? = some R) (hs : plan.strides.getLast? = some s)
    (shape strides : List Int) (out : Nat → α) :
    reduction_op_general_contiguous N op init x M plan shape strides out
      = some (fun t => if t < M
          then ((nd_offsets plan.shape.dropLast plan.strides.dropLast).flatMap
            (fun e => segment x (to_int32 (elem_to_loc (t : Int) shape strides) + to_int32 e)
              R.toNat)).foldl op init
          else out t) := by
  have hcell : ∀ (xp : Int) (a : α),
      contiguous_reduce N op x xp a R init = some ((segment x xp R.toNat).foldl op a) := by
    intro xp a
    rw [contiguous_reduce_seeded op x N hN init hassoc hcomm,
      hreduce_broadcast op init (hid init) N, hid]
  rw [reduction_op_general_contiguous, hR, hs]
  simp only
  by_cases hflat : plan.shape.dropLast.length = 0
  · rw [if_pos hflat, dropLast_of_length_zero _ hflat, nd_offsets_nil, out_loop_run _ M hM,
      for_loop_write _
        (fun i => (segment x (0 + to_int32 (elem_to_loc (i : Int) shape strides))
          R.toNat).foldl op init)
        (fun i p o => by
          simp only [reduce_into, hcell, Function.update_same, Option.map_some',
            Function.update_idem])]
    simp only [Option.map_some', Nat.zero_le, Nat.zero_add, true_and, Nat.sub_zero, zero_add,
      List.flatMap_cons, List.flatMap_nil, List.append_nil, to_int32_zero, add_zero]
  · rw [if_neg hflat, out_loop_run _ M hM,
      for_loop_write _
        (fun i => ((nd_offsets plan.shape.dropLast plan.strides.dropLast).flatMap
          (fun e => segment x (to_int32 (elem_to_loc (i : Int) shape strides) + to_int32 e)
            R.toNat)).foldl op init)
        (fun i p o => by
          have hnd := nd_loop_total
            (fun extra_offset o1 =>
              (contiguous_reduce N op x
                (0 + to_int32 (elem_to_loc (i : Int) shape strides) + extra_offset)
                (o1 p) R init).map (Function.update o1 p))
            (fun e st => Function.update st p
              ((segment x (to_int32 (elem_to_loc (i : Int) shape strides) + e)
                R.toNat).foldl op (st p)))
            (fun e st => by
              simp only [hcell, zero_add, Option.map_some'])
            plan.shape.dropLast plan.strides.dropLast (Function.update o p init)
          simp only [hnd, foldl_cells op p
            (fun e => segment x (to_int32 (elem_to_loc (i : Int) shape strides) + to_int32 e)
              R.toNat),
            Function.update_same, Function.update_idem])]
    simp only [Option.map_some', Nat.zero_le, Nat.zero_add, true_and, Nat.sub_zero]

theorem strided_group_loop_run (N : Nat) (hN : 1 ≤ N) (init : α) (M : Nat) (hM : M < 2 ^ 31)
    (R : Int) (S : Nat) (hS : 1 ≤ S) (hS31 : 0 < M → S < 2 ^ 31) (out : Nat → α)
    (g fuel : Nat) (hf : g < fuel) (hb : M ≤ g * S) (hlt : ∀ g1, g1 < g → g1 * S < M) :
    strided_group_loop N op init x M R S fuel out
      = some ((g : Int) * ((S : Int) * R), g * S,
          fun t => if t < g * S
            then (column x (((t / S : Nat) : Int) * ((S : Int) * R)) S (t % S)
              R.toNat).foldl op init
            else out t) := by
  have h := stepped_loop_write_ptr (strided_group N op init x R S) M S hS hS31 hM
    ((S : Int) * R) (fun xp j => (column x xp S j R.toNat).foldl op init)
    (fun i xp p o => by
      simp only [strided_group, strided_reduce_fill N hN op x init])
    g fuel 0 0 0 out hf (by omega) (by omega) (fun g1 h => by have := hlt g1 h; omega)
  rw [to_int_zero] at h
  rw [strided_group_loop, h]
  simp only [Nat.zero_le, Nat.zero_add, true_and, Nat.sub_zero, zero_add]

theorem reduction_op_strided_run (N : Nat) (hN : 1 ≤ N) (init : α) (M : Nat) (hM : M < 2 ^ 31)
    (plan : ReductionPlan) (R s : Int) (hR : plan.shape.getLast? = some R)
    (hs : plan.strides.getLast? = some s) (hS : 1 ≤ to_size_t s)
    (hS31 : 0 < M → to_size_t s < 2 ^ 31) (out : Nat → α)
    (g : Nat) (hb : M ≤ g * to_size_t s) (hlt : ∀ g1, g1 < g → g1 * to_size_t s < M) :
    reduction_op_strided N op init x M plan out
      = some (fun t => if t < g * to_size_t s
          then (column x (((t / to_size_t s : Nat) : Int) * ((to_size_t s : Int) * R))
            (to_size_t s) (t % to_size_t s) R.toNat).foldl op init
          else out t) := by
  have hg := group_count_le M (to_size_t s) g hS hlt
  rw [reduction_op_strided, hR, hs]
  simp only
  rw [strided_group_loop_run op x N hN init M hM R (to_size_t s) hS hS31 out g (M + 1)
    (by omega) hb hlt]
  rfl

theorem general_strided_group_loop_run (N : Nat) (hN : 1 ≤ N) (init : α) (M : Nat)
    (hM : M < 2 ^ 31) (shape strides plan_shape plan_strides : List Int) (R : Int) (S : Nat)
    (hS : 1 ≤ S) (hS31 : 0 < M → S < 2 ^ 31) (out : Nat → α)
    (g fuel : Nat) (hf : g < fuel) (hb : M ≤ g * S) (hlt : ∀ g1, g1 < g → g1 * S < M) :
    general_strided_group_loop N op init x M shape strides plan_shape plan_strides R S fuel out
      = some (g * S,
          fun t => if t < g * S
            then ((nd_offsets plan_shape plan_strides).flatMap
              (fun e => column x
                (to_int32 (elem_to_loc ((t / S * S : Nat) : Int) shape strides) + to_int32 e)
                S (t % S) R.toNat)).foldl op init
            else out t) := by
  rw [general_strided_group_loop]
  by_cases hflat : plan_shape.length = 0
  · have h := stepped_loop_write
      (general_strided_flat_group N op init x shape strides R S) M S hS hS31 hM
      (fun i j => (column x (0 + to_int32 (elem_to_loc (i : Int) shape strides)) S j
        R.toNat).foldl op init)
      (fun i p o => by
        simp only [general_strided_flat_group, strided_reduce_fill N hN op x init])
      g fuel 0 0 out hf (by omega) (by omega) (fun g1 h => by have := hlt g1 h; omega)
    rw [to_int_zero] at h
    rw [if_pos hflat, h, List.length_eq_zero.mp hflat, nd_offsets_nil]
    simp only [Nat.zero_le, Nat.zero_add, true_and, Nat.sub_zero, zero_add,
      List.flatMap_cons, List.flatMap_nil, List.append_nil, to_int32_zero, add_zero]
  · have h := stepped_loop_write
      (general_strided_nd_group N op init x shape strides plan_shape plan_strides R S) M S hS
      hS31 hM
      (fun i j => ((nd_offsets plan_shape plan_strides).flatMap
        (fun e => column x (to_int32 (elem_to_loc (i : Int) shape strides) + to_int32 e) S j
          R.toNat)).foldl op init)
      (fun i p o => by
        have hnd := nd_loop_total
          (fun extra_offset o1 =>
            strided_reduce N op x
              (0 + to_int32 (elem_to_loc (i : Int) shape strides) + extra_offset) o1 p R S)
          (fun e st => fun t => if p ≤ t ∧ t < p + S
            then (column x (to_int32 (elem_to_loc (i : Int) shape strides) + e) S (t - p)
              R.toNat).foldl op (st t) else st t)
          (fun e st => by
            simp only [strided_reduce_run op x N hN, zero_add])
          plan_shape plan_strides (fill_n o p S init)
        simp only [general_strided_nd_group, hnd, foldl_columns op p S
          (fun e j => column x (to_int32 (elem_to_loc (i : Int) shape strides) + to_int32 e) S
            j R.toNat)]
        congr 2
        funext t
        by_cases h : p ≤ t ∧ t < p + S
        · simp only [if_pos h, fill_n]
        · simp only [if_neg h, fill_n])
      g fuel 0 0 out hf (by omega) (by omega) (fun g1 h => by have := hlt g1 h; omega)
    rw [to_int_zero] at h
    rw [if_neg hflat, h]
    simp only [Nat.zero_le, Nat.zero_add, true_and, Nat.sub_zero]

theorem reduction_op_general_strided_run (N : Nat) (hN : 1 ≤ N) (init : α) (M : Nat)
    (hM : M < 2 ^ 31) (plan : ReductionPlan) (R s : Int) (hR : plan.shape.getLast? = some R)
    (hs : plan.strides.getLast? = some s) (hS : 1 ≤ to_size_t s)
    (hS31 : 0 < M → to_size_t s < 2 ^ 31) (shape strides : List Int) (out : Nat → α)
    (g : Nat) (hb : M ≤ g * to_size_t s) (hlt : ∀ g1, g1 < g → g1 * to_size_t s < M) :
    reduction_op_general_strided N op init x M plan shape strides out
      = some (fun t => if t < g * to_size_t s
          then ((nd_offsets plan.shape.dropLast plan.strides.dropLast).flatMap
            (fun e => column x
              (to_int32 (elem_to_loc ((t / to_size_t s * to_size_t s : Nat) : Int) shape
                strides) + to_int32 e)
              (to_size_t s) (t % to_size_t s) R.toNat)).foldl op init
          else out t) := by
  have hg := group_count_le M (to_size_t s) g hS hlt
  rw [reduction_op_general_strided, hR, hs]
  simp only
  rw [general_strided_group_loop_run op x N hN init M hM shape strides plan.shape.dropLast
    plan.strides.dropLast R (to_size_t s) hS hS31 out g (M + 1) (by omega) hb hlt]
  rfl

theorem strided_group_loop_count (N : Nat) (hN : 1 ≤ N) (init : α) (M : Nat) (hM : M < 2 ^ 31)
    (R : Int) (S : Nat) (hS31 : 0 < M → S < 2 ^ 31) (out : Nat → α)
    (g fuel : Nat) (hb : M ≤ g * S) (hlt : ∀ g1, g1 < g → g1 * S < M) :
    (strided_group_loop N op init x M R S fuel out).isSome ↔ g < fuel := by
  have h := stepped_loop_count (strided_group N op init x R S) M S hS31 hM
    (fun i st => by
      simp only [strided_group, strided_reduce_fill N hN op x init]
      rfl)
    g fuel 0 (0, 0, out) (by omega) (by omega) (fun g1 h => by have := hlt g1 h; omega)
  rw [to_int_zero] at h
  exact h

theorem general_strided_group_loop_count (N : Nat) (hN : 1 ≤ N) (init : α) (M : Nat)
    (hM : M < 2 ^ 31) (shape strides plan_shape plan_strides : List Int) (R : Int) (S : Nat)
    (hS31 : 0 < M → S < 2 ^ 31) (out : Nat → α)
    (g fuel : Nat) (hb : M ≤ g * S) (hlt : ∀ g1, g1 < g → g1 * S < M) :
    (general_strided_group_loop N op init x M shape strides plan_shape plan_strides R S fuel
      out).isSome ↔ g < fuel := by
  rw [general_strided_group_loop]
  by_cases hflat : plan_shape.length = 0
  · have h := stepped_loop_count
      (general_strided_flat_group N op init x shape strides R S) M S hS31 hM
      (fun i st => by
        simp only [general_strided_flat_group, strided_reduce_fill N hN op x init]
        rfl)
      g fuel 0 (0, out) (by omega) (by omega) (fun g1 h => by have := hlt g1 h; omega)
    rw [to_int_zero] at h
    rw [if_pos hflat]
    exact h
  · have h := stepped_loop_count
      (general_strided_nd_group N op init x shape strides plan_shape plan_strides R S) M S
      hS31 hM
      (fun i st => by
        have hnd := nd_loop_total
          (fun extra_offset o1 =>
            strided_reduce N op x
              (0 + to_int32 (elem_to_loc (i : Int) shape strides) + extra_offset) o1 st.1 R S)
          (fun e o1 => fun t => if st.1 ≤ t ∧ t < st.1 + S
            then (column x (to_int32 (elem_to_loc (i : Int) shape strides) + e) S (t - st.1)
              R.toNat).foldl op (o1 t) else o1 t)
          (fun e o1 => by
            simp only [strided_reduce_run op x N hN, zero_add])
          plan_shape plan_strides (fill_n st.2 st.1 S init)
        simp only [general_strided_nd_group, hnd]
        rfl)
      g fuel 0 (0, out) (by omega) (by omega) (fun g1 h => by have := hlt g1 h; omega)
    rw [to_int_zero] at h
    rw [if_neg hflat]
    exact h

theorem flatMap_congr_mem {β γ : Type} (f g : β → List γ) :
    ∀ l : List β, (∀ e, e ∈ l → f e = g e) → l.flatMap f = l.flatMap g := by
  intro l
  induction l with
  | nil => intro _; rfl
  | cons e l ih =>
    intro h
    rw [List.flatMap_cons, List.flatMap_cons, h e (List.mem_cons_self e l),
      ih (fun e1 h1 => h e1 (List.mem_cons_of_mem e h1))]

theorem strided_group_run (N : Nat) (hN : 1 ≤ N) (init : α) (R : Int) (S : Nat)
    (i xp : Int) (p : Nat) (o : Nat → α) :
    strided_group N op init x R S i (xp, p, o)
      = some (xp + (S : Int) * R, p + S,
          fun t => if p ≤ t ∧ t < p + S
            then (column x xp S (t - p) R.toNat).foldl op init else o t) := by
  simp only [strided_group, strided_reduce_fill N hN op x init]

theorem general_strided_group_run (N : Nat) (hN : 1 ≤ N) (init : α)
    (shape strides plan_shape plan_strides : List Int) (R : Int) (S : Nat)
    (i : Int) (p : Nat) (o : Nat → α) :
    (if plan_shape.length = 0
      then general_strided_flat_group N op init x shape strides R S i (p, o)
      else general_strided_nd_group N op init x shape strides plan_shape plan_strides R S i
        (p, o))
      = some (p + S,
          fun t => if p ≤ t ∧ t < p + S
            then ((nd_offsets plan_shape plan_strides).flatMap
              (fun e => column x (to_int32 (elem_to_loc i shape strides) + to_int32 e) S
                (t - p) R.toNat)).foldl op init
            else o t) := by
  by_cases hflat : plan_shape.length = 0
  · rw [if_pos hflat, List.length_eq_zero.mp hflat, nd_offsets_nil]
    simp only [general_strided_flat_group, strided_reduce_fill N hN op x init, zero_add,
      List.flatMap_cons, List.flatMap_nil, List.append_nil, to_int32_zero, add_zero]
  · have hnd := nd_loop_total
      (fun extra_offset o1 =>
        strided_reduce N op x (0 + to_int32 (elem_to_loc i shape strides) + extra_offset) o1 p
          R S)
      (fun e st => fun t => if p ≤ t ∧ t < p + S
        then (column x (to_int32 (elem_to_loc i shape strides) + e) S (t - p)
          R.toNat).foldl op (st t) else st t)
      (fun e st => by
        simp only [strided_reduce_run op x N hN, zero_add])
      plan_shape plan_strides (fill_n o p S init)
    rw [if_neg hflat]
    simp only [general_strided_nd_group, hnd, foldl_columns op p S
      (fun e j => column x (to_int32 (elem_to_loc i shape strides) + to_int32 e) S j R.toNat)]
    congr 2
    funext t
    by_cases h : p ≤ t ∧ t < p + S
    · simp only [if_pos h, fill_n]
    · simp only [if_neg h, fill_n]

end branches

/-! ## The single-axis branches -/

/-- C4, as stated, fails: under a `ContiguousReduce` plan of shape `[2]`, an
input of `2^31 + 65536` rows of 2 elements (shape `[65536, 32769, 2]` reduced
over its last axis) has more rows than the `int` counter of line 127 can count:
the counter overflows before it reaches `out.size()`, and the run has no
defined result. -/
theorem reduction_op_innermost_counterexample :
    reduction_op 4 (fun a b : Int => a + b) 0 (fun i => i) (2 ^ 32 + 2 ^ 17) (2 ^ 31 + 65536)
      ⟨ReductionOpType.ContiguousReduce, [((2 : Nat) : Int)], [1]⟩ [65536, 32769] [65538, 2]
      (fun _ => 0) = none := by
  rw [branch_contiguous _ _ _ _ _ _
      ⟨ReductionOpType.ContiguousReduce, [((2 : Nat) : Int)], [1]⟩ _ _ _ rfl rfl,
    reduction_op_contiguous,
    out_loop_overflow _ _ (by decide) _ 0 _ (by decide)]
  rfl

/-- C4, amended: under a `ContiguousReduce` plan whose shape is the single
extent `[R]`, for every input viewed as `M < 2^31` rows of `R` elements and
every associative, commutative `op` with identity `init`, `reduction_op`
returns with `out[i] = x[i*R] op ... op x[i*R + R-1]` (folded from `init`) for
every `i < M`, and leaves the slots from `M` on untouched. -/
theorem reduction_op_innermost {α : Type} (N : Nat) (hN : 1 ≤ N) (op : α → α → α) (init : α)
    (hassoc : ∀ a b c, op (op a b) c = op a (op b c)) (hcomm : ∀ a b, op a b = op b a)
    (hidr : ∀ a, op a init = a) (hidl : ∀ a, op init a = a)
    (x : Int → α) (x_size M R : Nat) (hM : M < 2 ^ 31) (plan : ReductionPlan)
    (htype : plan.type = ReductionOpType.ContiguousReduce) (hshape : plan.shape = [(R : Int)])
    (shape strides : List Int) (out : Nat → α) :
    ∃ out1, reduction_op N op init x x_size M plan shape strides out = some out1
      ∧ (∀ i, i < M → out1 i = (segment x ((i : Int) * (R : Int)) R).foldl op init)
      ∧ (∀ i, M ≤ i → out1 i = out i) := by
  have _ := hidl
  rw [branch_contiguous N op init x x_size M plan shape strides out htype
      (by rw [hshape]; rfl),
    reduction_op_contiguous_run op x N hN init hassoc hcomm hidr M R hM plan hshape out]
  refine ⟨_, rfl, ?_, ?_⟩
  · intro i hi
    simp only [if_pos hi]
  · intro i hi
    simp only [if_neg (Nat.not_lt.mpr hi)]

/-- The example of C4: the `[3,4]` input `[[1,5,2,9],[4,4,4,4],[0,0,0,-1]]`
reduced over axis 1 with `max` from the least element gives `[9,4,0]`. -/
theorem reduction_op_innermost_witness :
    (∃ out1, reduction_op 4 max_bot none
          (of_list none [some 1, some 5, some 2, some 9, some 4, some 4, some 4, some 4,
            some 0, some 0, some 0, some (-1)]) 12 3
          ⟨ReductionOpType.ContiguousReduce, [((4 : Nat) : Int)], [1]⟩ [3] [4] (fun _ => none)
          = some out1
        ∧ (∀ i, i < 3 → out1 i = (segment
            (of_list none [some 1, some 5, some 2, some 9, some 4, some 4, some 4, some 4,
              some 0, some 0, some 0, some (-1)]) ((i : Int) * ((4 : Nat) : Int)) 4).foldl
            max_bot none)
        ∧ (∀ i, 3 ≤ i → out1 i = none))
    ∧ (reduction_op 4 max_bot none
          (of_list none [some 1, some 5, some 2, some 9, some 4, some 4, some 4, some 4,
            some 0, some 0, some 0, some (-1)]) 12 3
          ⟨ReductionOpType.ContiguousReduce, [((4 : Nat) : Int)], [1]⟩ [3] [4]
          (fun _ => none)).map (slots 3) = some [some 9, some 4, some 0] :=
  ⟨reduction_op_innermost 4 (by decide) max_bot none max_bot_assoc max_bot_comm max_bot_none
      none_max_bot _ 12 3 4 (by decide)
      ⟨ReductionOpType.ContiguousReduce, [((4 : Nat) : Int)], [1]⟩
      rfl rfl [3] [4] (fun _ => none), by decide⟩

/-- C5, as stated, fails: under a `ContiguousStridedReduce` plan with shape
`[3]` and strides `[2^32]` (one block of 3 groups of `2^32` elements, shape
`[3, 65536, 65536]` reduced over axis 0), the `int` counter of line 176 is back
at 0 after `i += reduction_stride`, so the loop over `out.size() = 2^32` never
ends and the run has no defined result. -/
theorem reduction_op_outer_counterexample :
    reduction_op 4 (fun a b : Int => a + b) 0 (fun i => i) (3 * 2 ^ 32) (1 * 2 ^ 32)
      ⟨ReductionOpType.ContiguousStridedReduce, [((3 : Nat) : Int)],
        [((2 ^ 32 : Nat) : Int)]⟩ [65536, 65536] [65536, 1] (fun _ => 0) = none := by
  rw [branch_strided _ _ _ _ _ _
      ⟨ReductionOpType.ContiguousStridedReduce, [((3 : Nat) : Int)], [((2 ^ 32 : Nat) : Int)]⟩
      _ _ _ rfl rfl,
    reduction_op_strided]
  simp only [List.getLast?_singleton]
  rw [strided_group_loop, stepped_loop_stuck _ _ _ (by decide) (by decide)]
  rfl

/-- C5, amended: under a `ContiguousStridedReduce` plan with shape `[R]` and
strides `[S]`, `S ≥ 1`, for every input laid out as `G` blocks of `R` groups of
`S` elements with output size `G*S < 2^31` and every `op`, `reduction_op`
returns with `out[g*S + j]` the left fold from `init`, over `i = 0, ..., R-1`
in order, of `x[g*R*S + i*S + j]`, for every `g < G` and `j < S`, and leaves
the slots from `G*S` on untouched. -/
theorem reduction_op_outer {α : Type} (N : Nat) (hN : 1 ≤ N) (op : α → α → α) (init : α)
    (x : Int → α) (x_size G R S : Nat) (hS : 1 ≤ S) (hM : G * S < 2 ^ 31)
    (plan : ReductionPlan) (htype : plan.type = ReductionOpType.ContiguousStridedReduce)
    (hshape : plan.shape = [(R : Int)]) (hstrides : plan.strides = [(S : Int)])
    (shape strides : List Int) (out : Nat → α) :
    ∃ out1, reduction_op N op init x x_size (G * S) plan shape strides out = some out1
      ∧ (∀ g j, g < G → j < S → out1 (g * S + j)
          = ((List.range R).map
              (fun (i : Nat) => x ((g : Int) * R * S + (i : Int) * S + j))).foldl op init)
      ∧ (∀ t, G * S ≤ t → out1 t = out t) := by
  rw [branch_strided N op init x x_size (G * S) plan shape strides out htype
    (by rw [hshape]; rfl)]
  rcases Nat.eq_zero_or_pos G with hG | hG
  · subst hG
    refine ⟨out, ?_, fun g j hg => absurd hg (Nat.not_lt_zero g), fun t _ => rfl⟩
    rw [reduction_op_strided, hshape, hstrides]
    simp only [List.getLast?_singleton, Nat.zero_mul, strided_group_loop]
    rfl
  · have hGS : S ≤ G * S := Nat.le_mul_of_pos_left S hG
    have hS64 : to_size_t (S : Int) = S := to_size_t_small S (by omega)
    have hrun := reduction_op_strided_run op x N hN init (G * S) hM plan (R : Int) (S : Int)
      (by rw [hshape]; rfl) (by rw [hstrides]; rfl) (by rw [hS64]; exact hS)
      (fun _ => by rw [hS64]; omega) out G (by rw [hS64])
      (fun g1 h => by
        rw [hS64]
        have := (block_slot G S g1 0 h (by omega)).1
        omega)
    rw [hS64] at hrun
    refine ⟨_, hrun, ?_, ?_⟩
    · intro g j hg hj
      obtain ⟨hlt, hd, hm⟩ := block_slot G S g j hg hj
      simp only [if_pos hlt, hd, hm, column, Int.toNat_ofNat]
      congr 1
      apply List.map_congr_left
      intro i _
      congr 1
      ring
    · intro t ht
      simp only [if_neg (Nat.not_lt.mpr ht)]

/-- The example of C5: the `[3,4]` input `[[1,5,2,9],[4,4,4,4],[0,0,0,-1]]`
reduced over axis 0 with integer addition from 0 gives `[5,9,6,12]`. -/
theorem reduction_op_outer_witness :
    (∃ out1, reduction_op 2 (fun a b : Int => a + b) 0
          (of_list 0 [1, 5, 2, 9, 4, 4, 4, 4, 0, 0, 0, -1]) 12 (1 * 4)
          ⟨ReductionOpType.ContiguousStridedReduce, [((3 : Nat) : Int)], [((4 : Nat) : Int)]⟩
          [4] [1] (fun _ => 7) = some out1
        ∧ (∀ g j, g < 1 → j < 4 → out1 (g * 4 + j)
            = ((List.range 3).map (fun (i : Nat) =>
                of_list 0 [1, 5, 2, 9, 4, 4, 4, 4, 0, 0, 0, -1]
                  ((g : Int) * ((3 : Nat) : Int) * ((4 : Nat) : Int)
                    + (i : Int) * ((4 : Nat) : Int) + j))).foldl (fun a b : Int => a + b) 0)
        ∧ (∀ t, 1 * 4 ≤ t → out1 t = 7))
    ∧ (reduction_op 2 (fun a b : Int => a + b) 0
          (of_list 0 [1, 5, 2, 9, 4, 4, 4, 4, 0, 0, 0, -1]) 12 (1 * 4)
          ⟨ReductionOpType.ContiguousStridedReduce, [((3 : Nat) : Int)], [((4 : Nat) : Int)]⟩
          [4] [1] (fun _ => 7)).map (slots 4) = some [5, 9, 6, 12] :=
  ⟨reduction_op_outer 2 (by decide) (fun a b : Int => a + b) 0 _ 12 1 3 4 (by decide)
      (by decide)
      ⟨ReductionOpType.ContiguousStridedReduce, [((3 : Nat) : Int)], [((4 : Nat) : Int)]⟩
      rfl rfl rfl [4] [1] (fun _ => 7), by decide⟩

/-! ## Agreement of the paths -/

/-- C6: for every `m, r ≥ 1`, every buffer `d` and every associative,
commutative `op` with identity `init`, reducing the transposed view (plan
`GeneralStridedReduce`, shape `[r]`, strides `[m]`, non-reduced shape `[m]`,
strides `[1]`) through `reduction_op` gives the same output buffer as reducing
the row-contiguous copy `c`, `c[i*r + j] = d[i + j*m]`, under a
`ContiguousReduce` plan of shape `[r]`; slot `i < m` holds the combination of
`d[i], d[i + m], ..., d[i + (r-1)*m]`.  (`m` is an extent of the `int` shape of
the view: it is below `2^31`.) -/
theorem transposed_view_eq_copy {α : Type} (N : Nat) (hN : 1 ≤ N) (op : α → α → α) (init : α)
    (hassoc : ∀ a b c, op (op a b) c = op a (op b c)) (hcomm : ∀ a b, op a b = op b a)
    (hidr : ∀ a, op a init = a) (hidl : ∀ a, op init a = a)
    (d c : Int → α) (m r : Nat) (hm : 1 ≤ m) (hr : 1 ≤ r) (hm31 : m < 2 ^ 31)
    (hcopy : ∀ i j : Nat, i < m → j < r → c ((i : Int) * r + j) = d ((i : Int) + (j : Int) * m))
    (x_size : Nat) (planS planC : ReductionPlan)
    (htypeS : planS.type = ReductionOpType.GeneralStridedReduce)
    (hshapeS : planS.shape = [(r : Int)]) (hstridesS : planS.strides = [(m : Int)])
    (htypeC : planC.type = ReductionOpType.ContiguousReduce)
    (hshapeC : planC.shape = [(r : Int)])
    (shapeC stridesC : List Int) (out : Nat → α) :
    ∃ out1, reduction_op N op init d x_size m planS [(m : Int)] [1] out = some out1
      ∧ reduction_op N op init c x_size m planC shapeC stridesC out = some out1
      ∧ ∀ i, i < m → out1 i
          = ((List.range r).map (fun (j : Nat) => d ((i : Int) + (j : Int) * m))).foldl op
              init := by
  have _ := hidl
  have _ := hr
  have hm64 : to_size_t (m : Int) = m := to_size_t_small m (by omega)
  have hS : reduction_op N op init d x_size m planS [(m : Int)] [1] out
      = some (fun t => if t < m
          then ((List.range r).map (fun (j : Nat) => d ((t : Int) + (j : Int) * m))).foldl op
            init
          else out t) := by
    have hrun := reduction_op_general_strided_run op d N hN init m hm31 planS (r : Int)
      (m : Int) (by rw [hshapeS]; rfl) (by rw [hstridesS]; rfl) (by rw [hm64]; exact hm)
      (fun _ => by rw [hm64]; exact hm31) [(m : Int)] [1] out 1 (by rw [hm64]; omega)
      (fun g1 h => by
        have : g1 = 0 := by omega
        subst this
        omega)
    rw [branch_general_strided N op init d x_size m planS _ _ out (Or.inr htypeS), hrun,
      hm64, hshapeS, hstridesS]
    congr 1
    funext t
    by_cases ht : t < m
    · rw [if_pos (by omega), if_pos ht, Nat.div_eq_of_lt ht, Nat.mod_eq_of_lt ht]
      have h0 := elem_to_loc_single 0 m 1 (by omega)
      simp only [Nat.cast_zero, zero_mul] at h0
      simp only [Nat.zero_mul, Nat.cast_zero, h0, List.dropLast_single, nd_offsets_nil,
        List.flatMap_cons, List.flatMap_nil, List.append_nil, to_int32_zero, add_zero,
        column, zero_add, Int.toNat_ofNat]
    · rw [if_neg (by omega), if_neg ht]
  have hC : reduction_op N op init c x_size m planC shapeC stridesC out
      = some (fun t => if t < m
          then ((List.range r).map (fun (j : Nat) => d ((t : Int) + (j : Int) * m))).foldl op
            init
          else out t) := by
    rw [branch_contiguous N op init c x_size m planC shapeC stridesC out htypeC
        (by rw [hshapeC]; rfl),
      reduction_op_contiguous_run op c N hN init hassoc hcomm hidr m r hm31 planC hshapeC]
    congr 1
    funext t
    by_cases ht : t < m
    · rw [if_pos ht, if_pos ht]
      congr 1
      apply List.map_congr_left
      intro j hj
      exact hcopy t j ht (List.mem_range.mp hj)
    · rw [if_neg ht, if_neg ht]
  refine ⟨_, hS, hC, ?_⟩
  intro i hi
  simp only [if_pos hi]

/-- The example of C6: a `[4,4]` buffer `0..15` viewed transposed, against its
row-contiguous copy, with integer addition from 0. -/
theorem transposed_view_eq_copy_witness :
    (∃ out1, reduction_op 2 (fun a b : Int => a + b) 0 (fun i => i) 16 4
        ⟨ReductionOpType.GeneralStridedReduce, [((4 : Nat) : Int)], [((4 : Nat) : Int)]⟩
        [((4 : Nat) : Int)] [1] (fun _ => 7) = some out1
      ∧ reduction_op 2 (fun a b : Int => a + b) 0
        (fun k => k / 4 + (k % 4) * 4) 16 4
        ⟨ReductionOpType.ContiguousReduce, [((4 : Nat) : Int)], [1]⟩ [4] [4] (fun _ => 7)
        = some out1
      ∧ ∀ i, i < 4 → out1 i
          = ((List.range 4).map (fun (j : Nat) =>
              (fun k : Int => k) ((i : Int) + (j : Int) * (4 : Nat)))).foldl
              (fun a b : Int => a + b) 0)
    ∧ (reduction_op 2 (fun a b : Int => a + b) 0 (fun i => i) 16 4
        ⟨ReductionOpType.GeneralStridedReduce, [((4 : Nat) : Int)], [((4 : Nat) : Int)]⟩
        [((4 : Nat) : Int)] [1] (fun _ => 7)).map (slots 5) = some [24, 28, 32, 36, 7] :=
  ⟨transposed_view_eq_copy 2 (by decide) (fun a b : Int => a + b) 0
    (fun a b c => Int.add_assoc a b c) (fun a b => Int.add_comm a b)
    (fun a => Int.add_zero a) (fun a => Int.zero_add a)
    (fun i => i) (fun k => k / 4 + (k % 4) * 4) 4 4 (by decide) (by decide) (by decide)
    (fun i j hi hj => by
      show ((i : Int) * ((4 : Nat) : Int) + j) / 4 + ((i : Int) * ((4 : Nat) : Int) + j) % 4 * 4
        = (i : Int) + (j : Int) * ((4 : Nat) : Int)
      push_cast
      omega)
    16 ⟨ReductionOpType.GeneralStridedReduce, [((4 : Nat) : Int)], [((4 : Nat) : Int)]⟩
    ⟨ReductionOpType.ContiguousReduce, [((4 : Nat) : Int)], [1]⟩ rfl rfl rfl rfl rfl
    [4] [4] (fun _ => 7), by decide⟩

/-- C7, as stated, fails: for `2^30 + 1` rows of 2 elements, the input holding 1
from offset `2^31` on and 0 before, and integer addition from 0, the
`ContiguousReduce` path gives `out[2^30] = x[2^31] + x[2^31 + 1] = 2`, while the
`GeneralReduce` path stores the row offset `2^31` in `int offset`, reads
`x[-2^31]` and `x[-2^31 + 1]` and gives `out[2^30] = 0`. -/
theorem plan_type_independent_counterexample :
    ∃ outC outG,
      reduction_op 4 (fun a b : Int => a + b) 0 (fun k => if 2 ^ 31 ≤ k then 1 else 0)
          (2 ^ 31 + 2) (2 ^ 30 + 1)
          ⟨ReductionOpType.ContiguousReduce, [((2 : Nat) : Int)], [1]⟩
          [((2 ^ 30 + 1 : Nat) : Int)] [((2 : Nat) : Int)] (fun _ => 7) = some outC
      ∧ reduction_op 4 (fun a b : Int => a + b) 0 (fun k => if 2 ^ 31 ≤ k then 1 else 0)
          (2 ^ 31 + 2) (2 ^ 30 + 1)
          ⟨ReductionOpType.GeneralReduce, [((2 : Nat) : Int)], [1]⟩
          [((2 ^ 30 + 1 : Nat) : Int)] [((2 : Nat) : Int)] (fun _ => 7) = some outG
      ∧ outC (2 ^ 30) = 2 ∧ outG (2 ^ 30) = 0 := by
  refine ⟨_, _,
    (branch_contiguous 4 _ 0 _ _ _
      ⟨ReductionOpType.ContiguousReduce, [((2 : Nat) : Int)], [1]⟩ _ _ _ rfl rfl).trans
      (reduction_op_contiguous_run _ _ 4 (by decide) 0 (fun a b c => Int.add_assoc a b c)
        (fun a b => Int.add_comm a b) (fun a => Int.add_zero a) (2 ^ 30 + 1) 2 (by decide)
        _ rfl _),
    (branch_general 4 _ 0 _ _ _
      ⟨ReductionOpType.GeneralReduce, [((2 : Nat) : Int)], [1]⟩ _ _ _ rfl).trans
      (reduction_op_general_run _ _ 0 (2 ^ 30 + 1) (by decide) _ _ _ _), ?_, ?_⟩
  · decide
  · decide

/-- C7, amended: for every input of `M < 2^31` rows of `R < 2^31` elements
reduced over its last axis whose row offsets `i*R`, `i < M`, are all below
`2^31`, and every associative, commutative `op` with identity `init`, the
`ContiguousReduce` path of `reduction_op` (plan shape `[R]`) and the
`GeneralReduce` path on the same data (plan shape `[R]`, strides `[1]`,
non-reduced shape `[M]`, strides `[R]`) return the same output buffer. -/
theorem plan_type_independent {α : Type} (N : Nat) (hN : 1 ≤ N) (op : α → α → α) (init : α)
    (hassoc : ∀ a b c, op (op a b) c = op a (op b c)) (hcomm : ∀ a b, op a b = op b a)
    (hidr : ∀ a, op a init = a) (hidl : ∀ a, op init a = a)
    (x : Int → α) (x_size M R : Nat) (hM : M < 2 ^ 31) (hR : R < 2 ^ 31)
    (hoff : ∀ i, i < M → i * R < 2 ^ 31) (planC planG : ReductionPlan)
    (htypeC : planC.type = ReductionOpType.ContiguousReduce)
    (hshapeC : planC.shape = [(R : Int)])
    (htypeG : planG.type = ReductionOpType.GeneralReduce)
    (hshapeG : planG.shape = [(R : Int)]) (hstridesG : planG.strides = [1])
    (shapeC stridesC : List Int) (out : Nat → α) :
    ∃ out1, reduction_op N op init x x_size M planC shapeC stridesC out = some out1
      ∧ reduction_op N op init x x_size M planG [(M : Int)] [(R : Int)] out = some out1 := by
  have _ := hidl
  refine ⟨fun t => if t < M then (segment x ((t : Int) * (R : Int)) R).foldl op init
    else out t, ?_, ?_⟩
  · rw [branch_contiguous N op init x x_size M planC shapeC stridesC out htypeC
        (by rw [hshapeC]; rfl),
      reduction_op_contiguous_run op x N hN init hassoc hcomm hidr M R hM planC hshapeC]
  · rw [branch_general N op init x x_size M planG _ _ out htypeG,
      reduction_op_general_run op x init M hM planG _ _ out, hshapeG, hstridesG,
      nd_offsets_single]
    congr 1
    funext t
    by_cases ht : t < M
    · rw [if_pos ht, if_pos ht, elem_to_loc_single t M _ ht, List.map_map]
      have h1 : to_int32 ((t : Int) * (R : Int)) = (t : Int) * (R : Int) := by
        have h := to_int32_nat (t * R) (hoff t ht)
        push_cast at h
        exact h
      rw [h1]
      simp only [segment]
      refine congrArg (fun l => List.foldl op init l) ?_
      apply List.map_congr_left
      intro j hj
      have hj2 := List.mem_range.mp hj
      simp only [Function.comp, mul_one]
      rw [to_int32_nat j (by omega)]
    · rw [if_neg ht, if_neg ht]

/-- A run of C7: three rows of four elements of `0..11`, integer addition. -/
theorem plan_type_independent_witness :
    (∃ out1, reduction_op 2 (fun a b : Int => a + b) 0 (fun i => i) 12 3
        ⟨ReductionOpType.ContiguousReduce, [((4 : Nat) : Int)], [1]⟩ [3] [4] (fun _ => 7)
        = some out1
      ∧ reduction_op 2 (fun a b : Int => a + b) 0 (fun i => i) 12 3
        ⟨ReductionOpType.GeneralReduce, [((4 : Nat) : Int)], [1]⟩
        [((3 : Nat) : Int)] [((4 : Nat) : Int)] (fun _ => 7) = some out1)
    ∧ (reduction_op 2 (fun a b : Int => a + b) 0 (fun i => i) 12 3
        ⟨ReductionOpType.GeneralReduce, [((4 : Nat) : Int)], [1]⟩
        [((3 : Nat) : Int)] [((4 : Nat) : Int)] (fun _ => 7)).map (slots 4)
      = some [6, 22, 38, 7] :=
  ⟨plan_type_independent 2 (by decide) (fun a b : Int => a + b) 0
    (fun a b c => Int.add_assoc a b c) (fun a b => Int.add_comm a b)
    (fun a => Int.add_zero a) (fun a => Int.zero_add a) (fun i => i) 12 3 4 (by decide)
    (by decide) (fun i hi => by omega)
    ⟨ReductionOpType.ContiguousReduce, [((4 : Nat) : Int)], [1]⟩
    ⟨ReductionOpType.GeneralReduce, [((4 : Nat) : Int)], [1]⟩ rfl rfl rfl rfl rfl
    [3] [4] (fun _ => 7), by decide⟩

/-! ## Row-major coordinates -/

theorem mem_nd_coords (shape : List Int) :
    ∀ c, c ∈ nd_coords shape
      ↔ List.Forall₂ (fun (k : Nat) (n : Int) => (k : Int) < n) c shape := by
  induction shape with
  | nil =>
    intro c
    simp [nd_coords]
  | cons n shape ih =>
    intro c
    simp only [nd_coords, List.mem_flatMap, List.mem_range, List.mem_map,
      List.forall₂_cons_right_iff]
    constructor
    · rintro ⟨i, hi, c1, hc1, rfl⟩
      exact ⟨i, c1, by omega, (ih c1).mp hc1, rfl⟩
    · rintro ⟨i, c1, hi, hc1, rfl⟩
      exact ⟨i, by omega, c1, (ih c1).mpr hc1, rfl⟩

theorem nd_coords_row_major (shape : List Int) :
    (nd_coords shape).Pairwise (List.Lex (fun a b : Nat => a < b)) := by
  induction shape with
  | nil => simp [nd_coords]
  | cons n shape ih =>
    rw [nd_coords, List.pairwise_flatMap]
    constructor
    · intro i _
      rw [List.pairwise_map]
      exact ih.imp (fun h => List.Lex.cons h)
    · refine (List.pairwise_lt_range n.toNat).imp ?_
      intro i j hij a ha b hb
      obtain ⟨a1, _, rfl⟩ := List.mem_map.mp ha
      obtain ⟨b1, _, rfl⟩ := List.mem_map.mp hb
      exact List.Lex.rel hij

/-- C10, as stated, fails, because the offsets pass through `int`.  A view of
two elements `2^32` apart, reduced over its only axis (plan shape `[2]`,
strides `[2^32]`) with integer addition from 0, the input holding 1 at offset 0
and 2 elsewhere: the `int extra_offset` of the callback turns the offset `2^32`
into 0, so `out[0] = x[0] + x[0] = 2`, not `x[0] + x[2^32] = 3`.  With no
reduced axis and the non-reduced shape `[2]`, strides `[2^32]`, the
`int offset` of line 228 does the same and the output is `[1, 1]`, not
`[1, 2]`. -/
theorem reduction_op_general_walk_counterexample :
    (reduction_op 2 (fun a b : Int => a + b) 0 (fun k => if k = 0 then 1 else 2) 2 1
        ⟨ReductionOpType.GeneralReduce, [2], [2 ^ 32]⟩ [] [] (fun _ => 7)).map (slots 2)
      = some [2, 7]
    ∧ (List.range 1).map (fun (i : Nat) => ((nd_coords [2]).map
          (fun c => (fun k : Int => if k = 0 then (1 : Int) else 2)
            (elem_to_loc (i : Int) [] [] + coord_offset c [2 ^ 32]))).foldl
          (fun a b : Int => a + b) 0) = [3]
    ∧ (reduction_op 2 (fun a b : Int => a + b) 0 (fun k => if k = 0 then 1 else 2) 2 2
        ⟨ReductionOpType.GeneralReduce, [], []⟩ [2] [2 ^ 32] (fun _ => 7)).map (slots 3)
      = some [1, 1, 7]
    ∧ (List.range 2).map (fun (i : Nat) => ((nd_coords []).map
          (fun c => (fun k : Int => if k = 0 then (1 : Int) else 2)
            (elem_to_loc (i : Int) [2] [2 ^ 32] + coord_offset c []))).foldl
          (fun a b : Int => a + b) 0) = [1, 2] := by
  decide

/-- C10, amended: under a `GeneralReduce` plan, for every `op`, `init` and plan
and every output of fewer than `2^31` elements, `reduction_op` returns with
`out[i]`, for every `i < out.size()`, the left fold from `init` of `op` over
`x[o + e]`, where `o` is `elem_to_loc(i, S, T)` narrowed to `int` and `e` runs
over the offsets `Σ coordinate[d] * strides[d]` of the coordinate combinations
of the plan's shape, each narrowed to `int`; when `elem_to_loc(i, S, T)` and
these offsets all lie in the range of `int`, `out[i]` is the fold over
`x[elem_to_loc(i, S, T) + e]`.  The combinations are exactly the tuples below
the shape, listed in strictly increasing lexicographic (row-major) order, so
each occurs once.  Slots from `out.size()` on are untouched. -/
theorem reduction_op_general_walk {α : Type} (N : Nat) (op : α → α → α) (init : α)
    (x : Int → α) (x_size M : Nat) (hM : M < 2 ^ 31) (plan : ReductionPlan)
    (htype : plan.type = ReductionOpType.GeneralReduce) (shape strides : List Int)
    (out : Nat → α) :
    ∃ out1, reduction_op N op init x x_size M plan shape strides out = some out1
      ∧ (∀ i, i < M → out1 i
          = ((nd_coords plan.shape).map
              (fun c => x (to_int32 (elem_to_loc (i : Int) shape strides)
                + to_int32 (coord_offset c plan.strides)))).foldl op init)
      ∧ ((∀ i, i < M → fits_int (elem_to_loc (i : Int) shape strides)) →
          (∀ c, c ∈ nd_coords plan.shape → fits_int (coord_offset c plan.strides)) →
          ∀ i, i < M → out1 i
            = ((nd_coords plan.shape).map
                (fun c => x (elem_to_loc (i : Int) shape strides
                  + coord_offset c plan.strides))).foldl op init)
      ∧ (∀ i, M ≤ i → out1 i = out i)
      ∧ (∀ c, c ∈ nd_coords plan.shape
          ↔ List.Forall₂ (fun (k : Nat) (n : Int) => (k : Int) < n) c plan.shape)
      ∧ (nd_coords plan.shape).Pairwise (List.Lex (fun a b : Nat => a < b)) := by
  have hrun := (branch_general N op init x x_size M plan shape strides out htype).trans
    (reduction_op_general_run op x init M hM plan shape strides out)
  have hval : ∀ i, i < M →
      (if i < M
          then ((nd_offsets plan.shape plan.strides).map
            (fun e => x (to_int32 (elem_to_loc (i : Int) shape strides) + to_int32 e))).foldl
            op init
          else out i)
        = ((nd_coords plan.shape).map
            (fun c => x (to_int32 (elem_to_loc (i : Int) shape strides)
              + to_int32 (coord_offset c plan.strides)))).foldl op init := by
    intro i hi
    simp only [if_pos hi, nd_offsets, List.map_map]
    rfl
  refine ⟨_, hrun, hval, ?_, ?_, mem_nd_coords plan.shape, nd_coords_row_major plan.shape⟩
  · intro hloc hext i hi
    rw [hval i hi, to_int32_fits _ (hloc i hi)]
    refine congrArg (fun l => List.foldl op init l) ?_
    apply List.map_congr_left
    intro c hc
    rw [to_int32_fits _ (hext c hc)]
  · intro i hi
    simp only [if_neg (Nat.not_lt.mpr hi)]

/-- A run of C10 with the operator `a, b ↦ 10*a + b`, which is neither
associative nor commutative: a `[2,3]` buffer `1..6` read through the plan
shape `[3,2]`, strides `[1,3]` gives the digits in walk order. -/
theorem reduction_op_general_walk_witness :
    (∃ out1, reduction_op 4 (fun a b : Int => 10 * a + b) 0
        (of_list 0 [1, 2, 3, 4, 5, 6]) 6 1
        ⟨ReductionOpType.GeneralReduce, [3, 2], [1, 3]⟩ [] [] (fun _ => 7) = some out1
      ∧ (∀ i, i < 1 → out1 i
          = ((nd_coords [3, 2]).map
              (fun c => of_list 0 [1, 2, 3, 4, 5, 6] (to_int32 (elem_to_loc (i : Int) [] [])
                + to_int32 (coord_offset c [1, 3])))).foldl (fun a b : Int => 10 * a + b) 0)
      ∧ ((∀ i : Nat, i < 1 → fits_int (elem_to_loc (i : Int) [] [])) →
          (∀ c, c ∈ nd_coords [3, 2] → fits_int (coord_offset c [1, 3])) →
          ∀ i, i < 1 → out1 i
            = ((nd_coords [3, 2]).map
                (fun c => of_list 0 [1, 2, 3, 4, 5, 6] (elem_to_loc (i : Int) [] []
                  + coord_offset c [1, 3]))).foldl (fun a b : Int => 10 * a + b) 0)
      ∧ (∀ i, 1 ≤ i → out1 i = 7)
      ∧ (∀ c, c ∈ nd_coords [3, 2]
          ↔ List.Forall₂ (fun (k : Nat) (n : Int) => (k : Int) < n) c [3, 2])
      ∧ (nd_coords [3, 2]).Pairwise (List.Lex (fun a b : Nat => a < b)))
    ∧ (reduction_op 4 (fun a b : Int => 10 * a + b) 0
        (of_list 0 [1, 2, 3, 4, 5, 6]) 6 1
        ⟨ReductionOpType.GeneralReduce, [3, 2], [1, 3]⟩ [] [] (fun _ => 7)).map (slots 2)
      = some [142536, 7] :=
  ⟨reduction_op_general_walk 4 (fun a b : Int => 10 * a + b) 0
      (of_list 0 [1, 2, 3, 4, 5, 6]) 6 1 (by decide)
      ⟨ReductionOpType.GeneralReduce, [3, 2], [1, 3]⟩ rfl [] [] (fun _ => 7), by decide⟩

/-- C9, as stated, fails: with no reduced axis (empty plan shape and strides)
under the `GeneralReduce` branch, `op = +` and `init = 1`, the `[2,2]` input
`[10,20,30,40]` comes out as `[11,21,31,41]`, not as the input. -/
theorem reduction_op_empty_axes_counterexample :
    (reduction_op 4 (fun a b : Int => a + b) 1 (of_list 0 [10, 20, 30, 40]) 4 4
        ⟨ReductionOpType.GeneralReduce, [], []⟩ [2, 2] [2, 1] (fun _ => 0)).map (slots 4)
      = some [11, 21, 31, 41]
    ∧ (reduction_op 4 (fun a b : Int => a + b) 1 (of_list 0 [10, 20, 30, 40]) 4 4
        ⟨ReductionOpType.GeneralReduce, [], []⟩ [2, 2] [2, 1] (fun _ => 0)).map (slots 4)
      ≠ some ((List.range 4).map (fun (i : Nat) =>
          of_list (0 : Int) [10, 20, 30, 40] (elem_to_loc (i : Int) [2, 2] [2, 1]))) := by
  decide

/-- C9, amended: with no reduced axis (empty plan shape) under the
`GeneralReduce` branch, for every input, `op` and `init` and every output of
fewer than `2^31` elements, `reduction_op` returns with
`out[i] = op(init, x[o])` for every `i < out.size()`, where `o` is
`elem_to_loc(i, shape, strides)` narrowed to `int`; for every `i` whose
`elem_to_loc(i, shape, strides)` lies in the range of `int` this is
`op(init, x[elem_to_loc(i, shape, strides)])`, and it is
`x[elem_to_loc(i, shape, strides)]` itself whenever `init` is a left identity
of `op`. -/
theorem reduction_op_empty_axes {α : Type} (N : Nat) (op : α → α → α) (init : α)
    (x : Int → α) (x_size M : Nat) (hM : M < 2 ^ 31) (plan : ReductionPlan)
    (htype : plan.type = ReductionOpType.GeneralReduce) (hshape : plan.shape = [])
    (shape strides : List Int) (out : Nat → α) :
    ∃ out1, reduction_op N op init x x_size M plan shape strides out = some out1
      ∧ (∀ i, i < M → out1 i = op init (x (to_int32 (elem_to_loc (i : Int) shape strides))))
      ∧ (∀ i, i < M → fits_int (elem_to_loc (i : Int) shape strides) →
          out1 i = op init (x (elem_to_loc (i : Int) shape strides)))
      ∧ ((∀ a, op init a = a) →
          ∀ i, i < M → fits_int (elem_to_loc (i : Int) shape strides) →
            out1 i = x (elem_to_loc (i : Int) shape strides)) := by
  have hrun : reduction_op N op init x x_size M plan shape strides out
      = some (fun t => if t < M
          then op init (x (to_int32 (elem_to_loc (t : Int) shape strides)))
          else out t) := by
    rw [branch_general N op init x x_size M plan shape strides out htype,
      reduction_op_general_run op x init M hM plan shape strides out, hshape, nd_offsets_nil]
    simp only [List.map_cons, List.map_nil, List.foldl_cons, List.foldl_nil, to_int32_zero,
      add_zero]
  refine ⟨_, hrun, ?_, ?_, ?_⟩
  · intro i hi
    simp only [if_pos hi]
  · intro i hi hfit
    simp only [if_pos hi, to_int32_fits _ hfit]
  · intro hid i hi hfit
    simp only [if_pos hi, hid, to_int32_fits _ hfit]

/-- A run of amended C9: the `[2,2]` input `[10,20,30,40]`, `op = +`, `init = 1`;
with the identity `init = 0` a transposed view comes out in its logical order. -/
theorem reduction_op_empty_axes_witness :
    (∃ out1, reduction_op 4 (fun a b : Int => a + b) 1 (of_list 0 [10, 20, 30, 40]) 4 4
        ⟨ReductionOpType.GeneralReduce, [], []⟩ [2, 2] [2, 1] (fun _ => 0) = some out1
      ∧ (∀ i, i < 4 → out1 i
          = (fun a b : Int => a + b) 1
              (of_list 0 [10, 20, 30, 40] (to_int32 (elem_to_loc (i : Int) [2, 2] [2, 1]))))
      ∧ (∀ i : Nat, i < 4 → fits_int (elem_to_loc (i : Int) [2, 2] [2, 1]) →
          out1 i = (fun a b : Int => a + b) 1
              (of_list 0 [10, 20, 30, 40] (elem_to_loc (i : Int) [2, 2] [2, 1])))
      ∧ ((∀ a, (fun a b : Int => a + b) 1 a = a) →
          ∀ i : Nat, i < 4 → fits_int (elem_to_loc (i : Int) [2, 2] [2, 1]) →
            out1 i = of_list 0 [10, 20, 30, 40] (elem_to_loc (i : Int) [2, 2] [2, 1])))
    ∧ (reduction_op 4 (fun a b : Int => a + b) 0 (of_list 0 [10, 20, 30, 40]) 4 4
        ⟨ReductionOpType.GeneralReduce, [], []⟩ [2, 2] [1, 2] (fun _ => 0)).map (slots 4)
      = some [10, 30, 20, 40] :=
  ⟨reduction_op_empty_axes 4 (fun a b : Int => a + b) 1 (of_list 0 [10, 20, 30, 40]) 4 4
    (by decide) ⟨ReductionOpType.GeneralReduce, [], []⟩ rfl rfl [2, 2] [2, 1] (fun _ => 0),
    by decide⟩

/-! ## Reduction over an extent of zero -/

section zero_extent

variable {α : Type} (op : α → α → α) (x : Int → α)

theorem nd_coords_zero (shape : List Int) (h : (0 : Int) ∈ shape) : nd_coords shape = [] := by
  induction shape with
  | nil => simp at h
  | cons n shape ih =>
    rcases List.mem_cons.mp h with h0 | h1
    · subst h0
      simp [nd_coords]
    · simp [nd_coords, ih h1]

theorem for_loop_skip {σ : Type} (body : Nat → σ → Option σ)
    (hbody : ∀ i s, body i s = some s) : ∀ (n i : Nat) (s : σ), for_loop body n i s = some s := by
  intro n
  induction n with
  | zero => intro i s; rfl
  | succ n ih => intro i s; rw [for_loop, hbody]; exact ih _ _

theorem nd_loop_inner_zero {σ : Type} (callback : Int → σ → Option σ) :
    ∀ (shape strides : List Int) (offset : Int) (s : σ), (0 : Int) ∈ shape →
      nd_loop_inner callback shape strides offset s = some s := by
  intro shape
  induction shape with
  | nil => intro _ _ _ h; simp at h
  | cons n shape ih =>
    intro strides offset s h
    rw [nd_loop_inner]
    rcases List.mem_cons.mp h with h0 | h1
    · subst h0
      rfl
    · exact for_loop_skip _ (fun i st => ih _ _ _ h1) _ _ _

theorem nd_loop_fixed {σ : Type} (callback : Int → σ → Option σ) (shape strides : List Int)
    (s : σ) (hfix : ∀ e, callback e s = some s) :
    nd_loop callback shape strides s = some s := by
  have key : ∀ (shape strides : List Int) (offset : Int),
      nd_loop_inner callback shape strides offset s = some s := by
    intro shape
    induction shape with
    | nil => intro _ offset; exact hfix (to_int32 offset)
    | cons n shape ih =>
      intro strides offset
      rw [nd_loop_inner]
      generalize n.toNat = k
      generalize (0 : Nat) = i
      induction k generalizing i with
      | zero => rfl
      | succ k ihk => rw [for_loop, ih]; exact ihk _
  exact key shape strides 0

theorem reduce_into_zero (N : Nat) (hN : 1 ≤ N) (init : α) (hidem : op init init = init)
    (xp : Int) (size : Int) (hsize : size ≤ 0) (p : Nat) (o : Nat → α) :
    reduce_into N op init x xp size p (Function.update o p init)
      = some (Function.update o p init) := by
  rw [reduce_into, contiguous_reduce_nonpos op x N hN init _ xp size hsize,
    hreduce_broadcast op init hidem N]
  simp [hidem]

theorem contiguous_cell_zero (N : Nat) (hN : 1 ≤ N) (init : α) (hidem : op init init = init)
    (xp : Int) (size : Int) (hsize : size ≤ 0) (p : Nat) (o : Nat → α) :
    (contiguous_reduce N op x xp (Function.update o p init p) size init).map
        (Function.update (Function.update o p init) p)
      = some (Function.update o p init) :=
  reduce_into_zero op x N hN init hidem xp size hsize p o

theorem column_zero (xp : Int) (S j : Nat) (size : Int) (hsize : size ≤ 0) :
    column x xp S j size.toNat = [] := by
  have h0 : size.toNat = 0 := by omega
  rw [h0]
  rfl

theorem foldl_flatMap_nil {β : Type} (init : α) (f : β → List α) (hf : ∀ e, f e = []) :
    ∀ l : List β, (l.flatMap f).foldl op init = init := by
  intro l
  induction l with
  | nil => rfl
  | cons e l ih => rw [List.flatMap_cons, hf e, List.nil_append, ih]

end zero_extent

section zero_extent_branches

variable {α : Type} (op : α → α → α) (x : Int → α)

theorem zero_all (N : Nat) (hN : 1 ≤ N) (init : α) (hidem : op init init = init)
    (out : Nat → α) :
    reduction_op_all N op init x 0 out = some (Function.update out 0 init) := by
  rw [reduction_op_all, to_int_small 0 (by decide)]
  exact reduce_into_zero op x N hN init hidem 0 _ (by simp) 0 out

theorem zero_contiguous (N : Nat) (hN : 1 ≤ N) (init : α) (hidem : op init init = init)
    (M : Nat) (hM : M < 2 ^ 31) (plan : ReductionPlan) (hshape : plan.shape = [0])
    (out : Nat → α) :
    reduction_op_contiguous N op init x M plan out
      = some (fun t => if t < M then init else out t) := by
  rw [reduction_op_contiguous, hshape]
  simp only [List.headD_cons]
  rw [out_loop_run _ M hM, for_loop_write_ptr _ 0 (fun _ => init)
    (fun i xp p o => by
      simp only [reduce_into_zero op x N hN init hidem _ 0 (le_refl _), add_zero])]
  simp only [Option.map_some', Nat.zero_le, Nat.zero_add, true_and]

theorem zero_general_contiguous (N : Nat) (hN : 1 ≤ N) (init : α)
    (hidem : op init init = init) (M : Nat) (hM : M < 2 ^ 31) (plan : ReductionPlan)
    (hzero : (0 : Int) ∈ plan.shape) (hlen : 0 < plan.strides.length)
    (shape strides : List Int) (out : Nat → α) :
    reduction_op_general_contiguous N op init x M plan shape strides out
      = some (fun t => if t < M then init else out t) := by
  obtain ⟨R, hR, _, hcases⟩ := last_of_mem plan.shape hzero
  obtain ⟨s, hs⟩ := last_of_length plan.strides hlen
  rw [reduction_op_general_contiguous, hR, hs]
  simp only
  by_cases hflat : plan.shape.dropLast.length = 0
  · have hR0 : R = 0 := by
      rcases hcases with h | h
      · rw [List.length_eq_zero.mp hflat] at h
        simp at h
      · exact h
    subst hR0
    rw [if_pos hflat, out_loop_run _ M hM, for_loop_write _ (fun _ => init)
      (fun i p o => by
        simp only [reduce_into_zero op x N hN init hidem _ 0 (le_refl _)])]
    simp only [Option.map_some', Nat.zero_le, Nat.zero_add, true_and]
  · rw [if_neg hflat, out_loop_run _ M hM, for_loop_write _ (fun _ => init)
      (fun i p o => by
        have hnd : nd_loop
            (fun extra_offset o1 =>
              (contiguous_reduce N op x
                (0 + to_int32 (elem_to_loc (i : Int) shape strides) + extra_offset)
                (o1 p) R init).map (Function.update o1 p))
            plan.shape.dropLast plan.strides.dropLast (Function.update o p init)
            = some (Function.update o p init) := by
          rcases hcases with h | h
          · exact nd_loop_inner_zero _ _ _ _ _ h
          · subst h
            exact nd_loop_fixed _ _ _ _
              (fun e => contiguous_cell_zero op x N hN init hidem _ 0 (le_refl _) p o)
        simp only [hnd])]
    simp only [Option.map_some', Nat.zero_le, Nat.zero_add, true_and]

theorem zero_strided (N : Nat) (hN : 1 ≤ N) (init : α) (M : Nat) (hM : M < 2 ^ 31)
    (plan : ReductionPlan) (hshape : plan.shape = [0]) (s : Int)
    (hstrides : plan.strides.getLast? = some s) (hS : 1 ≤ to_size_t s)
    (hS31 : 0 < M → to_size_t s < 2 ^ 31) (out : Nat → α) :
    ∃ out1, reduction_op_strided N op init x M plan out = some out1
      ∧ ∀ i, i < M → out1 i = init := by
  obtain ⟨g, hb, hlt⟩ := group_count M (to_size_t s) hS
  refine ⟨_, reduction_op_strided_run op x N hN init M hM plan 0 s (by rw [hshape]; rfl)
    hstrides hS hS31 out g hb hlt, ?_⟩
  intro i hi
  simp only [if_pos (show i < g * to_size_t s by omega), Int.toNat_zero, column,
    List.range_zero, List.map_nil, List.foldl_nil]

theorem zero_general_strided (N : Nat) (hN : 1 ≤ N) (init : α) (M : Nat) (hM : M < 2 ^ 31)
    (plan : ReductionPlan) (hzero : (0 : Int) ∈ plan.shape) (s : Int)
    (hstrides : plan.strides.getLast? = some s) (hS : 1 ≤ to_size_t s)
    (hS31 : 0 < M → to_size_t s < 2 ^ 31) (shape strides : List Int) (out : Nat → α) :
    ∃ out1, reduction_op_general_strided N op init x M plan shape strides out = some out1
      ∧ ∀ i, i < M → out1 i = init := by
  obtain ⟨g, hb, hlt⟩ := group_count M (to_size_t s) hS
  obtain ⟨R, hR, _, hcases⟩ := last_of_mem plan.shape hzero
  refine ⟨_, reduction_op_general_strided_run op x N hN init M hM plan R s hR hstrides hS
    hS31 shape strides out g hb hlt, ?_⟩
  intro i hi
  simp only [if_pos (show i < g * to_size_t s by omega)]
  rcases hcases with h | h
  · rw [nd_offsets, nd_coords_zero _ h]
    rfl
  · subst h
    exact foldl_flatMap_nil op init _ (fun e => column_zero x _ _ _ 0 (le_refl _)) _

theorem zero_general (init : α) (M : Nat) (hM : M < 2 ^ 31) (plan : ReductionPlan)
    (hzero : (0 : Int) ∈ plan.shape) (shape strides : List Int) (out : Nat → α) :
    reduction_op_general op init x M plan shape strides out
      = some (fun t => if t < M then init else out t) := by
  rw [reduction_op_general_run op x init M hM, nd_offsets, nd_coords_zero plan.shape hzero]
  rfl

end zero_extent_branches

/-- C8, as stated, fails: under a `ContiguousReduce` plan of shape `[0]` with
width 4, `op = +` and `init = 1`, each of the two output slots holds
`1 + (1 + 1 + 1 + 1) = 5`, not `init`.  It also fails on the size of the
output: under a `ContiguousStridedReduce` plan of shape `[0]`, strides `[2^32]`
with `out.size() = 2^32` the `int` counter of line 176 never leaves 0, and
under a `GeneralReduce` plan of shape `[0]` with `out.size() = 2^32` the `int`
counter of line 227 overflows; neither run has a defined result. -/
theorem reduction_op_zero_extent_counterexample :
    (reduction_op 4 (fun a b : Int => a + b) 1 (fun _ => 0) 0 2
        ⟨ReductionOpType.ContiguousReduce, [0], [1]⟩ [2] [0] (fun _ => 0)).map (slots 2)
      = some [5, 5]
    ∧ (reduction_op 4 (fun a b : Int => a + b) 1 (fun _ => 0) 0 2
        ⟨ReductionOpType.ContiguousReduce, [0], [1]⟩ [2] [0] (fun _ => 0)).map (slots 2)
      ≠ some [1, 1]
    ∧ reduction_op 4 (fun a b : Int => a + b) 0 (fun _ => 0) 0 (2 ^ 32)
        ⟨ReductionOpType.ContiguousStridedReduce, [0], [((2 ^ 32 : Nat) : Int)]⟩
        [65536, 65536] [65536, 1] (fun _ => 0) = none
    ∧ reduction_op 4 (fun a b : Int => a + b) 0 (fun _ => 0) 0 (2 ^ 32)
        ⟨ReductionOpType.GeneralReduce, [0], [65536]⟩ [65536, 65536] [0, 1] (fun _ => 0)
        = none := by
  refine ⟨by decide, by decide, ?_, ?_⟩
  · rw [branch_strided _ _ _ _ _ _
        ⟨ReductionOpType.ContiguousStridedReduce, [0], [((2 ^ 32 : Nat) : Int)]⟩ _ _ _ rfl rfl,
      reduction_op_strided]
    simp only [List.getLast?_singleton]
    rw [strided_group_loop, stepped_loop_stuck _ _ _ (by decide) (by decide)]
    rfl
  · rw [branch_general _ _ _ _ _ _ ⟨ReductionOpType.GeneralReduce, [0], [65536]⟩ _ _ _ rfl,
      reduction_op_general, out_loop_overflow _ _ (by decide) _ 0 _ (by decide)]
    rfl

/-- C8, amended: when a reduced extent is 0 (`x.size() = 0` with one output
under `ContiguousAllReduce`, a 0 among the plan's extents otherwise; the plan
has as many strides as extents) and the output has fewer than `2^31` elements,
`reduction_op` returns with `init` in every output slot, for every `op` and
`init` in the general branch, for every `op` and `init` in the strided branches
as long as the reduction stride is at least 1 and, when there is any output,
below `2^31`, and for every `op` and `init` with `op(init, init) = init` in the
contiguous branches. -/
theorem reduction_op_zero_extent {α : Type} (N : Nat) (hN : 1 ≤ N) (op : α → α → α) (init : α)
    (x : Int → α) (x_size M : Nat) (hM : M < 2 ^ 31) (plan : ReductionPlan)
    (shape strides : List Int)
    (out : Nat → α) (hlen : plan.strides.length = plan.shape.length)
    (hall : plan.type = ReductionOpType.ContiguousAllReduce → x_size = 0 ∧ M ≤ 1)
    (hzero : plan.type ≠ ReductionOpType.ContiguousAllReduce → (0 : Int) ∈ plan.shape)
    (hidem : plan.type = ReductionOpType.ContiguousAllReduce
      ∨ plan.type = ReductionOpType.ContiguousReduce
      ∨ plan.type = ReductionOpType.GeneralContiguousReduce → op init init = init)
    (hstride : plan.type = ReductionOpType.ContiguousStridedReduce
      ∨ plan.type = ReductionOpType.GeneralStridedReduce →
        ∀ s, plan.strides.getLast? = some s →
          1 ≤ to_size_t s ∧ (0 < M → to_size_t s < 2 ^ 31)) :
    ∃ out1, reduction_op N op init x x_size M plan shape strides out = some out1
      ∧ ∀ i, i < M → out1 i = init := by
  have hpos : plan.type ≠ ReductionOpType.ContiguousAllReduce → 0 < plan.strides.length := by
    intro h
    rw [hlen]
    exact List.length_pos_of_mem (hzero h)
  have hone : plan.type ≠ ReductionOpType.ContiguousAllReduce → plan.shape.length = 1 →
      plan.shape = [0] := by
    intro h h1
    obtain ⟨a, ha⟩ := List.length_eq_one.mp h1
    have h0 := hzero h
    rw [ha] at h0 ⊢
    rw [List.mem_singleton.mp h0]
  rw [reduction_op]
  cases htype : plan.type with
  | ContiguousAllReduce =>
    obtain ⟨hx, hM1⟩ := hall htype
    subst hx
    rw [if_pos rfl, zero_all op x N hN init (hidem (Or.inl htype))]
    refine ⟨_, rfl, ?_⟩
    intro i hi
    have : i = 0 := by omega
    subst this
    simp
  | ContiguousReduce =>
    have hne : plan.type ≠ ReductionOpType.ContiguousAllReduce := by rw [htype]; decide
    have hid := hidem (Or.inr (Or.inl htype))
    by_cases h1 : plan.shape.length = 1
    · simp only [h1, and_self, if_true, reduceCtorEq, if_false]
      rw [zero_contiguous op x N hN init hid M hM plan (hone hne h1)]
      exact ⟨_, rfl, fun i hi => by simp only [if_pos hi]⟩
    · simp only [h1, and_false, or_true, if_true, reduceCtorEq, if_false]
      rw [zero_general_contiguous op x N hN init hid M hM plan (hzero hne) (hpos hne)]
      exact ⟨_, rfl, fun i hi => by simp only [if_pos hi]⟩
  | ContiguousStridedReduce =>
    have hne : plan.type ≠ ReductionOpType.ContiguousAllReduce := by rw [htype]; decide
    obtain ⟨s, hs⟩ := last_of_length plan.strides (hpos hne)
    obtain ⟨hS, hS31⟩ := hstride (Or.inl htype) s hs
    by_cases h1 : plan.shape.length = 1
    · simp only [h1, and_self, if_true, reduceCtorEq, if_false, false_and, or_false, false_or]
      exact zero_strided op x N hN init M hM plan (hone hne h1) s hs hS hS31 out
    · simp only [h1, and_false, or_true, if_true, reduceCtorEq, if_false, false_and,
        or_false, false_or]
      exact zero_general_strided op x N hN init M hM plan (hzero hne) s hs hS hS31 shape
        strides out
  | GeneralContiguousReduce =>
    have hne : plan.type ≠ ReductionOpType.ContiguousAllReduce := by rw [htype]; decide
    have hid := hidem (Or.inr (Or.inr htype))
    simp only [reduceCtorEq, if_false, false_and, or_false, if_true]
    rw [zero_general_contiguous op x N hN init hid M hM plan (hzero hne) (hpos hne)]
    exact ⟨_, rfl, fun i hi => by simp only [if_pos hi]⟩
  | GeneralStridedReduce =>
    have hne : plan.type ≠ ReductionOpType.ContiguousAllReduce := by rw [htype]; decide
    obtain ⟨s, hs⟩ := last_of_length plan.strides (hpos hne)
    obtain ⟨hS, hS31⟩ := hstride (Or.inr htype) s hs
    simp only [reduceCtorEq, if_false, false_and, or_false, if_true, false_or]
    exact zero_general_strided op x N hN init M hM plan (hzero hne) s hs hS hS31 shape
      strides out
  | GeneralReduce =>
    have hne : plan.type ≠ ReductionOpType.ContiguousAllReduce := by rw [htype]; decide
    simp only [reduceCtorEq, if_false, false_and, or_false, if_true]
    rw [zero_general op x init M hM plan (hzero hne)]
    exact ⟨_, rfl, fun i hi => by simp only [if_pos hi]⟩

/-- A run of amended C8: `ContiguousReduce` over an extent of 0 with
`op = max` on the integers and `init = 3`, a seed with `max(3, 3) = 3` that is
not an identity of `max`. -/
theorem reduction_op_zero_extent_witness :
    (∃ out1, reduction_op 4 (fun a b : Int => max a b) 3 (fun _ => 0) 0 2
        ⟨ReductionOpType.ContiguousReduce, [0], [1]⟩ [2] [0] (fun _ => 0) = some out1
      ∧ ∀ i, i < 2 → out1 i = 3)
    ∧ (reduction_op 4 (fun a b : Int => max a b) 3 (fun _ => 0) 0 2
        ⟨ReductionOpType.ContiguousReduce, [0], [1]⟩ [2] [0] (fun _ => 0)).map (slots 3)
      = some [3, 3, 0] :=
  ⟨reduction_op_zero_extent 4 (by decide) (fun a b : Int => max a b) 3 (fun _ => 0) 0 2
    (by decide) ⟨ReductionOpType.ContiguousReduce, [0], [1]⟩ [2] [0] (fun _ => 0) rfl
    (fun h => absurd h (by decide)) (fun _ => by decide) (fun _ => by decide)
    (fun h => by rcases h with h | h <;> exact absurd h (by decide)), by decide⟩

/-! ## Several reduced axes, and the order of the strided fold -/

/-- C13, as stated, fails, because the offsets pass through `int`.  Under a
`GeneralContiguousReduce` plan of shape `[2, 1]`, strides `[2^32, 1]` with one
output, integer addition from 0 and the input holding 1 at offset 0 and 2
elsewhere, the `int extra_offset` of the callback turns the offset `2^32` into
0: `out[0] = x[0] + x[0] = 2`, not `x[0] + x[2^32] = 3`.  Under the plan shape
`[1, 1]` with the non-reduced shape `[2]`, strides `[2^32]`, the `int offset`
of line 151 does the same and the output is `[1, 1]`, not `[1, 2]`. -/
theorem reduction_op_multi_contiguous_counterexample :
    (reduction_op 2 (fun a b : Int => a + b) 0 (fun k => if k = 0 then 1 else 2) 2 1
        ⟨ReductionOpType.GeneralContiguousReduce, [2, 1], [2 ^ 32, 1]⟩ [] []
        (fun _ => 7)).map (slots 2) = some [2, 7]
    ∧ (List.range 1).map (fun (i : Nat) =>
        ((nd_offsets [2] [2 ^ 32]).flatMap
          (fun e => (List.range 1).map
            (fun (j : Nat) => (fun k : Int => if k = 0 then (1 : Int) else 2)
              (elem_to_loc (i : Int) [] [] + e + j)))).foldl (fun a b : Int => a + b) 0)
      = [3]
    ∧ (reduction_op 2 (fun a b : Int => a + b) 0 (fun k => if k = 0 then 1 else 2) 2 2
        ⟨ReductionOpType.GeneralContiguousReduce, [1, 1], [1, 1]⟩ [2] [2 ^ 32]
        (fun _ => 7)).map (slots 3) = some [1, 1, 7]
    ∧ (List.range 2).map (fun (i : Nat) =>
        ((nd_offsets [1] [1]).flatMap
          (fun e => (List.range 1).map
            (fun (j : Nat) => (fun k : Int => if k = 0 then (1 : Int) else 2)
              (elem_to_loc (i : Int) [2] [2 ^ 32] + e + j)))).foldl (fun a b : Int => a + b) 0)
      = [1, 2] := by
  decide

/-- C13, amended: for every associative, commutative `op` with identity `init`,
every plan of type `ContiguousReduce` or `GeneralContiguousReduce` whose shape
has `k ≥ 2` extents with equally many strides and every output of fewer than
`2^31` elements, `reduction_op` returns with `out[i]`, for every
`i < out.size()`, the combination from `init` of all `x[o + e + j]`, where `o`
is `elem_to_loc(i, S, T)` narrowed to `int`, `e` runs over the `nd_loop` offsets
of the plan's first `k-1` extents and strides, each narrowed to `int`, and `j`
over `0..R-1` with `R` the plan's last extent, each pair `(e, j)` taken once;
when `elem_to_loc(i, S, T)` and these offsets all lie in the range of `int`,
`out[i]` is the combination of all `x[elem_to_loc(i, S, T) + e + j]`.  Slots
from `out.size()` on are untouched. -/
theorem reduction_op_multi_contiguous {α : Type} (N : Nat) (hN : 1 ≤ N) (op : α → α → α)
    (init : α) (hassoc : ∀ a b c, op (op a b) c = op a (op b c))
    (hcomm : ∀ a b, op a b = op b a) (hidr : ∀ a, op a init = a) (hidl : ∀ a, op init a = a)
    (x : Int → α) (x_size M : Nat) (hM : M < 2 ^ 31) (plan : ReductionPlan)
    (htype : plan.type = ReductionOpType.ContiguousReduce
      ∨ plan.type = ReductionOpType.GeneralContiguousReduce)
    (hk : 2 ≤ plan.shape.length) (hlen : plan.strides.length = plan.shape.length)
    (shape strides : List Int) (out : Nat → α) :
    ∃ out1 R, plan.shape.getLast? = some R
      ∧ reduction_op N op init x x_size M plan shape strides out = some out1
      ∧ (∀ i, i < M → out1 i
          = ((nd_offsets plan.shape.dropLast plan.strides.dropLast).flatMap
              (fun e => (List.range R.toNat).map
                (fun (j : Nat) => x (to_int32 (elem_to_loc (i : Int) shape strides)
                  + to_int32 e + j)))).foldl op init)
      ∧ ((∀ i, i < M → fits_int (elem_to_loc (i : Int) shape strides)) →
          (∀ e, e ∈ nd_offsets plan.shape.dropLast plan.strides.dropLast → fits_int e) →
          ∀ i, i < M → out1 i
            = ((nd_offsets plan.shape.dropLast plan.strides.dropLast).flatMap
                (fun e => (List.range R.toNat).map
                  (fun (j : Nat) => x (elem_to_loc (i : Int) shape strides + e + j)))).foldl
                op init)
      ∧ (∀ i, M ≤ i → out1 i = out i) := by
  have _ := hidl
  obtain ⟨R, hR⟩ := last_of_length plan.shape (by omega)
  obtain ⟨s, hs⟩ := last_of_length plan.strides (by omega)
  have hrun := reduction_op_general_contiguous_run op x N hN init hassoc hcomm hidr M hM plan
    R s hR hs shape strides out
  have hbranch := branch_general_contiguous N op init x x_size M plan shape strides out
    (by
      rcases htype with htype | htype
      · exact Or.inl ⟨htype, by omega⟩
      · exact Or.inr htype)
  have hval : ∀ i, i < M →
      (if i < M
          then ((nd_offsets plan.shape.dropLast plan.strides.dropLast).flatMap
            (fun e => segment x (to_int32 (elem_to_loc (i : Int) shape strides) + to_int32 e)
              R.toNat)).foldl op init
          else out i)
        = ((nd_offsets plan.shape.dropLast plan.strides.dropLast).flatMap
              (fun e => (List.range R.toNat).map
                (fun (j : Nat) => x (to_int32 (elem_to_loc (i : Int) shape strides)
                  + to_int32 e + j)))).foldl op init := by
    intro i hi
    simp only [if_pos hi]
    rfl
  refine ⟨_, R, hR, hbranch.trans hrun, hval, ?_, ?_⟩
  · intro hloc hext i hi
    rw [hval i hi, to_int32_fits _ (hloc i hi)]
    refine congrArg (fun l => List.foldl op init l) ?_
    apply flatMap_congr_mem
    intro e he
    rw [to_int32_fits _ (hext e he)]
  · intro i hi
    simp only [if_neg (Nat.not_lt.mpr hi)]

/-- A run of C13: a `[2,2,3]` row-contiguous buffer `0..11` whose axes 0 and 2
are reduced (plan shape `[2,3]`, strides `[6,1]`), leaving axis 1 (shape `[2]`,
strides `[3]`), with integer addition. -/
theorem reduction_op_multi_contiguous_witness :
    (∃ out1 R, (⟨ReductionOpType.GeneralContiguousReduce, [2, 3], [6, 1]⟩ :
          ReductionPlan).shape.getLast? = some R
      ∧ reduction_op 2 (fun a b : Int => a + b) 0 (fun i => i) 12 2
          ⟨ReductionOpType.GeneralContiguousReduce, [2, 3], [6, 1]⟩ [2] [3] (fun _ => 7)
          = some out1
      ∧ (∀ i, i < 2 → out1 i
          = ((nd_offsets
                (⟨ReductionOpType.GeneralContiguousReduce, [2, 3], [6, 1]⟩ :
                  ReductionPlan).shape.dropLast
                (⟨ReductionOpType.GeneralContiguousReduce, [2, 3], [6, 1]⟩ :
                  ReductionPlan).strides.dropLast).flatMap
              (fun e => (List.range R.toNat).map
                (fun (j : Nat) => (fun k : Int => k)
                  (to_int32 (elem_to_loc (i : Int) [2] [3]) + to_int32 e + j)))).foldl
              (fun a b : Int => a + b) 0)
      ∧ ((∀ i : Nat, i < 2 → fits_int (elem_to_loc (i : Int) [2] [3])) →
          (∀ e, e ∈ nd_offsets
                (⟨ReductionOpType.GeneralContiguousReduce, [2, 3], [6, 1]⟩ :
                  ReductionPlan).shape.dropLast
                (⟨ReductionOpType.GeneralContiguousReduce, [2, 3], [6, 1]⟩ :
                  ReductionPlan).strides.dropLast → fits_int e) →
          ∀ i, i < 2 → out1 i
            = ((nd_offsets
                  (⟨ReductionOpType.GeneralContiguousReduce, [2, 3], [6, 1]⟩ :
                    ReductionPlan).shape.dropLast
                  (⟨ReductionOpType.GeneralContiguousReduce, [2, 3], [6, 1]⟩ :
                    ReductionPlan).strides.dropLast).flatMap
                (fun e => (List.range R.toNat).map
                  (fun (j : Nat) => (fun k : Int => k)
                    (elem_to_loc (i : Int) [2] [3] + e + j)))).foldl
                (fun a b : Int => a + b) 0)
      ∧ (∀ i, 2 ≤ i → out1 i = 7))
    ∧ (reduction_op 2 (fun a b : Int => a + b) 0 (fun i => i) 12 2
          ⟨ReductionOpType.GeneralContiguousReduce, [2, 3], [6, 1]⟩ [2] [3]
          (fun _ => 7)).map (slots 3) = some [24, 42, 7] :=
  ⟨reduction_op_multi_contiguous 2 (by decide) (fun a b : Int => a + b) 0
      (fun a b c => Int.add_assoc a b c) (fun a b => Int.add_comm a b)
      (fun a => Int.add_zero a) (fun a => Int.zero_add a) (fun i => i) 12 2 (by decide)
      ⟨ReductionOpType.GeneralContiguousReduce, [2, 3], [6, 1]⟩ (Or.inr rfl) (by decide) rfl
      [2] [3] (fun _ => 7), by decide⟩

/-- C14, as stated, fails: for 3 groups of `2^30` elements, the input holding 1
at offset `2^31` and 0 elsewhere, and integer addition from 0, the
`ContiguousStridedReduce` path gives `out[0] = x[0] + x[2^30] + x[2^31] = 1`,
while the `GeneralReduce` path hands the offset `2^31` to the `int` parameter of
its callback, reads `x[-2^31]` instead and gives `out[0] = 0`. -/
theorem strided_eq_general_counterexample :
    ∃ outS outG,
      reduction_op 4 (fun a b : Int => a + b) 0 (fun k => if k = 2 ^ 31 then 1 else 0)
          (3 * 2 ^ 30) (2 ^ 30)
          ⟨ReductionOpType.ContiguousStridedReduce, [((3 : Nat) : Int)],
            [((2 ^ 30 : Nat) : Int)]⟩
          [((2 ^ 30 : Nat) : Int)] [1] (fun _ => 7) = some outS
      ∧ reduction_op 4 (fun a b : Int => a + b) 0 (fun k => if k = 2 ^ 31 then 1 else 0)
          (3 * 2 ^ 30) (2 ^ 30)
          ⟨ReductionOpType.GeneralReduce, [((3 : Nat) : Int)], [((2 ^ 30 : Nat) : Int)]⟩
          [((2 ^ 30 : Nat) : Int)] [1] (fun _ => 7) = some outG
      ∧ outS 0 = 1 ∧ outG 0 = 0 := by
  refine ⟨_, _,
    (branch_strided 4 _ 0 _ _ _
      ⟨ReductionOpType.ContiguousStridedReduce, [((3 : Nat) : Int)],
        [((2 ^ 30 : Nat) : Int)]⟩ _ _ _ rfl rfl).trans
      (reduction_op_strided_run _ _ 4 (by decide) 0 (2 ^ 30) (by decide)
        ⟨ReductionOpType.ContiguousStridedReduce, [((3 : Nat) : Int)],
          [((2 ^ 30 : Nat) : Int)]⟩
        ((3 : Nat) : Int) ((2 ^ 30 : Nat) : Int) rfl rfl (by decide) (fun _ => by decide) _ 1
        (by decide) (fun g1 h => by
          have : g1 = 0 := by omega
          subst this
          decide)),
    (branch_general 4 _ 0 _ _ _
      ⟨ReductionOpType.GeneralReduce, [((3 : Nat) : Int)], [((2 ^ 30 : Nat) : Int)]⟩
      _ _ _ rfl).trans
      (reduction_op_general_run _ _ 0 (2 ^ 30) (by decide) _ _ _ _), ?_, ?_⟩
  · decide
  · decide

/-- C14, amended: for every `op` (no algebraic law assumed), every `init` and
every input of `R` groups of `S` elements, `1 ≤ S < 2^31`, reduced over its
outer axis whose group offsets `i*S`, `i < R`, are all below `2^31`, the
`ContiguousStridedReduce` path of `reduction_op` (plan shape `[R]`, strides
`[S]`) and the `GeneralReduce` path on the same data (plan shape `[R]`, strides
`[S]`, non-reduced shape `[S]`, strides `[1]`) return the same output buffer,
slot `j < S` holding the left fold from `init` of `x[j + i*S]` in increasing
order of `i`. -/
theorem strided_eq_general {α : Type} (N : Nat) (hN : 1 ≤ N) (op : α → α → α) (init : α)
    (x : Int → α) (x_size R S : Nat) (hS : 1 ≤ S) (hS31 : S < 2 ^ 31)
    (hoff : ∀ i, i < R → i * S < 2 ^ 31)
    (planS planG : ReductionPlan)
    (htypeS : planS.type = ReductionOpType.ContiguousStridedReduce)
    (hshapeS : planS.shape = [(R : Int)]) (hstridesS : planS.strides = [(S : Int)])
    (htypeG : planG.type = ReductionOpType.GeneralReduce)
    (hshapeG : planG.shape = [(R : Int)]) (hstridesG : planG.strides = [(S : Int)])
    (shapeS stridesS : List Int) (out : Nat → α) :
    ∃ out1, reduction_op N op init x x_size S planS shapeS stridesS out = some out1
      ∧ reduction_op N op init x x_size S planG [(S : Int)] [1] out = some out1
      ∧ ∀ j, j < S → out1 j
          = ((List.range R).map (fun (i : Nat) => x ((j : Int) + (i : Int) * S))).foldl op
              init := by
  have hSs : to_size_t (S : Int) = S := to_size_t_small S (by omega)
  have hrunS : reduction_op N op init x x_size S planS shapeS stridesS out
      = some (fun t => if t < S
          then ((List.range R).map (fun (i : Nat) => x ((t : Int) + (i : Int) * S))).foldl op
            init
          else out t) := by
    rw [branch_strided N op init x x_size S planS shapeS stridesS out htypeS
        (by rw [hshapeS]; rfl),
      reduction_op_strided_run op x N hN init S hS31 planS (R : Int) (S : Int)
        (by rw [hshapeS]; rfl) (by rw [hstridesS]; rfl) (by rw [hSs]; exact hS)
        (fun _ => by rw [hSs]; exact hS31) out 1
        (by rw [hSs]; omega) (fun g1 h => by
          have : g1 = 0 := by omega
          subst this
          omega)]
    congr 1
    funext t
    rw [hSs]
    by_cases ht : t < S
    · rw [if_pos (by omega), if_pos ht, Nat.div_eq_of_lt ht, Nat.mod_eq_of_lt ht]
      simp only [column, Nat.cast_zero, zero_mul, zero_add, Int.toNat_ofNat]
    · rw [if_neg (by omega), if_neg ht]
  have hrunG : reduction_op N op init x x_size S planG [(S : Int)] [1] out
      = some (fun t => if t < S
          then ((List.range R).map (fun (i : Nat) => x ((t : Int) + (i : Int) * S))).foldl op
            init
          else out t) := by
    rw [branch_general N op init x x_size S planG _ _ out htypeG,
      reduction_op_general_run op x init S hS31 planG _ _ out, hshapeG, hstridesG,
      nd_offsets_single]
    congr 1
    funext t
    by_cases ht : t < S
    · rw [if_pos ht, if_pos ht, elem_to_loc_single t S _ ht, List.map_map, mul_one,
        to_int32_nat t (by omega)]
      refine congrArg (fun l => List.foldl op init l) ?_
      apply List.map_congr_left
      intro i hi
      have h := to_int32_nat (i * S) (hoff i (List.mem_range.mp hi))
      push_cast at h
      simp only [Function.comp, h]
    · rw [if_neg ht, if_neg ht]
  refine ⟨_, hrunS, hrunG, ?_⟩
  intro j hj
  simp only [if_pos hj]

/-- A run of C14 with the operator `a, b ↦ 10*a + b`, neither associative nor
commutative: three groups of two elements `1..6` give the digits in order of
the reduced index on both paths. -/
theorem strided_eq_general_witness :
    (∃ out1, reduction_op 2 (fun a b : Int => 10 * a + b) 0 (of_list 0 [1, 2, 3, 4, 5, 6]) 6 2
          ⟨ReductionOpType.ContiguousStridedReduce, [((3 : Nat) : Int)], [((2 : Nat) : Int)]⟩
          [2] [1] (fun _ => 7) = some out1
      ∧ reduction_op 2 (fun a b : Int => 10 * a + b) 0 (of_list 0 [1, 2, 3, 4, 5, 6]) 6 2
          ⟨ReductionOpType.GeneralReduce, [((3 : Nat) : Int)], [((2 : Nat) : Int)]⟩
          [((2 : Nat) : Int)] [1] (fun _ => 7) = some out1
      ∧ ∀ j, j < 2 → out1 j
          = ((List.range 3).map (fun (i : Nat) =>
              of_list 0 [1, 2, 3, 4, 5, 6] ((j : Int) + (i : Int) * (2 : Nat)))).foldl
              (fun a b : Int => 10 * a + b) 0)
    ∧ (reduction_op 2 (fun a b : Int => 10 * a + b) 0 (of_list 0 [1, 2, 3, 4, 5, 6]) 6 2
          ⟨ReductionOpType.ContiguousStridedReduce, [((3 : Nat) : Int)], [((2 : Nat) : Int)]⟩
          [2] [1] (fun _ => 7)).map (slots 3) = some [135, 246, 7]
    ∧ (reduction_op 2 (fun a b : Int => 10 * a + b) 0 (of_list 0 [1, 2, 3, 4, 5, 6]) 6 2
          ⟨ReductionOpType.GeneralReduce, [((3 : Nat) : Int)], [((2 : Nat) : Int)]⟩
          [((2 : Nat) : Int)] [1] (fun _ => 7)).map (slots 3) = some [135, 246, 7] :=
  ⟨strided_eq_general 2 (by decide) (fun a b : Int => 10 * a + b) 0
      (of_list 0 [1, 2, 3, 4, 5, 6]) 6 3 2 (by decide) (by decide) (fun i hi => by omega)
      ⟨ReductionOpType.ContiguousStridedReduce, [((3 : Nat) : Int)], [((2 : Nat) : Int)]⟩
      ⟨ReductionOpType.GeneralReduce, [((3 : Nat) : Int)], [((2 : Nat) : Int)]⟩
      rfl rfl rfl rfl rfl rfl [2] [1] (fun _ => 7), by decide, by decide⟩

/-! ## The range of the output -/

/-- C17: for every plan of a type other than `ContiguousAllReduce` (with a
non-empty plan shape and as many strides where the branch reads the last
extent, that is outside `GeneralReduce`), when `out.size() = 0` `reduction_op`
returns with the output buffer exactly as it was, whatever the input buffer,
`op`, `init` and vector width: the loop over the output runs its body, which
holds every read, write and kernel call, zero times, whatever that body is. -/
theorem reduction_op_zero_output {α : Type} (N : Nat) (op : α → α → α) (init : α)
    (x : Int → α) (x_size : Nat) (plan : ReductionPlan) (shape strides : List Int)
    (out : Nat → α) (hne : plan.type ≠ ReductionOpType.ContiguousAllReduce)
    (hlast : plan.type ≠ ReductionOpType.GeneralReduce →
      plan.shape ≠ [] ∧ plan.strides.length = plan.shape.length) :
    reduction_op N op init x x_size 0 plan shape strides out = some out
    ∧ (∀ (σ : Type) (body : Nat → σ → Option σ) (s : σ), for_loop body 0 0 s = some s)
    ∧ (∀ (σ : Type) (body : Int → σ → Option σ) (step : Nat) (s : σ),
        stepped_loop body 0 step (0 + 1) 0 s = some s)
    ∧ (∀ (σ : Type) (body : Nat → σ → Option σ) (s : σ),
        out_loop body 0 (0 + 1) 0 s = some s) := by
  refine ⟨?_, fun _ _ _ => rfl, fun _ _ _ _ => rfl, fun _ _ _ => rfl⟩
  have hlasts : plan.type ≠ ReductionOpType.GeneralReduce →
      ∃ R s, plan.shape.getLast? = some R ∧ plan.strides.getLast? = some s := by
    intro h
    obtain ⟨h1, h2⟩ := hlast h
    have hpos : 0 < plan.shape.length := List.length_pos.mpr h1
    obtain ⟨R, hR⟩ := last_of_length plan.shape hpos
    obtain ⟨s, hs⟩ := last_of_length plan.strides (by omega)
    exact ⟨R, s, hR, hs⟩
  rw [reduction_op]
  cases htype : plan.type with
  | ContiguousAllReduce => exact absurd htype hne
  | ContiguousReduce =>
    obtain ⟨R, s, hR, hs⟩ := hlasts (by rw [htype]; decide)
    by_cases h1 : plan.shape.length = 1
    · simp only [h1, and_self, if_true, reduceCtorEq, if_false]
      rfl
    · simp only [h1, and_false, or_true, if_true, reduceCtorEq, if_false]
      rw [reduction_op_general_contiguous, hR, hs]
      simp only
      split <;> rfl
  | ContiguousStridedReduce =>
    obtain ⟨R, s, hR, hs⟩ := hlasts (by rw [htype]; decide)
    by_cases h1 : plan.shape.length = 1
    · simp only [h1, and_self, if_true, reduceCtorEq, if_false, false_and, or_false]
      rw [reduction_op_strided, hR, hs]
      rfl
    · simp only [h1, and_false, or_true, if_true, reduceCtorEq, if_false, false_and,
        or_false]
      rw [reduction_op_general_strided, hR, hs]
      simp only [general_strided_group_loop]
      split <;> rfl
  | GeneralContiguousReduce =>
    obtain ⟨R, s, hR, hs⟩ := hlasts (by rw [htype]; decide)
    simp only [reduceCtorEq, if_false, false_and, true_or, if_true]
    rw [reduction_op_general_contiguous, hR, hs]
    simp only
    split <;> rfl
  | GeneralStridedReduce =>
    obtain ⟨R, s, hR, hs⟩ := hlasts (by rw [htype]; decide)
    simp only [reduceCtorEq, if_false, false_and, or_false, true_or, if_true]
    rw [reduction_op_general_strided, hR, hs]
    simp only [general_strided_group_loop]
    split <;> rfl
  | GeneralReduce =>
    simp only [reduceCtorEq, if_false, false_and, or_false, if_true]
    rfl

/-- A run of C17: a `GeneralStridedReduce` plan with an output of size 0, and
width 0, for which any kernel call on a non-negative size would not return. -/
theorem reduction_op_zero_output_witness :
    reduction_op 0 (fun a b : Int => a + b) 1 (fun i => i) 0 0
        ⟨ReductionOpType.GeneralStridedReduce, [2, 3], [0, 0]⟩ [0] [1] (fun _ => 7)
      = some (fun _ => 7)
    ∧ (∀ (σ : Type) (body : Nat → σ → Option σ) (s : σ), for_loop body 0 0 s = some s)
    ∧ (∀ (σ : Type) (body : Int → σ → Option σ) (step : Nat) (s : σ),
        stepped_loop body 0 step (0 + 1) 0 s = some s)
    ∧ (∀ (σ : Type) (body : Nat → σ → Option σ) (s : σ),
        out_loop body 0 (0 + 1) 0 s = some s) :=
  reduction_op_zero_output 0 (fun a b : Int => a + b) 1 (fun i => i) 0
    ⟨ReductionOpType.GeneralStridedReduce, [2, 3], [0, 0]⟩ [0] [1] (fun _ => 7)
    (by decide) (fun _ => ⟨by decide, rfl⟩)

/-- C18, as stated, fails: under a `GeneralStridedReduce` plan of shape `[3]`
with the reduction stride `S = 2^32` and `out.size() = 2^32`, so that `S ≥ 1`
and `S` divides `out.size()`, the `int` counter of line 195 is back at 0 after
`i += reduction_stride`; the loop over output groups does not end after
`out.size() / S = 1` iteration, nor after any number of them. -/
theorem strided_branches_cover_counterexample :
    reduction_op 4 (fun a b : Int => a + b) 0 (fun i => i) (3 * 2 ^ 32) (2 ^ 32)
        ⟨ReductionOpType.GeneralStridedReduce, [3], [((2 ^ 32 : Nat) : Int)]⟩
        [((2 ^ 32 : Nat) : Int)] [1] (fun _ => 0) = none
    ∧ ∀ fuel, general_strided_group_loop 4 (fun a b : Int => a + b) 0 (fun i => i) (2 ^ 32)
        [((2 ^ 32 : Nat) : Int)] [1] [] [] 3 (2 ^ 32) fuel (fun _ => 0) = none := by
  have hloop : ∀ fuel, general_strided_group_loop 4 (fun a b : Int => a + b) 0 (fun i => i)
      (2 ^ 32) [((2 ^ 32 : Nat) : Int)] [1] [] [] 3 (2 ^ 32) fuel (fun _ => 0) = none := by
    intro fuel
    rw [general_strided_group_loop, if_pos List.length_nil,
      stepped_loop_stuck _ _ _ (by decide) (by decide)]
  refine ⟨?_, hloop⟩
  rw [branch_general_strided _ _ _ _ _ _
      ⟨ReductionOpType.GeneralStridedReduce, [3], [((2 ^ 32 : Nat) : Int)]⟩ _ _ _
      (Or.inr rfl),
    reduction_op_general_strided]
  simp only [List.getLast?_singleton, List.dropLast_single]
  have h64 : to_size_t ((2 ^ 32 : Nat) : Int) = 2 ^ 32 := by decide
  rw [h64, hloop]
  rfl

/-- C18, amended: for every plan of type `ContiguousStridedReduce` or
`GeneralStridedReduce` whose reduction stride `S` satisfies `S ≥ 1` and
`S ∣ out.size()`, and every output of fewer than `2^31` elements,
`reduction_op` returns.  Every slot `t` below `out.size()` then holds the left
fold started from `init` of input elements alone, whatever the output held
before (its group was filled with `init` before any accumulation into it): in
the branch of lines 169-183 the elements `x[(t/S)*S*R + t%S + i*S]`, `i < R`,
and in the branch of lines 185-221, for each `nd_loop` offset `e` of the
plan's leading extents in turn, the elements `x[o + e + t%S + i*S]`, `i < R`,
with `o` the `int` value of `elem_to_loc((t/S)*S, shape, strides)` and `e`
narrowed to `int`.  Every slot from `out.size()` on is as it was.  Each of the
two loops over output groups ends after exactly `out.size() / S` iterations: it
returns precisely when it may test its condition more than `out.size() / S`
times.  One iteration, entered with `out_ptr = p`, steps `out_ptr` by `S`,
leaves in the `S` slots from `p` on the folds from `init` of the elements of
its group alone, and leaves every other slot as it was; so each slot is filled
in exactly one iteration. -/
theorem strided_branches_cover {α : Type} (N : Nat) (hN : 1 ≤ N) (op : α → α → α) (init : α)
    (x : Int → α) (x_size M : Nat) (hM : M < 2 ^ 31) (plan : ReductionPlan)
    (shape strides : List Int) (out : Nat → α)
    (htype : plan.type = ReductionOpType.ContiguousStridedReduce
      ∨ plan.type = ReductionOpType.GeneralStridedReduce)
    (R s : Int) (hR : plan.shape.getLast? = some R) (hs : plan.strides.getLast? = some s)
    (hS : 1 ≤ to_size_t s) (hdiv : to_size_t s ∣ M) :
    ∃ out1, reduction_op N op init x x_size M plan shape strides out = some out1
      ∧ (plan.type = ReductionOpType.ContiguousStridedReduce ∧ plan.shape.length = 1 →
          ∀ t, t < M → out1 t
            = (column x (((t / to_size_t s : Nat) : Int) * ((to_size_t s : Int) * R))
                (to_size_t s) (t % to_size_t s) R.toNat).foldl op init)
      ∧ (¬ (plan.type = ReductionOpType.ContiguousStridedReduce ∧ plan.shape.length = 1) →
          ∀ t, t < M → out1 t
            = ((nd_offsets plan.shape.dropLast plan.strides.dropLast).flatMap
                (fun e => column x
                  (to_int32 (elem_to_loc ((t / to_size_t s * to_size_t s : Nat) : Int) shape
                    strides) + to_int32 e)
                  (to_size_t s) (t % to_size_t s) R.toNat)).foldl op init)
      ∧ (∀ t, M ≤ t → out1 t = out t)
      ∧ (∀ fuel, (strided_group_loop N op init x M R (to_size_t s) fuel out).isSome
          ↔ M / to_size_t s < fuel)
      ∧ (∀ fuel, (general_strided_group_loop N op init x M shape strides plan.shape.dropLast
            plan.strides.dropLast R (to_size_t s) fuel out).isSome
          ↔ M / to_size_t s < fuel)
      ∧ (∀ (i xp : Int) (p : Nat) (o : Nat → α),
          strided_group N op init x R (to_size_t s) i (xp, p, o)
            = some (xp + (to_size_t s : Int) * R, p + to_size_t s,
                fun t => if p ≤ t ∧ t < p + to_size_t s
                  then (column x xp (to_size_t s) (t - p) R.toNat).foldl op init else o t))
      ∧ (∀ (i : Int) (p : Nat) (o : Nat → α),
          (if plan.shape.dropLast.length = 0
            then general_strided_flat_group N op init x shape strides R (to_size_t s) i (p, o)
            else general_strided_nd_group N op init x shape strides plan.shape.dropLast
              plan.strides.dropLast R (to_size_t s) i (p, o))
            = some (p + to_size_t s,
                fun t => if p ≤ t ∧ t < p + to_size_t s
                  then ((nd_offsets plan.shape.dropLast plan.strides.dropLast).flatMap
                    (fun e => column x (to_int32 (elem_to_loc i shape strides) + to_int32 e)
                      (to_size_t s) (t - p) R.toNat)).foldl op init
                  else o t)) := by
  obtain ⟨G, hG⟩ := hdiv
  have hMG : M = G * to_size_t s := by rw [hG, Nat.mul_comm]
  have hb : M ≤ G * to_size_t s := by omega
  have hlt : ∀ g1, g1 < G → g1 * to_size_t s < M := by
    intro g1 h
    have h1 : (g1 + 1) * to_size_t s ≤ G * to_size_t s := Nat.mul_le_mul_right _ h
    have h2 : (g1 + 1) * to_size_t s = g1 * to_size_t s + to_size_t s := by ring
    omega
  have hquot : M / to_size_t s = G := by
    rw [hG]
    exact Nat.mul_div_cancel_left G (by omega)
  have hS31 : 0 < M → to_size_t s < 2 ^ 31 := by
    intro h0
    have hG0 : 0 < G := by
      rcases Nat.eq_zero_or_pos G with h | h
      · rw [h] at hMG
        omega
      · exact h
    have : to_size_t s ≤ G * to_size_t s := Nat.le_mul_of_pos_left _ hG0
    omega
  have hc1 : ∀ fuel, (strided_group_loop N op init x M R (to_size_t s) fuel out).isSome
      ↔ M / to_size_t s < fuel := by
    intro fuel
    rw [hquot]
    exact strided_group_loop_count op x N hN init M hM R (to_size_t s) hS31 out G fuel hb hlt
  have hc2 : ∀ fuel, (general_strided_group_loop N op init x M shape strides
      plan.shape.dropLast plan.strides.dropLast R (to_size_t s) fuel out).isSome
      ↔ M / to_size_t s < fuel := by
    intro fuel
    rw [hquot]
    exact general_strided_group_loop_count op x N hN init M hM shape strides
      plan.shape.dropLast plan.strides.dropLast R (to_size_t s) hS31 out G fuel hb hlt
  have hg1 := strided_group_run op x N hN init R (to_size_t s)
  have hg2 := general_strided_group_run op x N hN init shape strides plan.shape.dropLast
    plan.strides.dropLast R (to_size_t s)
  by_cases hfour : plan.type = ReductionOpType.ContiguousStridedReduce
      ∧ plan.shape.length = 1
  · refine ⟨_, (branch_strided N op init x x_size M plan shape strides out hfour.1
        hfour.2).trans (reduction_op_strided_run op x N hN init M hM plan R s hR hs hS hS31
        out G hb hlt), ?_, fun h => absurd hfour h, ?_, hc1, hc2, hg1, hg2⟩
    · intro _ t ht
      simp only [if_pos (show t < G * to_size_t s by omega)]
    · intro t ht
      simp only [if_neg (show ¬ t < G * to_size_t s by omega)]
  · have hbranch := branch_general_strided N op init x x_size M plan shape strides out
      (by
        rcases htype with htype | htype
        · exact Or.inl ⟨htype, fun h => hfour ⟨htype, h⟩⟩
        · exact Or.inr htype)
    refine ⟨_, hbranch.trans (reduction_op_general_strided_run op x N hN init M hM plan R s
        hR hs hS hS31 shape strides out G hb hlt), fun h => absurd h hfour, ?_, ?_, hc1, hc2,
      hg1, hg2⟩
    · intro _ t ht
      simp only [if_pos (show t < G * to_size_t s by omega)]
    · intro t ht
      simp only [if_neg (show ¬ t < G * to_size_t s by omega)]

/-- A run of C18: a `ContiguousStridedReduce` plan of shape `[3]`, strides `[2]`
on two blocks of `0..11`, output size 4; slots 4 and 5 keep their old value,
and the loop over the two output groups returns with fuel 3 and not with
fuel 2. -/
theorem strided_branches_cover_witness :
    (∃ out1, reduction_op 2 (fun a b : Int => a + b) 0 (fun i => i) 12 4
          ⟨ReductionOpType.ContiguousStridedReduce, [3], [2]⟩ [2, 2] [6, 1] (fun _ => 7)
          = some out1
      ∧ ((⟨ReductionOpType.ContiguousStridedReduce, [3], [2]⟩ : ReductionPlan).type
            = ReductionOpType.ContiguousStridedReduce
          ∧ (⟨ReductionOpType.ContiguousStridedReduce, [3], [2]⟩ :
              ReductionPlan).shape.length = 1 →
          ∀ t, t < 4 → out1 t
            = (column (fun i : Int => i) (((t / to_size_t 2 : Nat) : Int)
                  * ((to_size_t 2 : Int) * 3))
                (to_size_t 2) (t % to_size_t 2) (3 : Int).toNat).foldl
                (fun a b : Int => a + b) 0)
      ∧ (¬ ((⟨ReductionOpType.ContiguousStridedReduce, [3], [2]⟩ : ReductionPlan).type
            = ReductionOpType.ContiguousStridedReduce
          ∧ (⟨ReductionOpType.ContiguousStridedReduce, [3], [2]⟩ :
              ReductionPlan).shape.length = 1) →
          ∀ t, t < 4 → out1 t
            = ((nd_offsets
                  (⟨ReductionOpType.ContiguousStridedReduce, [3], [2]⟩ :
                    ReductionPlan).shape.dropLast
                  (⟨ReductionOpType.ContiguousStridedReduce, [3], [2]⟩ :
                    ReductionPlan).strides.dropLast).flatMap
                (fun e => column (fun i : Int => i)
                  (to_int32 (elem_to_loc ((t / to_size_t 2 * to_size_t 2 : Nat) : Int)
                    [2, 2] [6, 1]) + to_int32 e)
                  (to_size_t 2) (t % to_size_t 2) (3 : Int).toNat)).foldl
                (fun a b : Int => a + b) 0)
      ∧ (∀ t, 4 ≤ t → out1 t = 7)
      ∧ (∀ fuel, (strided_group_loop 2 (fun a b : Int => a + b) 0 (fun i => i) 4 3
            (to_size_t 2) fuel (fun _ => 7)).isSome ↔ 4 / to_size_t 2 < fuel)
      ∧ (∀ fuel, (general_strided_group_loop 2 (fun a b : Int => a + b) 0 (fun i => i) 4
            [2, 2] [6, 1]
            (⟨ReductionOpType.ContiguousStridedReduce, [3], [2]⟩ :
              ReductionPlan).shape.dropLast
            (⟨ReductionOpType.ContiguousStridedReduce, [3], [2]⟩ :
              ReductionPlan).strides.dropLast 3 (to_size_t 2) fuel (fun _ => 7)).isSome
          ↔ 4 / to_size_t 2 < fuel)
      ∧ (∀ (i xp : Int) (p : Nat) (o : Nat → Int),
          strided_group 2 (fun a b : Int => a + b) 0 (fun i => i) 3 (to_size_t 2) i (xp, p, o)
            = some (xp + (to_size_t 2 : Int) * 3, p + to_size_t 2,
                fun t => if p ≤ t ∧ t < p + to_size_t 2
                  then (column (fun i : Int => i) xp (to_size_t 2) (t - p)
                    (3 : Int).toNat).foldl (fun a b : Int => a + b) 0 else o t))
      ∧ (∀ (i : Int) (p : Nat) (o : Nat → Int),
          (if (⟨ReductionOpType.ContiguousStridedReduce, [3], [2]⟩ :
                ReductionPlan).shape.dropLast.length = 0
            then general_strided_flat_group 2 (fun a b : Int => a + b) 0 (fun i => i)
              [2, 2] [6, 1] 3 (to_size_t 2) i (p, o)
            else general_strided_nd_group 2 (fun a b : Int => a + b) 0 (fun i => i)
              [2, 2] [6, 1]
              (⟨ReductionOpType.ContiguousStridedReduce, [3], [2]⟩ :
                ReductionPlan).shape.dropLast
              (⟨ReductionOpType.ContiguousStridedReduce, [3], [2]⟩ :
                ReductionPlan).strides.dropLast 3 (to_size_t 2) i (p, o))
            = some (p + to_size_t 2,
                fun t => if p ≤ t ∧ t < p + to_size_t 2
                  then ((nd_offsets
                      (⟨ReductionOpType.ContiguousStridedReduce, [3], [2]⟩ :
                        ReductionPlan).shape.dropLast
                      (⟨ReductionOpType.ContiguousStridedReduce, [3], [2]⟩ :
                        ReductionPlan).strides.dropLast).flatMap
                    (fun e => column (fun i : Int => i)
                      (to_int32 (elem_to_loc i [2, 2] [6, 1]) + to_int32 e)
                      (to_size_t 2) (t - p) (3 : Int).toNat)).foldl
                    (fun a b : Int => a + b) 0
                  else o t)))
    ∧ (reduction_op 2 (fun a b : Int => a + b) 0 (fun i => i) 12 4
          ⟨ReductionOpType.ContiguousStridedReduce, [3], [2]⟩ [2, 2] [6, 1]
          (fun _ => 7)).map (slots 6) = some [6, 9, 24, 27, 7, 7]
    ∧ (strided_group_loop 2 (fun a b : Int => a + b) 0 (fun i => i) 4 3 2 3
          (fun _ => 7)).isSome = true
    ∧ (strided_group_loop 2 (fun a b : Int => a + b) 0 (fun i => i) 4 3 2 2
          (fun _ => 7)).isSome = false :=
  ⟨strided_branches_cover 2 (by decide) (fun a b : Int => a + b) 0 (fun i => i) 12 4
      (by decide) ⟨ReductionOpType.ContiguousStridedReduce, [3], [2]⟩ [2, 2] [6, 1]
      (fun _ => 7) (Or.inl rfl) 3 2 rfl rfl (by decide) (by decide), by decide, by decide,
    by decide⟩

end mlx
